import Mathlib

/-!
# BusTub storage core: buffer pool, LRU-K replacer, extendible hash table, B+Tree, trie

A shallow embedding of the C++ sources.  Every function is a pure function on an
explicit state.  The embedding is sequential: mutexes and page latches are not
part of the state, so lock acquisition (including a second acquisition of a
latch that the caller already holds) has no effect here.

A call that does not come back with a value ends in a `Fault`:
* `exception`  - a C++ exception leaves the call (`throw std::exception()`, ...);
* `aborted`    - an `assert` fails;
* `undefined`  - the C++ standard gives the execution no meaning (flowing off the
  end of a value-returning function, reading an uninitialised variable, signed
  overflow, an out-of-range index, bytes of one page layout read as another);
* `diverged`   - the iteration budget handed to a loop was used up.
-/

namespace Bustub

/-- Ways in which a call fails to return. -/
inductive Fault where
  | exception
  | aborted
  | undefined
  | diverged
  deriving DecidableEq

/-- Replace the value of a function at one point (array or map store). -/
def setAt {α : Type} (f : Nat → α) (i : Nat) (v : α) : Nat → α :=
  fun j => if j = i then v else f j

/-- Replace the value of a function on `Int` at one point. -/
def setAtI {α : Type} (f : Int → α) (i : Int) (v : α) : Int → α :=
  fun j => if j = i then v else f j

/-- Modelled from the spec: the constant `INVALID_PAGE_ID` of `common/config.h`, which is
not among the sources; its value is -1. -/
def INVALID_PAGE_ID : Int := -1

/-- Largest value of a C++ `int`. -/
def INT_MAX : Int := 2147483647

/-! ## ExtendibleHashTable (`extendible_hash_table.cpp`, `extendible_hash_table.h`) -/

/-- The function `std::hash<int>` of the standard library: the identity, widened to the
64-bit `size_t`. -/
def hashKey (k : Int) : Nat := (k % 18446744073709551616).toNat

/-- One bucket: `size_` is the capacity, `depth_` the local depth, `list_` the entries. -/
structure Bucket (V : Type) where
  size_ : Nat
  depth_ : Nat
  list_ : List (Int × V)

/-- The method `Bucket::IsFull`. -/
def Bucket.IsFull {V : Type} (b : Bucket V) : Bool := b.list_.length == b.size_

/-- The method `Bucket::GetDepth`. -/
def Bucket.GetDepth {V : Type} (b : Bucket V) : Nat := b.depth_

/-- The method `Bucket::Find`: the value of the first entry with this key. -/
def Bucket.Find {V : Type} (b : Bucket V) (key : Int) : Option V :=
  match b.list_.find? (fun p => p.1 == key) with
  | some p => some p.2
  | none => none

/-- The method `Bucket::Remove`: erase the first entry with this key. -/
def Bucket.Remove {V : Type} (b : Bucket V) (key : Int) : Bucket V × Bool :=
  if b.list_.any (fun p => p.1 == key) then
    ({ b with list_ := b.list_.eraseP (fun p => p.1 == key) }, true)
  else (b, false)

/-- The method `Bucket::Insert`.  The loop `for (auto v : list_)` iterates over copies,
so the assignment `v.second = value` never reaches the stored entry. -/
def Bucket.Insert {V : Type} (b : Bucket V) (key : Int) (value : V) : Bucket V × Bool :=
  if b.IsFull then (b, false)
  else if b.list_.any (fun p => p.1 == key) then (b, true)
  else ({ b with list_ := b.list_ ++ [(key, value)] }, true)

/-- The table.  A `std::shared_ptr<Bucket>` is a handle into `store_`, which keeps
every bucket object made by `make_shared`; two directory slots hold the same pointer
exactly when they hold the same handle. -/
structure ExtendibleHashTable (V : Type) where
  global_depth_ : Nat
  bucket_size_ : Nat
  num_buckets_ : Nat
  dir_ : List Nat
  store_ : List (Bucket V)

namespace ExtendibleHashTable

variable {V : Type}

/-- The constructor: one empty bucket of depth 0, global depth 0. -/
def new (bucket_size : Nat) : ExtendibleHashTable V :=
  { global_depth_ := 0, bucket_size_ := bucket_size, num_buckets_ := 1,
    dir_ := [0], store_ := [{ size_ := bucket_size, depth_ := 0, list_ := [] }] }

/-- The method `IndexOf`: `hash & ((1 << global_depth_) - 1)`.  The mask is an `int`;
for a depth of 31 or more the shift or the subtraction overflows. -/
def IndexOf (t : ExtendibleHashTable V) (key : Int) : Except Fault Nat :=
  if 31 ≤ t.global_depth_ then .error .undefined
  else .ok (hashKey key % 2 ^ t.global_depth_)

/-- The method `GetGlobalDepth`. -/
def GetGlobalDepth (t : ExtendibleHashTable V) : Nat := t.global_depth_

/-- The method `GetNumBuckets`. -/
def GetNumBuckets (t : ExtendibleHashTable V) : Nat := t.num_buckets_

/-- The expression `dir_[index]` followed by a dereference: the handle and its bucket. -/
def bucketAt (t : ExtendibleHashTable V) (index : Nat) : Option (Nat × Bucket V) :=
  match t.dir_[index]? with
  | none => none
  | some h =>
    match t.store_[h]? with
    | none => none
    | some b => some (h, b)

/-- The method `GetLocalDepth`. -/
def GetLocalDepth (t : ExtendibleHashTable V) (dir_index : Nat) : Option Nat :=
  match bucketAt t dir_index with
  | some (_, b) => some b.depth_
  | none => none

/-- The method `Find`. -/
def Find (t : ExtendibleHashTable V) (key : Int) : Except Fault (Option V) :=
  match IndexOf t key with
  | .error e => .error e
  | .ok index =>
    match bucketAt t index with
    | none => .error .undefined
    | some (_, b) => .ok (b.Find key)

/-- The method `Remove`. -/
def Remove (t : ExtendibleHashTable V) (key : Int) : Except Fault (ExtendibleHashTable V × Bool) :=
  match IndexOf t key with
  | .error e => .error e
  | .ok index =>
    match bucketAt t index with
    | none => .error .undefined
    | some (h, b) =>
      let r := b.Remove key
      .ok ({ t with store_ := t.store_.set h r.1 }, r.2)

/-- The rehash loop of `Insert`: every entry of the old bucket goes to `bucket_1` when
its hash has the mask bit set and to `bucket_0` otherwise, through `Bucket::Insert`. -/
def redistribute (depth : Nat) : List (Int × V) → Bucket V → Bucket V → Bucket V × Bucket V
  | [], b0, b1 => (b0, b1)
  | it :: rest, b0, b1 =>
    if (hashKey it.1 / 2 ^ depth) % 2 = 1 then
      redistribute depth rest b0 (b1.Insert it.1 it.2).1
    else
      redistribute depth rest (b0.Insert it.1 it.2).1 b1

/-- One pass through the body of the `while` loop of `Insert`, for the full bucket
`target` held under handle `h`: double the directory when the local depth equals the
global depth, make two buckets of depth + 1, rehash, and repoint every slot that
holds `h`. -/
def splitBucket (t : ExtendibleHashTable V) (h : Nat) (target : Bucket V) :
    Except Fault (ExtendibleHashTable V) :=
  let capacity := t.dir_.length
  if target.depth_ = t.global_depth_ ∧ 2147483648 ≤ capacity * 2 then .error .undefined
  else if 31 ≤ target.depth_ then .error .undefined
  else
    let t1 : ExtendibleHashTable V :=
      if target.depth_ = t.global_depth_ then
        { t with global_depth_ := t.global_depth_ + 1, dir_ := t.dir_ ++ t.dir_ }
      else t
    let h0 := t1.store_.length
    let h1 := t1.store_.length + 1
    let fresh : Bucket V := { size_ := t1.bucket_size_, depth_ := target.depth_ + 1, list_ := [] }
    let bs := redistribute target.depth_ target.list_ fresh fresh
    let dir2 := (List.range t1.dir_.length).map (fun i =>
      match t1.dir_[i]? with
      | some d => if d = h then (if (i / 2 ^ target.depth_) % 2 = 1 then h1 else h0) else d
      | none => 0)
    .ok { t1 with num_buckets_ := t1.num_buckets_ + 1, dir_ := dir2,
                  store_ := t1.store_ ++ [bs.1, bs.2] }

/-- The `while (dir_[IndexOf(key)]->IsFull())` loop of `Insert`, with an iteration
budget. -/
def growLoop : Nat → ExtendibleHashTable V → Int → Except Fault (ExtendibleHashTable V)
  | 0, _, _ => .error .diverged
  | fuel + 1, t, key =>
    match IndexOf t key with
    | .error e => .error e
    | .ok index =>
      match bucketAt t index with
      | none => .error .undefined
      | some (h, target) =>
        if target.IsFull then
          match splitBucket t h target with
          | .error e => .error e
          | .ok t1 => growLoop fuel t1 key
        else .ok t

/-- The method `Insert`. -/
def Insert (fuel : Nat) (t : ExtendibleHashTable V) (key : Int) (value : V) :
    Except Fault (ExtendibleHashTable V) :=
  match growLoop fuel t key with
  | .error e => .error e
  | .ok t1 =>
    match IndexOf t1 key with
    | .error e => .error e
    | .ok index =>
      match bucketAt t1 index with
      | none => .error .undefined
      | some (h, b) => .ok { t1 with store_ := t1.store_.set h (b.Insert key value).1 }

end ExtendibleHashTable

/-! ## LRUKReplacer (`lru_k_replacer.cpp`) -/

/-- Modelled from the spec: the data members of `LRUKReplacer`, declared in
`lru_k_replacer.h`, which is not among the sources: the per-frame access counter
`count_`, the per-frame flag `is_evictable`, the two lists and the number
`curr_size_` of evictable frames.  `count_` is a map (the source calls
`count_.count(frame_id)`): a frame without an entry is `none`, and `count_[f]`
creates the entry.  `is_evictable[f]` reads `false` for a frame never written. -/
structure LRUKReplacer where
  replacer_size_ : Nat
  k_ : Nat
  curr_size_ : Nat
  history_list_ : List Nat
  cache_list_ : List Nat
  count_ : Nat → Option Nat
  is_evictable : Nat → Bool

namespace LRUKReplacer

/-- The constructor. -/
def new (num_frames k : Nat) : LRUKReplacer :=
  { replacer_size_ := num_frames, k_ := k, curr_size_ := 0, history_list_ := [],
    cache_list_ := [], count_ := fun _ => none, is_evictable := fun _ => false }

/-- The statement `curr_size_--` on a `size_t`. -/
def decSize (n : Nat) : Nat := (n + 18446744073709551615) % 18446744073709551616

/-- The statement `curr_size_++` on a `size_t`. -/
def incSize (n : Nat) : Nat := (n + 1) % 18446744073709551616

/-- The search of one list in `Evict`, front to back: the first frame whose
evictable flag is set, and the list after `erase(it)`. -/
def firstEvictable (ev : Nat → Bool) : List Nat → Option (Nat × List Nat)
  | [] => none
  | f :: rest =>
    if ev f then some (f, rest)
    else
      match firstEvictable ev rest with
      | some (v, rest1) => some (v, f :: rest1)
      | none => none

/-- The method `Evict`.  `ok (r, none)` is `return false`, `ok (r, some f)` is
`return true` with `*frame_id = f`.  After `erase(it)` the source still reads `*it`;
the value read is taken to be the erased frame id.  When `curr_size_` is not 0 and
neither list holds an evictable frame, control reaches the closing brace of the
function without a `return`. -/
def Evict (r : LRUKReplacer) : Except Fault (LRUKReplacer × Option Nat) :=
  if r.curr_size_ = 0 then .ok (r, none)
  else
    match firstEvictable r.is_evictable r.history_list_ with
    | some (f, rest) =>
      .ok ({ r with history_list_ := rest, curr_size_ := decSize r.curr_size_,
                    count_ := setAt r.count_ f (some 0),
                    is_evictable := setAt r.is_evictable f false }, some f)
    | none =>
      match firstEvictable r.is_evictable r.cache_list_ with
      | some (f, rest) =>
        .ok ({ r with cache_list_ := rest, curr_size_ := decSize r.curr_size_,
                      count_ := setAt r.count_ f (some 0),
                      is_evictable := setAt r.is_evictable f false }, some f)
      | none => .error .undefined

/-- The method `RecordAccess`.  The guard is `frame_id > replacer_size_`.  The entry
of `count_` exists once `count_[frame_id]++` has run, so the test
`count_.count(frame_id) == 0` of the last branch is evaluated on the new map. -/
def RecordAccess (r : LRUKReplacer) (frame_id : Nat) : Except Fault LRUKReplacer :=
  if frame_id > r.replacer_size_ then .error .exception
  else
    let c := ((r.count_ frame_id).getD 0 + 1) % 18446744073709551616
    let r1 := { r with count_ := setAt r.count_ frame_id (some c) }
    if c = r1.k_ then
      .ok { r1 with history_list_ := r1.history_list_.erase frame_id,
                    cache_list_ := frame_id :: r1.cache_list_ }
    else if c > r1.k_ then
      .ok { r1 with cache_list_ := frame_id :: r1.cache_list_.erase frame_id }
    else if (r1.count_ frame_id).isNone then
      .ok { r1 with history_list_ := frame_id :: r1.history_list_ }
    else .ok r1

/-- The method `Size`. -/
def Size (r : LRUKReplacer) : Nat := r.curr_size_

/-- The method `SetEvictable`.  The guard is `frame_id > this->Size()`. -/
def SetEvictable (r : LRUKReplacer) (frame_id : Nat) (set_evictable : Bool) :
    Except Fault LRUKReplacer :=
  if frame_id > r.Size then .error .exception
  else if set_evictable then
    if !r.is_evictable frame_id then
      .ok { r with is_evictable := setAt r.is_evictable frame_id true,
                   curr_size_ := incSize r.curr_size_ }
    else .ok r
  else
    if r.is_evictable frame_id then
      .ok { r with is_evictable := setAt r.is_evictable frame_id false,
                   curr_size_ := decSize r.curr_size_ }
    else .ok r

/-- The method `Remove`: its body is empty. -/
def Remove (r : LRUKReplacer) (_frame_id : Nat) : LRUKReplacer := r

end LRUKReplacer

/-! ## BufferPoolManagerInstance (`buffer_pool_manager_instance.cpp`) -/

/-- Modelled from the spec: one frame of the pool, class `Page` of `storage/page/page.h`,
which is not among the sources: a byte buffer plus page id, pin count and dirty flag.
`data_` is the content of the byte buffer read as one number; `ResetMemory`
zero-fills the buffer, which is the number 0. -/
structure Page where
  data_ : Nat
  page_id_ : Int
  pin_count_ : Int
  is_dirty_ : Bool

/-- Modelled from the spec: the method `Page::ResetMemory`, which resets the frame's
memory to zero. -/
def Page.ResetMemory (p : Page) : Page := { p with data_ := 0 }

/-- Modelled from the spec: a freshly constructed `Page`: zero bytes, `INVALID_PAGE_ID`,
pin count 0, not dirty. -/
def Page.fresh : Page :=
  { data_ := 0, page_id_ := INVALID_PAGE_ID, pin_count_ := 0, is_dirty_ := false }

/-- Modelled from the spec: the `DiskManager` collaborator: `content` is what `ReadPage`
delivers for each page id (zero bytes for a page never written), `writes` records every
call of `WritePage` in order, oldest first. -/
structure DiskManager where
  content : Int → Nat
  writes : List (Int × Nat)

/-- Modelled from the spec: the call `DiskManager::WritePage(page_id, data)`. -/
def DiskManager.WritePage (d : DiskManager) (page_id : Int) (data : Nat) : DiskManager :=
  { content := setAtI d.content page_id data, writes := d.writes ++ [(page_id, data)] }

/-- Modelled from the spec: the call `DiskManager::ReadPage(page_id, out)`. -/
def DiskManager.ReadPage (d : DiskManager) (page_id : Int) : Nat := d.content page_id

/-- Modelled from the spec: the data members of `BufferPoolManagerInstance`, declared in
`buffer_pool_manager_instance.h`, which is not among the sources: the frame array
`pages_` of length `pool_size_`, the page table, the replacer, the free list, the
counter behind `AllocatePage` and the disk manager. -/
structure BufferPoolManagerInstance where
  pool_size_ : Nat
  pages_ : Nat → Page
  page_table_ : ExtendibleHashTable Nat
  replacer_ : LRUKReplacer
  free_list_ : List Nat
  next_page_id_ : Int
  disk_manager_ : DiskManager

namespace BufferPoolManagerInstance

/-- The constructor.  `bucket_size` stands for the constant `bucket_size_` of the class
declaration, which is not among the sources; every frame starts on the free list. -/
def new (pool_size replacer_k bucket_size : Nat) : BufferPoolManagerInstance :=
  { pool_size_ := pool_size, pages_ := fun _ => Page.fresh,
    page_table_ := ExtendibleHashTable.new bucket_size,
    replacer_ := LRUKReplacer.new pool_size replacer_k,
    free_list_ := List.range pool_size, next_page_id_ := 0,
    disk_manager_ := { content := fun _ => 0, writes := [] } }

/-- The increment of `next_page_id_` in `AllocatePage`, on a 32-bit counter. -/
def nextId (n : Int) : Int := (n + 1 + 2147483648) % 4294967296 - 2147483648

/-- The scan at the head of `NewPgImp` and `FetchPgImp`: is there a frame whose pin
count is 0. -/
def hasUnpinnedFrame (s : BufferPoolManagerInstance) : Bool :=
  (List.range s.pool_size_).any (fun i => (s.pages_ i).pin_count_ == 0)

/-- The frame choice shared by `NewPgImp` and `FetchPgImp`: the front of the free
list, else the frame written by `replacer_->Evict(&frame_id)`, whose old page is
written to disk when dirty, zeroed, and taken out of the page table.  The result of
`Evict` is not inspected by the source: when it reports no victim, `frame_id` is
read uninitialised. -/
def acquireFrame (s : BufferPoolManagerInstance) :
    Except Fault (BufferPoolManagerInstance × Nat) :=
  match s.free_list_ with
  | f :: rest => .ok ({ s with free_list_ := rest }, f)
  | [] =>
    match s.replacer_.Evict with
    | .error e => .error e
    | .ok (_, none) => .error .undefined
    | .ok (r1, some f) =>
      if s.pool_size_ ≤ f then .error .undefined
      else
        let pg := s.pages_ f
        let evict_page_id := pg.page_id_
        let disk1 := if pg.is_dirty_ then s.disk_manager_.WritePage evict_page_id pg.data_
                     else s.disk_manager_
        let pg1 := ({ pg with is_dirty_ := false } : Page).ResetMemory
        match s.page_table_.Remove evict_page_id with
        | .error e => .error e
        | .ok (pt1, _) =>
          .ok ({ s with replacer_ := r1, disk_manager_ := disk1,
                        pages_ := setAt s.pages_ f pg1, page_table_ := pt1 }, f)

/-- The method `NewPgImp`.  The result is `none` for `nullptr`, else the index of the
returned frame and the value stored in `*page_id`. -/
def NewPgImp (fuel : Nat) (s : BufferPoolManagerInstance) :
    Except Fault (BufferPoolManagerInstance × Option (Nat × Int)) :=
  if s.hasUnpinnedFrame then
    match s.acquireFrame with
    | .error e => .error e
    | .ok (s1, frame_id) =>
      if s1.pool_size_ ≤ frame_id then .error .undefined
      else
        let page_id := s1.next_page_id_
        match s1.page_table_.Insert fuel page_id frame_id with
        | .error e => .error e
        | .ok pt =>
          let pg := { s1.pages_ frame_id with page_id_ := page_id, pin_count_ := 1 }
          match s1.replacer_.RecordAccess frame_id with
          | .error e => .error e
          | .ok r1 =>
            match r1.SetEvictable frame_id false with
            | .error e => .error e
            | .ok r2 =>
              .ok ({ s1 with next_page_id_ := nextId s1.next_page_id_, page_table_ := pt,
                             pages_ := setAt s1.pages_ frame_id pg, replacer_ := r2 },
                   some (frame_id, page_id))
  else .ok (s, none)

/-- The method `FetchPgImp`.  The result is `none` for `nullptr`, else the index of
the returned frame. -/
def FetchPgImp (fuel : Nat) (s : BufferPoolManagerInstance) (page_id : Int) :
    Except Fault (BufferPoolManagerInstance × Option Nat) :=
  match s.page_table_.Find page_id with
  | .error e => .error e
  | .ok (some frame_id) =>
    if s.pool_size_ ≤ frame_id then .error .undefined
    else if (s.pages_ frame_id).pin_count_ = INT_MAX then .error .undefined
    else
      let pg := { s.pages_ frame_id with pin_count_ := (s.pages_ frame_id).pin_count_ + 1 }
      match s.replacer_.RecordAccess frame_id with
      | .error e => .error e
      | .ok r1 =>
        match r1.SetEvictable frame_id false with
        | .error e => .error e
        | .ok r2 =>
          .ok ({ s with pages_ := setAt s.pages_ frame_id pg, replacer_ := r2 }, some frame_id)
  | .ok none =>
    if s.hasUnpinnedFrame then
      match s.acquireFrame with
      | .error e => .error e
      | .ok (s1, frame_id) =>
        if s1.pool_size_ ≤ frame_id then .error .undefined
        else
          match s1.page_table_.Insert fuel page_id frame_id with
          | .error e => .error e
          | .ok pt =>
            let pg := { s1.pages_ frame_id with
                        page_id_ := page_id, pin_count_ := 1,
                        data_ := s1.disk_manager_.ReadPage page_id }
            match s1.replacer_.RecordAccess frame_id with
            | .error e => .error e
            | .ok r1 =>
              match r1.SetEvictable frame_id false with
              | .error e => .error e
              | .ok r2 =>
                .ok ({ s1 with page_table_ := pt, pages_ := setAt s1.pages_ frame_id pg,
                               replacer_ := r2 }, some frame_id)
    else .ok (s, none)

/-- The method `UnpinPgImp`. -/
def UnpinPgImp (s : BufferPoolManagerInstance) (page_id : Int) (is_dirty : Bool) :
    Except Fault (BufferPoolManagerInstance × Bool) :=
  match s.page_table_.Find page_id with
  | .error e => .error e
  | .ok (some frame_id) =>
    if s.pool_size_ ≤ frame_id then .error .undefined
    else
      let pg := s.pages_ frame_id
      let pg1 := if is_dirty then { pg with is_dirty_ := is_dirty } else pg
      if pg1.pin_count_ > 0 then
        let pg2 := { pg1 with pin_count_ := pg1.pin_count_ - 1 }
        if pg2.pin_count_ ≤ 0 then
          match s.replacer_.SetEvictable frame_id true with
          | .error e => .error e
          | .ok r1 => .ok ({ s with pages_ := setAt s.pages_ frame_id pg2, replacer_ := r1 }, true)
        else .ok ({ s with pages_ := setAt s.pages_ frame_id pg2 }, true)
      else .ok ({ s with pages_ := setAt s.pages_ frame_id pg1 }, false)
  | .ok none => .ok (s, false)

/-- The method `FlushPgImp`. -/
def FlushPgImp (s : BufferPoolManagerInstance) (page_id : Int) :
    Except Fault (BufferPoolManagerInstance × Bool) :=
  match s.page_table_.Find page_id with
  | .error e => .error e
  | .ok none => .ok (s, false)
  | .ok (some frame_id) =>
    if s.pool_size_ ≤ frame_id then .error .undefined
    else
      let pg := s.pages_ frame_id
      .ok ({ s with disk_manager_ := s.disk_manager_.WritePage page_id pg.data_,
                    pages_ := setAt s.pages_ frame_id { pg with is_dirty_ := false } }, true)

/-- The loop of `FlushAllPgsImp` over the frames `i, i+1, ...` (`n` of them). -/
def flushFrames : Nat → Nat → BufferPoolManagerInstance → BufferPoolManagerInstance
  | 0, _, s => s
  | n + 1, i, s =>
    let pg := s.pages_ i
    flushFrames n (i + 1)
      { s with disk_manager_ := s.disk_manager_.WritePage pg.page_id_ pg.data_,
               pages_ := setAt s.pages_ i { pg with is_dirty_ := false } }

/-- The method `FlushAllPgsImp`. -/
def FlushAllPgsImp (s : BufferPoolManagerInstance) : BufferPoolManagerInstance :=
  flushFrames s.pool_size_ 0 s

/-- The method `DeletePgImp`. -/
def DeletePgImp (s : BufferPoolManagerInstance) (page_id : Int) :
    Except Fault (BufferPoolManagerInstance × Bool) :=
  match s.page_table_.Find page_id with
  | .error e => .error e
  | .ok (some frame_id) =>
    if s.pool_size_ ≤ frame_id then .error .undefined
    else if (s.pages_ frame_id).pin_count_ > 0 then .ok (s, false)
    else
      match s.replacer_.SetEvictable frame_id true with
      | .error e => .error e
      | .ok r1 =>
        let pg : Page := { data_ := 0, is_dirty_ := false, pin_count_ := 0,
                           page_id_ := INVALID_PAGE_ID }
        let r2 := r1.Remove frame_id
        match s.page_table_.Remove page_id with
        | .error e => .error e
        | .ok (pt, _) =>
          .ok ({ s with replacer_ := r2, pages_ := setAt s.pages_ frame_id pg,
                        free_list_ := s.free_list_ ++ [frame_id], page_table_ := pt }, true)
  | .ok none => .ok (s, true)

/-- A client writing the bytes `data` through the `Page *` of frame `frame_id`. -/
def writeData (s : BufferPoolManagerInstance) (frame_id : Nat) (data : Nat) :
    BufferPoolManagerInstance :=
  { s with pages_ := setAt s.pages_ frame_id { s.pages_ frame_id with data_ := data } }

end BufferPoolManagerInstance

/-- One step of a client of the pool: a call of the public interface (with the
iteration budget for the page table where the call inserts into it), or a store of
`data` into the bytes of a frame through a `Page *` obtained earlier. -/
inductive Call where
  | NewPage (fuel : Nat)
  | FetchPage (fuel : Nat) (page_id : Int)
  | UnpinPage (page_id : Int) (is_dirty : Bool)
  | FlushPage (page_id : Int)
  | FlushAllPages
  | DeletePage (page_id : Int)
  | write (frame_id data : Nat)

/-- The pool after one step, when the call returns. -/
def Call.apply (s : BufferPoolManagerInstance) : Call → Except Fault BufferPoolManagerInstance
  | .NewPage fuel => (s.NewPgImp fuel).map Prod.fst
  | .FetchPage fuel page_id => (s.FetchPgImp fuel page_id).map Prod.fst
  | .UnpinPage page_id is_dirty => (s.UnpinPgImp page_id is_dirty).map Prod.fst
  | .FlushPage page_id => (s.FlushPgImp page_id).map Prod.fst
  | .FlushAllPages => .ok s.FlushAllPgsImp
  | .DeletePage page_id => (s.DeletePgImp page_id).map Prod.fst
  | .write frame_id data => .ok (s.writeData frame_id data)

/-- The pool after a sequence of steps, each of which returns. -/
def runCalls (s : BufferPoolManagerInstance) : List Call → Except Fault BufferPoolManagerInstance
  | [] => .ok s
  | c :: rest =>
    match c.apply s with
    | .error e => .error e
    | .ok s1 => runCalls s1 rest

/-- The pool after a sequence of steps that all return (the starting pool when one
of them does not). -/
def afterCalls (s : BufferPoolManagerInstance) (calls : List Call) : BufferPoolManagerInstance :=
  match runCalls s calls with
  | .ok s1 => s1
  | .error _ => s

/-- The pool states that a client can bring about: the constructed pool followed by
any sequence of steps that all return. -/
def Reachable (pool_size replacer_k bucket_size : Nat) (s : BufferPoolManagerInstance) : Prop :=
  ∃ calls : List Call,
    runCalls (BufferPoolManagerInstance.new pool_size replacer_k bucket_size) calls = .ok s

/-- Modelled from the spec: the page-type field of the page header, enumeration
`IndexPageType` of `b_plus_tree_page.h`, which is not among the sources; a
zero-filled header reads `INVALID_INDEX_PAGE`. -/
inductive IndexPageType where
  | INVALID_INDEX_PAGE
  | LEAF_PAGE
  | INTERNAL_PAGE
  deriving DecidableEq

/-- The bytes after the common header.  `zeroed` is a buffer that is still all zero;
`leaf` holds `next_page_id_` and the (key, record id) array written through the leaf
class; `internal` holds the (key, child page id) array written through the internal
class.  Slots of an array that were never written hold zero bytes. -/
inductive PageBody where
  | zeroed
  | leaf (next_page_id_ : Int) (array_ : List (Int × Int))
  | internal (array_ : List (Int × Int))
  deriving DecidableEq

/-- Modelled from the spec: the data area of one page seen as a `BPlusTreePage`
(`b_plus_tree_page.h`, not among the sources): the header fields page type, size,
maximum size, parent page id and page id, then the bytes after the header. -/
structure BPlusTreePage where
  page_type_ : IndexPageType
  size_ : Int
  max_size_ : Int
  parent_page_id_ : Int
  page_id_ : Int
  body : PageBody
  deriving DecidableEq

/-- Slot `i` of an array; a slot never written reads as zero bytes. -/
def rd (a : List (Int × Int)) (i : Nat) : Int × Int := a.getD i (0, 0)

/-- Store into slot `i` of an array. -/
def wr (a : List (Int × Int)) (i : Nat) (e : Int × Int) : List (Int × Int) :=
  if i < a.length then a.set i e else a ++ List.replicate (i - a.length) (0, 0) ++ [e]

/-- An `int` used as an array index or element count: negative values leave the
array. -/
def toIdx (i : Int) : Except Fault Nat :=
  if i < 0 then .error .undefined else .ok i.toNat

/-- The call `std::move_backward(a + first, a + first + n, a + first + n + 1)`:
`n` slots, last one first, each moved one slot up. -/
def moveBackward (a : List (Int × Int)) (first : Nat) : Nat → List (Int × Int)
  | 0 => a
  | n + 1 => moveBackward (wr a (first + n + 1) (rd a (first + n))) first n

/-- The call `std::move(a + src, a + src + n, a + dst)` or `std::copy` inside one
array: `n` slots, first one first. -/
def moveForward (a : List (Int × Int)) (dst src : Nat) : Nat → List (Int × Int)
  | 0 => a
  | n + 1 => moveForward (wr a dst (rd a src)) (dst + 1) (src + 1) n

/-- The call `std::copy(item, item + n, a + dst)` with `item` pointing at slot `src`
of the array `from_`. -/
def copyInto (a from_ : List (Int × Int)) (dst src : Nat) : Nat → List (Int × Int)
  | 0 => a
  | n + 1 => copyInto (wr a dst (rd from_ src)) from_ (dst + 1) (src + 1) n

/-- The loop of `std::lower_bound` over `len` slots starting at slot `first`, with
the comparison `key_at(slot) < key`. -/
def lowerBound (a : List (Int × Int)) (key : Int) : Nat → Nat → Nat → Nat
  | 0, first, _ => first
  | fuel + 1, first, len =>
    if len = 0 then first
    else
      let half := len / 2
      let middle := first + half
      if (rd a middle).1 < key then lowerBound a key fuel (middle + 1) (len - half - 1)
      else lowerBound a key fuel first half

/-- The loop of `std::find_if` in `IndexAt`: the first slot in `[i, i + n)` whose
second component is `value`, else `i + n`. -/
def findValue (a : List (Int × Int)) (value : Int) : Nat → Nat → Nat
  | i, 0 => i
  | i, n + 1 => if (rd a i).2 = value then i else findValue a value (i + 1) n

namespace BPlusTreePage

/-- A page whose bytes are all zero. -/
def zero : BPlusTreePage :=
  { page_type_ := .INVALID_INDEX_PAGE, size_ := 0, max_size_ := 0, parent_page_id_ := 0,
    page_id_ := 0, body := .zeroed }

/-- Modelled from the spec: `BPlusTreePage::IsLeafPage` of `b_plus_tree_page.cpp`, which
is not among the sources; it tests the page-type field of the header. -/
def IsLeafPage (p : BPlusTreePage) : Bool := decide (p.page_type_ = .LEAF_PAGE)

/-- Modelled from the spec: `BPlusTreePage::IsRootPage` of `b_plus_tree_page.cpp`; the
root is the page whose parent id is `INVALID_PAGE_ID`. -/
def IsRootPage (p : BPlusTreePage) : Bool := decide (p.parent_page_id_ = INVALID_PAGE_ID)

/-- Modelled from the spec: `BPlusTreePage::GetSize`. -/
def GetSize (p : BPlusTreePage) : Int := p.size_

/-- Modelled from the spec: `BPlusTreePage::SetSize`. -/
def SetSize (p : BPlusTreePage) (size : Int) : BPlusTreePage := { p with size_ := size }

/-- Modelled from the spec: `BPlusTreePage::IncreaseSize`. -/
def IncreaseSize (p : BPlusTreePage) (amount : Int) : BPlusTreePage :=
  { p with size_ := p.size_ + amount }

/-- Modelled from the spec: `BPlusTreePage::GetMaxSize`. -/
def GetMaxSize (p : BPlusTreePage) : Int := p.max_size_

/-- Modelled from the spec: `BPlusTreePage::GetMinSize` of `b_plus_tree_page.cpp`:
`ceil(max_size / 2)` for a leaf page and `ceil((max_size + 1) / 2)` otherwise. -/
def GetMinSize (p : BPlusTreePage) : Int :=
  if p.IsLeafPage then (p.max_size_ + 1) / 2 else (p.max_size_ + 2) / 2

/-- The array of the page read through `BPlusTreeLeafPage`.  Bytes written through
the internal class have no defined reading here: the leaf array starts at byte 28
with (key, record id) slots, the internal array at byte 24 with (key, page id)
slots. -/
def leafArray (p : BPlusTreePage) : Except Fault (List (Int × Int)) :=
  match p.body with
  | .zeroed => .ok []
  | .leaf _ a => .ok a
  | .internal _ => .error .undefined

/-- The field `next_page_id_` as stored in the page. -/
def nextField (p : BPlusTreePage) : Except Fault Int :=
  match p.body with
  | .zeroed => .ok 0
  | .leaf n _ => .ok n
  | .internal _ => .error .undefined

/-- Store a new array through `BPlusTreeLeafPage`. -/
def setLeafArray (p : BPlusTreePage) (a : List (Int × Int)) : Except Fault BPlusTreePage :=
  match p.body with
  | .zeroed => .ok { p with body := .leaf 0 a }
  | .leaf n _ => .ok { p with body := .leaf n a }
  | .internal _ => .error .undefined

/-- The array of the page read through `BPlusTreeInternalPage`.  Bytes written through
the leaf class have no defined reading here: the internal array starts at byte 24
with (key, page id) slots, the leaf array at byte 28 with (key, record id) slots. -/
def internalArray (p : BPlusTreePage) : Except Fault (List (Int × Int)) :=
  match p.body with
  | .zeroed => .ok []
  | .internal a => .ok a
  | .leaf _ _ => .error .undefined

/-- Store a new array through `BPlusTreeInternalPage`. -/
def setInternalArray (p : BPlusTreePage) (a : List (Int × Int)) : Except Fault BPlusTreePage :=
  match p.body with
  | .zeroed => .ok { p with body := .internal a }
  | .internal _ => .ok { p with body := .internal a }
  | .leaf _ _ => .error .undefined

end BPlusTreePage

/-! ### BPlusTreeLeafPage -/

namespace BPlusTreeLeafPage

/-- The method `Init`: its body is empty, the page is left as it is. -/
def Init (p : BPlusTreePage) (_page_id _parent_id _max_size : Int) : BPlusTreePage := p

/-- The method `GetNextPageId`: its body is `return INVALID_PAGE_ID;`. -/
def GetNextPageId (_p : BPlusTreePage) : Int := INVALID_PAGE_ID

/-- The method `SetNextPageId`. -/
def SetNextPageId (p : BPlusTreePage) (next_page_id : Int) : Except Fault BPlusTreePage :=
  match p.body with
  | .zeroed => .ok { p with body := .leaf next_page_id [] }
  | .leaf _ a => .ok { p with body := .leaf next_page_id a }
  | .internal _ => .error .undefined

/-- The method `KeyAt`. -/
def KeyAt (p : BPlusTreePage) (index : Int) : Except Fault Int := do
  let a ← p.leafArray
  let i ← toIdx index
  pure (rd a i).1

/-- The method `KeyIndex`: `std::lower_bound` over `[array_, array_ + GetSize())`. -/
def KeyIndex (p : BPlusTreePage) (key : Int) : Except Fault Int := do
  let a ← p.leafArray
  let len := p.GetSize.toNat
  pure (Int.ofNat (lowerBound a key len 0 len))

/-- The method `Insert`: the new page and the returned size. -/
def Insert (p : BPlusTreePage) (key value : Int) : Except Fault (BPlusTreePage × Int) := do
  let a ← p.leafArray
  let distance_in_array ← KeyIndex p key
  let d ← toIdx distance_in_array
  if distance_in_array = p.GetSize then
    let p1 ← p.setLeafArray (wr a d (key, value))
    let p2 := p1.IncreaseSize 1
    pure (p2, p2.GetSize)
  else if (rd a d).1 = key then
    pure (p, p.GetSize)
  else
    let n ← toIdx (p.GetSize - distance_in_array)
    let a1 := moveBackward a d n
    let p1 ← p.setLeafArray (wr a1 d (key, value))
    let p2 := p1.IncreaseSize 1
    pure (p2, p2.GetSize)

/-- The method `GetItem`: `return array_[index - 1];`. -/
def GetItem (p : BPlusTreePage) (index : Int) : Except Fault (Int × Int) := do
  let a ← p.leafArray
  let i ← toIdx (index - 1)
  pure (rd a i)

/-- The method `Lookup`: `none` is `return false`, `some v` is `return true` with
`*value = v`. -/
def Lookup (p : BPlusTreePage) (key : Int) : Except Fault (Option Int) := do
  let a ← p.leafArray
  let target_index ← KeyIndex p key
  let t ← toIdx target_index
  if target_index = p.GetSize ∨ (rd a t).1 ≠ key then pure none
  else pure (some (rd a t).2)

/-- The method `ReceiveN`, with `item` pointing at slot `src` of the array `from_`. -/
def ReceiveN (p : BPlusTreePage) (from_ : List (Int × Int)) (src : Nat) (size : Int) :
    Except Fault BPlusTreePage := do
  let a ← p.leafArray
  let n ← toIdx size
  let dst ← toIdx p.GetSize
  let p1 ← p.setLeafArray (copyInto a from_ dst src n)
  pure (p1.IncreaseSize size)

/-- The method `MoveHalfTo`: the pair is (this page, recipient). -/
def MoveHalfTo (p recipient : BPlusTreePage) : Except Fault (BPlusTreePage × BPlusTreePage) := do
  let a ← p.leafArray
  let start_index := p.GetMinSize
  let end_index := p.GetMaxSize
  let s ← toIdx start_index
  let r1 ← ReceiveN recipient a s (end_index - start_index)
  pure (p.SetSize start_index, r1)

/-- The method `RemoveAndDeleteRecord`: the new page and the returned size.  The slot
found by `KeyIndex` is removed whenever it lies inside the array; its key is not
compared with `key`. -/
def RemoveAndDeleteRecord (p : BPlusTreePage) (key : Int) :
    Except Fault (BPlusTreePage × Int) := do
  let a ← p.leafArray
  let target_index ← KeyIndex p key
  if target_index = p.GetSize then pure (p, p.GetSize)
  else
    let t ← toIdx target_index
    let n ← toIdx (p.GetSize - (target_index + 1))
    let p1 ← p.setLeafArray (moveForward a t (t + 1) n)
    let p2 := p1.IncreaseSize (-1)
    pure (p2, p2.GetSize)

/-- The method `InsertLast`. -/
def InsertLast (p : BPlusTreePage) (item : Int × Int) : Except Fault BPlusTreePage := do
  let a ← p.leafArray
  let i ← toIdx p.GetSize
  let p1 ← p.setLeafArray (wr a i item)
  pure (p1.IncreaseSize 1)

/-- The method `InsertFirst`. -/
def InsertFirst (p : BPlusTreePage) (item : Int × Int) : Except Fault BPlusTreePage := do
  let a ← p.leafArray
  let n ← toIdx p.GetSize
  let p1 ← p.setLeafArray (wr (moveBackward a 0 n) 0 item)
  pure (p1.IncreaseSize 1)

/-- The method `MoveFirstToLast`: the pair is (this page, `node`). -/
def MoveFirstToLast (p node : BPlusTreePage) : Except Fault (BPlusTreePage × BPlusTreePage) := do
  let a ← p.leafArray
  let first_item := rd a 0
  let n ← toIdx (p.GetSize - 1)
  let p1 ← p.setLeafArray (moveForward a 0 1 n)
  let p2 := p1.IncreaseSize (-1)
  let node1 ← InsertLast node first_item
  pure (p2, node1)

/-- The method `MoveLastToFirst`: the pair is (this page, `node`). -/
def MoveLastToFirst (p node : BPlusTreePage) : Except Fault (BPlusTreePage × BPlusTreePage) := do
  let a ← p.leafArray
  let i ← toIdx (p.GetSize - 1)
  let last_item := rd a i
  let p1 := p.IncreaseSize (-1)
  let node1 ← InsertFirst node last_item
  pure (p1, node1)

/-- The method `MoveAllTo`: the pair is (this page, `node`). -/
def MoveAllTo (p node : BPlusTreePage) : Except Fault (BPlusTreePage × BPlusTreePage) := do
  let a ← p.leafArray
  let node1 ← ReceiveN node a 0 p.GetSize
  let node2 ← SetNextPageId node1 (GetNextPageId p)
  pure (p.SetSize 0, node2)

end BPlusTreeLeafPage

/-! ### The buffer pool as the tree sees it -/

/-- A pointer to page data held by tree code: the data area of a pinned page, or the
scratch buffer `mem` that `InsertIntoParent` allocates with `new char[]`. -/
inductive NodeRef where
  | page (page_id : Int)
  | mem
  deriving DecidableEq

/-- Modelled from the spec: the `BufferPoolManager` behind the pointer
`buffer_pool_manager_` of the tree, as a pool that never runs out of frames:
`NewPage` hands out the next page id with a zero-filled buffer pinned once,
`FetchPage` pins the page, `UnpinPage` drops one pin and fails at pin count 0.  A
page id that was never written reads as zero bytes, as a read from disk does.
`pages` is the data area of every page, `mem` the scratch buffer of
`InsertIntoParent`. -/
structure NodeStore where
  pages : Int → BPlusTreePage
  pins : Int → Int
  next_page_id_ : Int
  mem : BPlusTreePage

namespace NodeStore

/-- Dereference a pointer to page data. -/
def get (st : NodeStore) : NodeRef → BPlusTreePage
  | .page pid => st.pages pid
  | .mem => st.mem

/-- Store through a pointer to page data. -/
def put (st : NodeStore) (r : NodeRef) (p : BPlusTreePage) : NodeStore :=
  match r with
  | .page pid => { st with pages := setAtI st.pages pid p }
  | .mem => { st with mem := p }

/-- The call `NewPage(&page_id)`. -/
def NewPage (st : NodeStore) : NodeStore × Int :=
  ({ st with pages := setAtI st.pages st.next_page_id_ BPlusTreePage.zero,
             pins := setAtI st.pins st.next_page_id_ 1,
             next_page_id_ := st.next_page_id_ + 1 }, st.next_page_id_)

/-- The call `FetchPage(page_id)`. -/
def FetchPage (st : NodeStore) (page_id : Int) : NodeStore :=
  { st with pins := setAtI st.pins page_id (st.pins page_id + 1) }

/-- The call `UnpinPage(page_id, is_dirty)`. -/
def UnpinPage (st : NodeStore) (page_id : Int) (_is_dirty : Bool) : NodeStore × Bool :=
  if 0 < st.pins page_id then
    ({ st with pins := setAtI st.pins page_id (st.pins page_id - 1) }, true)
  else (st, false)

/-- The pool before the tree is built: page 0 is the header page (`HEADER_PAGE_ID`),
allocated by the owner of the pool and holding no record, so the tree receives page
ids from 1 on. -/
def init : NodeStore :=
  { pages := fun _ => BPlusTreePage.zero, pins := fun _ => 0, next_page_id_ := 1,
    mem := BPlusTreePage.zero }

end NodeStore

/-! ### BPlusTreeInternalPage -/

namespace BPlusTreeInternalPage

/-- The method `Init`. -/
def Init (p : BPlusTreePage) (page_id parent_id max_size : Int) : BPlusTreePage :=
  { p with page_id_ := page_id, parent_page_id_ := parent_id, max_size_ := max_size,
           page_type_ := .INTERNAL_PAGE, size_ := 0 }

/-- The method `KeyAt`. -/
def KeyAt (p : BPlusTreePage) (index : Int) : Except Fault Int := do
  let a ← p.internalArray
  let i ← toIdx index
  pure (rd a i).1

/-- The method `SetKeyAt`. -/
def SetKeyAt (p : BPlusTreePage) (index key : Int) : Except Fault BPlusTreePage := do
  let a ← p.internalArray
  let i ← toIdx index
  p.setInternalArray (wr a i (key, (rd a i).2))

/-- The method `ValueAt`. -/
def ValueAt (p : BPlusTreePage) (index : Int) : Except Fault Int := do
  let a ← p.internalArray
  let i ← toIdx index
  pure (rd a i).2

/-- The method `SetValueAt`. -/
def SetValueAt (p : BPlusTreePage) (index value : Int) : Except Fault BPlusTreePage := do
  let a ← p.internalArray
  let i ← toIdx index
  p.setInternalArray (wr a i ((rd a i).1, value))

/-- The method `IndexAt`: `std::find_if` over `[array_, array_ + GetSize())`. -/
def IndexAt (p : BPlusTreePage) (value : Int) : Except Fault Int := do
  let a ← p.internalArray
  let n ← toIdx p.GetSize
  pure (Int.ofNat (findValue a value 0 n))

/-- The method `Lookup`: `std::lower_bound` over `[array_ + 1, array_ + GetSize())`. -/
def Lookup (p : BPlusTreePage) (key : Int) : Except Fault Int := do
  let a ← p.internalArray
  let len ← toIdx (p.GetSize - 1)
  let target := lowerBound a key len 1 len
  if Int.ofNat target = p.GetSize then ValueAt p (p.GetSize - 1)
  else if (rd a target).1 = key then pure (rd a target).2
  else pure (rd a (target - 1)).2

/-- The method `PopulateNewRoot`. -/
def PopulateNewRoot (p : BPlusTreePage) (old_value new_key new_value : Int) :
    Except Fault BPlusTreePage := do
  let p1 ← SetKeyAt p 1 new_key
  let p2 ← SetValueAt p1 0 old_value
  let p3 ← SetValueAt p2 1 new_value
  pure (p3.SetSize 2)

/-- The method `InsertNodeAfter`: the new page and the returned size.  The slots from
`IndexAt(old_node)` on move one up and the new pair is stored at `IndexAt(old_node)`. -/
def InsertNodeAfter (p : BPlusTreePage) (old_node key new_node : Int) :
    Except Fault (BPlusTreePage × Int) := do
  let a ← p.internalArray
  let new_index ← IndexAt p old_node
  let i ← toIdx new_index
  let n ← toIdx (p.GetSize - new_index)
  let p1 ← p.setInternalArray (moveBackward a i n)
  let p2 ← SetKeyAt p1 new_index key
  let p3 ← SetValueAt p2 new_index new_node
  let p4 := p3.IncreaseSize 1
  pure (p4, p4.GetSize)

/-- The method `Remove`. -/
def Remove (p : BPlusTreePage) (index : Int) : Except Fault BPlusTreePage := do
  let a ← p.internalArray
  let i ← toIdx index
  let n ← toIdx (p.GetSize - (index + 1))
  let p1 ← p.setInternalArray (moveForward a i (i + 1) n)
  pure (p1.IncreaseSize (-1))

/-- The three statements `FetchPage(child)`, `node->SetParentPageId(GetPageId())`,
`UnpinPage(page->GetPageId(), true)` that adopt the page `child` for the page behind
`this_`. -/
def adopt (st : NodeStore) (this_ : NodeRef) (child : Int) : NodeStore :=
  let st1 := st.FetchPage child
  let st2 := st1.put (.page child)
    { st1.pages child with parent_page_id_ := (st1.get this_).page_id_ }
  (st2.UnpinPage child true).1

/-- The `for` loop of `ReceiveN` for `i, i + 1, ...` (`n` rounds). -/
def adoptLoop (this_ : NodeRef) : Nat → Int → NodeStore → Except Fault NodeStore
  | 0, _, st => .ok st
  | n + 1, i, st => do
    let child ← ValueAt (st.get this_) (i + (st.get this_).GetSize)
    adoptLoop this_ n (i + 1) (adopt st this_ child)

/-- The method `ReceiveN` called on the page behind `this_`, with `item` pointing at
slot `src` of the array `from_`. -/
def ReceiveN (st : NodeStore) (this_ : NodeRef) (from_ : List (Int × Int)) (src : Nat)
    (size : Int) : Except Fault NodeStore := do
  let p := st.get this_
  let a ← p.internalArray
  let n ← toIdx size
  let dst ← toIdx p.GetSize
  let p1 ← p.setInternalArray (copyInto a from_ dst src n)
  let st1 ← adoptLoop this_ n 0 (st.put this_ p1)
  pure (st1.put this_ ((st1.get this_).IncreaseSize size))

/-- The method `MoveHalfTo` called on the page behind `this_`: `item` is `array_`,
the first slot of this page. -/
def MoveHalfTo (st : NodeStore) (this_ pointer : NodeRef) : Except Fault NodeStore := do
  let p := st.get this_
  let a ← p.internalArray
  let start_index := p.GetMinSize
  let end_index := p.GetMaxSize
  let st1 ← ReceiveN st pointer a 0 (end_index - start_index)
  pure (st1.put this_ ((st1.get this_).SetSize start_index))

/-- The method `InsertLast` called on the page behind `this_`. -/
def InsertLast (st : NodeStore) (this_ : NodeRef) (item : Int × Int) :
    Except Fault NodeStore := do
  let p := st.get this_
  let a ← p.internalArray
  let i ← toIdx p.GetSize
  let p1 ← p.setInternalArray (wr a i item)
  pure (adopt (st.put this_ (p1.IncreaseSize 1)) this_ item.2)

/-- The method `InsertFirst` called on the page behind `this_`. -/
def InsertFirst (st : NodeStore) (this_ : NodeRef) (item : Int × Int) :
    Except Fault NodeStore := do
  let p := st.get this_
  let a ← p.internalArray
  let n ← toIdx p.GetSize
  let p1 ← p.setInternalArray (wr (moveBackward a 0 n) 0 item)
  pure (adopt (st.put this_ (p1.IncreaseSize 1)) this_ item.2)

/-- The method `MoveFirstToLast` called on the page behind `this_`. -/
def MoveFirstToLast (st : NodeStore) (this_ node : NodeRef) (middle_key : Int) :
    Except Fault NodeStore := do
  let p1 ← SetKeyAt (st.get this_) 0 middle_key
  let st1 := st.put this_ p1
  let a1 ← p1.internalArray
  let first_item := rd a1 0
  let st2 ← InsertLast st1 node first_item
  let p2 := st2.get this_
  let a2 ← p2.internalArray
  let n ← toIdx (p2.GetSize - 1)
  let p3 ← p2.setInternalArray (moveForward a2 0 1 n)
  pure (st2.put this_ (p3.IncreaseSize (-1)))

/-- The method `MoveLastToFirst` called on the page behind `this_`. -/
def MoveLastToFirst (st : NodeStore) (this_ node : NodeRef) (middle_key : Int) :
    Except Fault NodeStore := do
  let n1 ← SetKeyAt (st.get node) 0 middle_key
  let st1 := st.put node n1
  let p := st1.get this_
  let a ← p.internalArray
  let i ← toIdx (p.GetSize - 1)
  let last_item := rd a i
  let st2 ← InsertFirst st1 node last_item
  pure (st2.put this_ ((st2.get this_).IncreaseSize (-1)))

/-- The method `MoveAllTo` called on the page behind `this_`. -/
def MoveAllTo (st : NodeStore) (this_ node : NodeRef) (middle_key : Int) :
    Except Fault NodeStore := do
  let p1 ← SetKeyAt (st.get this_) 0 middle_key
  let st1 := st.put this_ p1
  let a1 ← p1.internalArray
  let st2 ← ReceiveN st1 node a1 0 p1.GetSize
  pure (st2.put this_ ((st2.get this_).SetSize 0))

end BPlusTreeInternalPage

/-! ## BPlusTree (`b_plus_tree.cpp`) and IndexIterator (`index_iterator.cpp`)

A `Page *` is the id of the pinned page, which need not agree with the `page_id_`
field stored inside its data area.  A `reinterpret_cast` of a `Page *` itself (as in
`GetValue` and `CoalesceOrRedistribute`) is read like the cast of `GetData()`: the
data buffer is the first member of `Page`.  Calls that take a `Transaction *` are
taken with a non-null transaction. -/

/-- Modelled from the spec: the enumeration `Operation` of `b_plus_tree.h`, which is not
among the sources. -/
inductive Operation where
  | SEARCH
  | INSERT
  | DELETE
  deriving DecidableEq

/-- Modelled from the spec: the data members of `BPlusTree`, declared in `b_plus_tree.h`,
which is not among the sources, as the constructor initialises them. -/
structure BPlusTree where
  root_page_id_ : Int
  leaf_max_size_ : Int
  internal_max_size_ : Int
  buffer_pool_manager_ : NodeStore

namespace BPlusTree

/-- The constructor, over the pool `NodeStore.init`. -/
def new (leaf_max_size internal_max_size : Int) : BPlusTree :=
  { root_page_id_ := INVALID_PAGE_ID, leaf_max_size_ := leaf_max_size,
    internal_max_size_ := internal_max_size, buffer_pool_manager_ := NodeStore.init }

/-- The method `IsEmpty`. -/
def IsEmpty (t : BPlusTree) : Bool := decide (t.root_page_id_ = INVALID_PAGE_ID)

/-- The method `GetRootPageId`. -/
def GetRootPageId (t : BPlusTree) : Int := t.root_page_id_

/-- The method `UpdateRootPageId(0)`: the header page is fetched, `UpdateRecord` is
called on it and it is unpinned.  No call of `InsertRecord` exists in the tree, so the
header page holds no record for `UpdateRecord` to change. -/
def UpdateRootPageId (t : BPlusTree) : BPlusTree :=
  { t with buffer_pool_manager_ := ((t.buffer_pool_manager_.FetchPage 0).UnpinPage 0 true).1 }

/-- The `while (!node->IsLeafPage())` loop of `FindLeaf`, entered with the page `page`
pinned; the result is the page on which the loop ends. -/
def findLeafLoop (key : Int) (operation : Operation) (leftMost rightMost : Bool) :
    Nat → NodeStore → Int → Except Fault (NodeStore × Int)
  | 0, _, _ => .error .diverged
  | fuel + 1, st, page =>
    let node := st.pages page
    if node.IsLeafPage then .ok (st, page)
    else do
      let child_node_page_id ←
        if leftMost then BPlusTreeInternalPage.ValueAt node 0
        else if rightMost then BPlusTreeInternalPage.ValueAt node (node.GetSize - 1)
        else BPlusTreeInternalPage.Lookup node key
      let st1 := st.FetchPage child_node_page_id
      let st2 := if operation = .SEARCH then (st1.UnpinPage page false).1 else st1
      findLeafLoop key operation leftMost rightMost fuel st2 child_node_page_id

/-- The method `FindLeaf`: the returned `Page *`. -/
def FindLeaf (fuel : Nat) (t : BPlusTree) (key : Int) (operation : Operation)
    (leftMost rightMost : Bool) : Except Fault (BPlusTree × Int) :=
  if operation = .SEARCH ∧ leftMost = true ∧ rightMost = true then .error .aborted
  else if t.root_page_id_ = INVALID_PAGE_ID then .error .aborted
  else
    match findLeafLoop key operation leftMost rightMost fuel
        (t.buffer_pool_manager_.FetchPage t.root_page_id_) t.root_page_id_ with
    | .error e => .error e
    | .ok (st, page) => .ok ({ t with buffer_pool_manager_ := st }, page)

/-- The method `GetValue`: the returned flag and the vector `*result`, which the
caller passes in empty. -/
def GetValue (fuel : Nat) (t : BPlusTree) (key : Int) :
    Except Fault (BPlusTree × Bool × List Int) := do
  let (t1, leaf_page) ← FindLeaf fuel t key .SEARCH false false
  let node := t1.buffer_pool_manager_.pages leaf_page
  let exited ← BPlusTreeLeafPage.Lookup node key
  match exited with
  | none => pure (t1, false, [])
  | some v => pure (t1, true, [v])

/-- The method `CreateNewTree`. -/
def CreateNewTree (t : BPlusTree) (key value : Int) : Except Fault BPlusTree := do
  let (st1, new_page) := t.buffer_pool_manager_.NewPage
  let root_page_id := new_page
  let leaf := BPlusTreeLeafPage.Init (st1.pages new_page) root_page_id INVALID_PAGE_ID
    t.leaf_max_size_
  let (leaf1, _) ← BPlusTreeLeafPage.Insert leaf key value
  let st2 := st1.put (.page new_page) leaf1
  pure { t with root_page_id_ := root_page_id,
                buffer_pool_manager_ := (st2.UnpinPage new_page true).1 }

/-- The method `Split(node)`: the pointer `new_node`, which is the data area of the
page just created. -/
def Split (t : BPlusTree) (node : NodeRef) : Except Fault (BPlusTree × Int) := do
  let (st1, page) := t.buffer_pool_manager_.NewPage
  let st2 := st1.put (.page page)
    { st1.pages page with page_type_ := (st1.get node).page_type_ }
  if (st2.get node).IsLeafPage then
    let new_leaf := BPlusTreeLeafPage.Init (st2.pages page) page (st2.get node).parent_page_id_
      t.internal_max_size_
    let (leaf1, new_leaf1) ← BPlusTreeLeafPage.MoveHalfTo (st2.get node) new_leaf
    let st3 := (st2.put (.page page) new_leaf1).put node leaf1
    pure ({ t with buffer_pool_manager_ := st3 }, page)
  else
    let st3 := st2.put (.page page)
      (BPlusTreeInternalPage.Init (st2.pages page) page (st2.get node).parent_page_id_
        t.internal_max_size_)
    let st4 ← BPlusTreeInternalPage.MoveHalfTo st3 node (.page page)
    pure ({ t with buffer_pool_manager_ := st4 }, page)

/-- The first `memcpy` of `InsertIntoParent`: the header and the first `GetSize()`
slots of the parent page go to the scratch buffer. -/
def copyToMem (parent : BPlusTreePage) : BPlusTreePage :=
  match parent.body with
  | .internal a => { parent with body := .internal (a.take parent.size_.toNat) }
  | _ => parent

/-- The second `memcpy` of `InsertIntoParent`: the header and the first
`GetMinSize()` slots of the scratch buffer go back to the parent page. -/
def copyFromMem (parent mem : BPlusTreePage) : Except Fault BPlusTreePage := do
  let a ← parent.internalArray
  let m ← mem.internalArray
  let n ← toIdx mem.GetMinSize
  pure { mem with body := .internal (copyInto a m 0 0 n) }

/-- The method `InsertIntoParent`, with a budget for the recursion. -/
def InsertIntoParent : Nat → BPlusTree → NodeRef → Int → NodeRef → Except Fault BPlusTree
  | 0, _, _, _, _ => .error .diverged
  | fuel + 1, t, old_node, key, new_node => do
    let st := t.buffer_pool_manager_
    if (st.get old_node).IsRootPage then
      let (st1, page) := st.NewPage
      let new_root := BPlusTreeInternalPage.Init (st1.pages page) page INVALID_PAGE_ID
        t.internal_max_size_
      let new_root1 ← BPlusTreeInternalPage.PopulateNewRoot new_root
        (st1.get old_node).page_id_ key (st1.get new_node).page_id_
      let st2 := st1.put (.page page) new_root1
      let st3 := st2.put old_node { st2.get old_node with parent_page_id_ := page }
      let st4 := st3.put new_node { st3.get new_node with parent_page_id_ := page }
      let st5 := (st4.UnpinPage page true).1
      pure (UpdateRootPageId { t with root_page_id_ := page, buffer_pool_manager_ := st5 })
    else
      let parent_page := (st.get old_node).parent_page_id_
      let st1 := st.FetchPage parent_page
      let parent_node := st1.pages parent_page
      if parent_node.GetSize < t.internal_max_size_ then
        let (parent1, _) ← BPlusTreeInternalPage.InsertNodeAfter parent_node
          (st1.get old_node).page_id_ key (st1.get new_node).page_id_
        let st2 := st1.put (.page parent_page) parent1
        pure { t with buffer_pool_manager_ := (st2.UnpinPage parent1.page_id_ true).1 }
      else
        let st2 := st1.put .mem (copyToMem parent_node)
        let (copy1, _) ← BPlusTreeInternalPage.InsertNodeAfter (st2.get .mem)
          (st2.get old_node).page_id_ key (st2.get new_node).page_id_
        let st3 := st2.put .mem copy1
        let (t1, parent_new_sibling_node) ← Split { t with buffer_pool_manager_ := st3 } .mem
        let st4 := t1.buffer_pool_manager_
        let new_key ← BPlusTreeInternalPage.KeyAt (st4.pages parent_new_sibling_node) 0
        let parent2 ← copyFromMem (st4.pages parent_page) (st4.get .mem)
        let st5 := st4.put (.page parent_page) parent2
        let t2 ← InsertIntoParent fuel { t1 with buffer_pool_manager_ := st5 }
          (.page parent_page) new_key (.page parent_new_sibling_node)
        let st6 := (t2.buffer_pool_manager_.UnpinPage parent_page true).1
        let st7 := (st6.UnpinPage (st6.pages parent_new_sibling_node).page_id_ true).1
        pure { t2 with buffer_pool_manager_ := st7 }

/-- The method `InsertIntoLeaf`. -/
def InsertIntoLeaf (fuel : Nat) (t : BPlusTree) (key value : Int) :
    Except Fault (BPlusTree × Bool) := do
  let (t1, leaf_page) ← FindLeaf fuel t key .INSERT false false
  let st := t1.buffer_pool_manager_
  let node := st.pages leaf_page
  let size := node.GetSize
  let (node1, new_size) ← BPlusTreeLeafPage.Insert node key value
  let st1 := st.put (.page leaf_page) node1
  if new_size = size then
    pure ({ t1 with buffer_pool_manager_ := (st1.UnpinPage leaf_page false).1 }, false)
  else if new_size < t1.leaf_max_size_ then
    pure ({ t1 with buffer_pool_manager_ := (st1.UnpinPage leaf_page false).1 }, true)
  else
    let (t2, sibling) ← Split { t1 with buffer_pool_manager_ := st1 } (.page leaf_page)
    let st2 := t2.buffer_pool_manager_
    let sib1 ← BPlusTreeLeafPage.SetNextPageId (st2.pages sibling)
      (BPlusTreeLeafPage.GetNextPageId (st2.pages leaf_page))
    let st3 := st2.put (.page sibling) sib1
    let node2 ← BPlusTreeLeafPage.SetNextPageId (st3.pages leaf_page) (st3.pages sibling).page_id_
    let st4 := st3.put (.page leaf_page) node2
    let rise_key ← BPlusTreeLeafPage.KeyAt (st4.pages sibling) 0
    let t3 ← InsertIntoParent fuel { t2 with buffer_pool_manager_ := st4 } (.page leaf_page)
      rise_key (.page sibling)
    let st5 := (t3.buffer_pool_manager_.UnpinPage leaf_page true).1
    let st6 := (st5.UnpinPage (st5.pages sibling).page_id_ true).1
    pure ({ t3 with buffer_pool_manager_ := st6 }, true)

/-- The method `Insert`. -/
def Insert (fuel : Nat) (t : BPlusTree) (key value : Int) : Except Fault (BPlusTree × Bool) :=
  if t.IsEmpty then
    match CreateNewTree t key value with
    | .error e => .error e
    | .ok t1 => .ok (t1, true)
  else InsertIntoLeaf fuel t key value

end BPlusTree

namespace BPlusTree

/-- The method `AdjustRoot`. -/
def AdjustRoot (t : BPlusTree) (old_root_node : NodeRef) : Except Fault (BPlusTree × Bool) := do
  let st := t.buffer_pool_manager_
  let root := st.get old_root_node
  if !root.IsLeafPage ∧ root.GetSize = 1 then
    let child ← BPlusTreeInternalPage.ValueAt root 0
    let st1 := st.FetchPage child
    let only_child_node := st1.pages child
    let t1 := UpdateRootPageId { t with root_page_id_ := only_child_node.page_id_,
                                        buffer_pool_manager_ := st1 }
    let st2 := (t1.buffer_pool_manager_.UnpinPage only_child_node.page_id_ true).1
    pure ({ t1 with buffer_pool_manager_ := st2 }, true)
  else if root.IsLeafPage ∧ root.GetSize = 0 then
    pure ({ t with root_page_id_ := INVALID_PAGE_ID }, true)
  else pure (t, false)

/-- The method `Redistribute`. -/
def Redistribute (t : BPlusTree) (neighbor_node node : NodeRef) (parent : NodeRef)
    (index : Int) (from_prev : Bool) : Except Fault BPlusTree := do
  let st := t.buffer_pool_manager_
  if (st.get node).IsLeafPage then
    if from_prev then
      let (nb1, leaf1) ← BPlusTreeLeafPage.MoveLastToFirst (st.get neighbor_node) (st.get node)
      let st1 := (st.put node leaf1).put neighbor_node nb1
      let k ← BPlusTreeLeafPage.KeyAt (st1.get node) 0
      let parent1 ← BPlusTreeInternalPage.SetKeyAt (st1.get parent) index k
      pure { t with buffer_pool_manager_ := st1.put parent parent1 }
    else
      let (nb1, leaf1) ← BPlusTreeLeafPage.MoveFirstToLast (st.get neighbor_node) (st.get node)
      let st1 := (st.put node leaf1).put neighbor_node nb1
      let k ← BPlusTreeLeafPage.KeyAt (st1.get neighbor_node) 0
      let parent1 ← BPlusTreeInternalPage.SetKeyAt (st1.get parent) (index + 1) k
      pure { t with buffer_pool_manager_ := st1.put parent parent1 }
  else
    if from_prev then
      let mk ← BPlusTreeInternalPage.KeyAt (st.get parent) index
      let st1 ← BPlusTreeInternalPage.MoveLastToFirst st neighbor_node node mk
      let k ← BPlusTreeInternalPage.KeyAt (st1.get node) 0
      let parent1 ← BPlusTreeInternalPage.SetKeyAt (st1.get parent) index k
      pure { t with buffer_pool_manager_ := st1.put parent parent1 }
    else
      let mk ← BPlusTreeInternalPage.KeyAt (st.get parent) (index + 1)
      let st1 ← BPlusTreeInternalPage.MoveFirstToLast st neighbor_node node mk
      let k ← BPlusTreeInternalPage.KeyAt (st1.get neighbor_node) 0
      let parent1 ← BPlusTreeInternalPage.SetKeyAt (st1.get parent) index k
      pure { t with buffer_pool_manager_ := st1.put parent parent1 }

/-- The method `Coalesce`; `recurse` is the call `CoalesceOrRedistribute(parent)` at
its end. -/
def Coalesce (recurse : BPlusTree → NodeRef → Except Fault (BPlusTree × Bool))
    (t : BPlusTree) (neighbor_node node parent : NodeRef) (index : Int) :
    Except Fault (BPlusTree × Bool) := do
  let st := t.buffer_pool_manager_
  let middle_key ← BPlusTreeInternalPage.KeyAt (st.get parent) index
  let st1 ←
    if (st.get node).IsLeafPage then do
      let (leaf1, nb1) ← BPlusTreeLeafPage.MoveAllTo (st.get node) (st.get neighbor_node)
      pure ((st.put neighbor_node nb1).put node leaf1)
    else BPlusTreeInternalPage.MoveAllTo st node neighbor_node middle_key
  let parent1 ← BPlusTreeInternalPage.Remove (st1.get parent) index
  recurse { t with buffer_pool_manager_ := st1.put parent parent1 } parent

/-- The method `CoalesceOrRedistribute`, with a budget for the recursion through
`Coalesce`. -/
def CoalesceOrRedistribute : Nat → BPlusTree → NodeRef → Except Fault (BPlusTree × Bool)
  | 0, _, _ => .error .diverged
  | fuel + 1, t, node => do
    let st := t.buffer_pool_manager_
    if (st.get node).IsRootPage then AdjustRoot t node
    else if (st.get node).GetSize ≥ (st.get node).GetMinSize then pure (t, false)
    else
      let parent_page := (st.get node).parent_page_id_
      let st1 := st.FetchPage parent_page
      let parent_node := NodeRef.page parent_page
      let index ← BPlusTreeInternalPage.IndexAt (st1.get parent_node) (st1.get node).page_id_
      if index > 0 then
        let sibling_page ← BPlusTreeInternalPage.ValueAt (st1.get parent_node) (index - 1)
        let st2 := st1.FetchPage sibling_page
        let sibling_node := NodeRef.page sibling_page
        if (st2.get sibling_node).GetSize > (st2.get sibling_node).GetMinSize then
          let t1 ← Redistribute { t with buffer_pool_manager_ := st2 } sibling_node node
            parent_node index true
          let st3 := (t1.buffer_pool_manager_.UnpinPage parent_page true).1
          pure ({ t1 with buffer_pool_manager_ := (st3.UnpinPage sibling_page true).1 }, false)
        else
          let (t1, _) ← Coalesce (CoalesceOrRedistribute fuel)
            { t with buffer_pool_manager_ := st2 } sibling_node node parent_node index
          let st3 := (t1.buffer_pool_manager_.UnpinPage parent_page true).1
          pure ({ t1 with buffer_pool_manager_ := (st3.UnpinPage sibling_page true).1 }, true)
      else if index ≠ (st1.get parent_node).GetSize - 1 then
        let sibling_page ← BPlusTreeInternalPage.ValueAt (st1.get parent_node) (index + 1)
        let st2 := st1.FetchPage sibling_page
        let sibling_node := NodeRef.page sibling_page
        if (st2.get sibling_node).GetSize > (st2.get sibling_node).GetMinSize then
          let t1 ← Redistribute { t with buffer_pool_manager_ := st2 } sibling_node node
            parent_node index false
          let st3 := (t1.buffer_pool_manager_.UnpinPage parent_page true).1
          pure ({ t1 with buffer_pool_manager_ := (st3.UnpinPage sibling_page true).1 }, false)
        else
          let (t1, _) ← Coalesce (CoalesceOrRedistribute fuel)
            { t with buffer_pool_manager_ := st2 } sibling_node node parent_node index
          let st3 := (t1.buffer_pool_manager_.UnpinPage parent_page true).1
          pure ({ t1 with buffer_pool_manager_ := (st3.UnpinPage sibling_page true).1 }, false)
      else pure ({ t with buffer_pool_manager_ := st1 }, false)

/-- The method `Remove`.  In `node->GetSize() == node->RemoveAndDeleteRecord(key)`
the left operand is read first. -/
def Remove (fuel : Nat) (t : BPlusTree) (key : Int) : Except Fault BPlusTree := do
  if t.IsEmpty then pure t
  else
    let (t1, leaf_page) ← FindLeaf fuel t key .DELETE false false
    let st := t1.buffer_pool_manager_
    let node := st.pages leaf_page
    let size := node.GetSize
    let (node1, new_size) ← BPlusTreeLeafPage.RemoveAndDeleteRecord node key
    let st1 := st.put (.page leaf_page) node1
    if size = new_size then
      pure { t1 with buffer_pool_manager_ := (st1.UnpinPage leaf_page true).1 }
    else
      let (t2, _) ← CoalesceOrRedistribute fuel { t1 with buffer_pool_manager_ := st1 }
        (.page leaf_page)
      pure t2

end BPlusTree

/-! ### IndexIterator

`index_iterator.cpp` names `bmp`, `leaf`, `index` and `leaf_->GetNextPageId` without a
call; they are read as `bpm`, `leaf_`, `index_` and `leaf_->GetNextPageId()`. -/

/-- Modelled from the spec: the data members of `IndexIterator`, declared in
`index_iterator.h`, which is not among the sources: `page_` is the pinned leaf page
(`none` for `nullptr`), `index_` the position in it. -/
structure IndexIterator where
  page_ : Option Int
  index_ : Int
  deriving DecidableEq

namespace IndexIterator

/-- The method `IsEnd`. -/
def IsEnd (st : NodeStore) (it : IndexIterator) : Except Fault Bool :=
  match it.page_ with
  | none => .error .undefined
  | some page =>
    .ok (decide (BPlusTreeLeafPage.GetNextPageId (st.pages page) = INVALID_PAGE_ID ∧
                 it.index_ = (st.pages page).GetSize))

/-- The method `operator*`. -/
def deref (st : NodeStore) (it : IndexIterator) : Except Fault (Int × Int) :=
  match it.page_ with
  | none => .error .undefined
  | some page => BPlusTreeLeafPage.GetItem (st.pages page) it.index_

/-- The method `operator++`. -/
def next (st : NodeStore) (it : IndexIterator) : Except Fault (NodeStore × IndexIterator) :=
  match it.page_ with
  | none => .error .undefined
  | some page =>
    let leaf := st.pages page
    if BPlusTreeLeafPage.GetNextPageId leaf ≠ INVALID_PAGE_ID ∧ it.index_ = leaf.GetSize - 1 then
      let next_page := BPlusTreeLeafPage.GetNextPageId leaf
      let st1 := st.FetchPage next_page
      .ok ((st1.UnpinPage page false).1, { page_ := some next_page, index_ := 0 })
    else .ok (st, { it with index_ := it.index_ + 1 })

end IndexIterator

namespace BPlusTree

/-- The method `Begin()`. -/
def Begin (fuel : Nat) (t : BPlusTree) : Except Fault (BPlusTree × IndexIterator) :=
  if t.root_page_id_ = INVALID_PAGE_ID then .ok (t, { page_ := none, index_ := 0 })
  else
    match FindLeaf fuel t 0 .SEARCH true false with
    | .error e => .error e
    | .ok (t1, leftmost_page) => .ok (t1, { page_ := some leftmost_page, index_ := 0 })

/-- The method `End()`. -/
def End (fuel : Nat) (t : BPlusTree) : Except Fault (BPlusTree × IndexIterator) :=
  if t.root_page_id_ = INVALID_PAGE_ID then .ok (t, { page_ := none, index_ := 0 })
  else
    match FindLeaf fuel t 0 .SEARCH false true with
    | .error e => .error e
    | .ok (t1, rightmost_page) =>
      .ok (t1, { page_ := some rightmost_page,
                 index_ := (t1.buffer_pool_manager_.pages rightmost_page).GetSize })

/-- The scan `for (it = Begin(); !it.IsEnd(); ++it) out.push_back(*it)`, from the
iterator `it` on, with a budget of steps. -/
def scanFrom : Nat → NodeStore → IndexIterator → Except Fault (List (Int × Int))
  | 0, _, _ => .error .diverged
  | fuel + 1, st, it => do
    let fin ← IndexIterator.IsEnd st it
    if fin then pure []
    else
      let e ← IndexIterator.deref st it
      let (st1, it1) ← IndexIterator.next st it
      let rest ← scanFrom fuel st1 it1
      pure (e :: rest)

/-- The pairs seen by a scan from `Begin()` to the end.  The comparison operators of
the iterator are declared in `index_iterator.h`, which is not among the sources; the
scan stops where `IsEnd` holds, and the iterator of an empty tree is the end at
once. -/
def scan (fuel : Nat) (t : BPlusTree) : Except Fault (List (Int × Int)) :=
  match Begin fuel t with
  | .error e => .error e
  | .ok (t1, it) =>
    match it.page_ with
    | none => .ok []
    | some _ => scanFrom fuel t1.buffer_pool_manager_ it

end BPlusTree


namespace BPlusTree

/-- The tree after `Insert(key, value)`, when the call returns (the tree as it was
when it does not). -/
def afterInsert (fuel : Nat) (t : BPlusTree) (key value : Int) : BPlusTree :=
  match Insert fuel t key value with
  | .ok (t1, _) => t1
  | .error _ => t

end BPlusTree

/-! ### Sequences of replacer calls -/

/-- One call of the public interface of the replacer. -/
inductive ReplacerCall where
  | RecordAccess (frame_id : Nat)
  | SetEvictable (frame_id : Nat) (set_evictable : Bool)
  | Evict
  | Remove (frame_id : Nat)

/-- The replacer after one call, when the call returns. -/
def ReplacerCall.apply (r : LRUKReplacer) : ReplacerCall → Except Fault LRUKReplacer
  | .RecordAccess frame_id => r.RecordAccess frame_id
  | .SetEvictable frame_id set_evictable => r.SetEvictable frame_id set_evictable
  | .Evict => r.Evict.map Prod.fst
  | .Remove frame_id => .ok (r.Remove frame_id)

/-- The replacer after a sequence of calls, each of which returns. -/
def runReplacer (r : LRUKReplacer) : List ReplacerCall → Except Fault LRUKReplacer
  | [] => .ok r
  | c :: rest =>
    match c.apply r with
    | .error e => .error e
    | .ok r1 => runReplacer r1 rest

/-- The replacer after a sequence of calls that all return (the starting replacer
when one of them does not). -/
def afterReplacerCalls (r : LRUKReplacer) (calls : List ReplacerCall) : LRUKReplacer :=
  match runReplacer r calls with
  | .ok r1 => r1
  | .error _ => r

/-! ### Shape of a hash table and sequences of its calls -/

namespace ExtendibleHashTable

variable {V : Type}

/-- The shape of a table: the directory has `2 ^ global_depth_` slots and at most
`2 ^ 30` of them, every slot holds the handle of a bucket, and for the bucket `b`
behind slot `i`: its depth is at most the global depth, the slots that hold its handle
are those that agree with `i` on the low `depth_` bits, the hash of each of its keys
agrees with `i` on these bits, no key is stored twice, its capacity is `bucket_size_`
and it holds no more entries than its capacity. -/
structure WellFormed (t : ExtendibleHashTable V) : Prop where
  dir_length : t.dir_.length = 2 ^ t.global_depth_
  depth_bound : t.global_depth_ ≤ 30
  slot_bucket : ∀ i, i < t.dir_.length → ∃ h b, bucketAt t i = some (h, b)
  local_le : ∀ i h b, bucketAt t i = some (h, b) → b.depth_ ≤ t.global_depth_
  same_bucket : ∀ i h b, bucketAt t i = some (h, b) → ∀ j, j < t.dir_.length →
    (t.dir_[j]? = some h ↔ j % 2 ^ b.depth_ = i % 2 ^ b.depth_)
  key_slot : ∀ i h b, bucketAt t i = some (h, b) → ∀ p ∈ b.list_,
    hashKey p.1 % 2 ^ b.depth_ = i % 2 ^ b.depth_
  keys_nodup : ∀ i h b, bucketAt t i = some (h, b) → (b.list_.map Prod.fst).Nodup
  capacity : ∀ i h b, bucketAt t i = some (h, b) → b.size_ = t.bucket_size_
  fill : ∀ i h b, bucketAt t i = some (h, b) → b.list_.length ≤ b.size_

end ExtendibleHashTable

/-- One call of the public interface of the table; an `Insert` carries the iteration
budget of its loop. -/
inductive TableCall (V : Type) where
  | Insert (fuel : Nat) (key : Int) (value : V)
  | Remove (key : Int)

/-- The table after one call, when the call returns. -/
def TableCall.apply {V : Type} (t : ExtendibleHashTable V) :
    TableCall V → Except Fault (ExtendibleHashTable V)
  | .Insert fuel key value => t.Insert fuel key value
  | .Remove key => (t.Remove key).map Prod.fst

/-- The table after a sequence of calls, each of which returns. -/
def runTable {V : Type} (t : ExtendibleHashTable V) :
    List (TableCall V) → Except Fault (ExtendibleHashTable V)
  | [] => .ok t
  | c :: rest =>
    match c.apply t with
    | .error e => .error e
    | .ok t1 => runTable t1 rest

/-- The table after a sequence of calls that all return (the starting table when one
of them does not). -/
def afterTableCalls {V : Type} (t : ExtendibleHashTable V) (calls : List (TableCall V)) :
    ExtendibleHashTable V :=
  match runTable t calls with
  | .ok t1 => t1
  | .error _ => t

/-! ### Pages with an initialised header, as inputs of single calls -/

/-- A leaf page whose header is initialised: page type `LEAF_PAGE`, the size of its
array, its maximum size, parent id, own id and next page id.  It is what the comments
of `Init`, `Insert` and `Split` describe; the code itself never stores `LEAF_PAGE`
into the page made by `CreateNewTree`. -/
def leafPage (page_id parent_id max_size next_page_id : Int) (array_ : List (Int × Int)) :
    BPlusTreePage :=
  { page_type_ := .LEAF_PAGE, size_ := array_.length, max_size_ := max_size,
    parent_page_id_ := parent_id, page_id_ := page_id, body := .leaf next_page_id array_ }

/-- An internal page whose header is initialised, holding the (key, child) slots
`array_`. -/
def internalPage (page_id parent_id max_size : Int) (array_ : List (Int × Int)) :
    BPlusTreePage :=
  { page_type_ := .INTERNAL_PAGE, size_ := array_.length, max_size_ := max_size,
    parent_page_id_ := parent_id, page_id_ := page_id, body := .internal array_ }

/-- A tree over a pool that holds the pages `pages` as pages 1, 2, ... (page 0 is the
header page), none of them pinned. -/
def BPlusTree.ofPages (root_page_id leaf_max_size internal_max_size : Int)
    (pages : List BPlusTreePage) : BPlusTree :=
  { root_page_id_ := root_page_id, leaf_max_size_ := leaf_max_size,
    internal_max_size_ := internal_max_size,
    buffer_pool_manager_ :=
      { pages := fun pid => if 1 ≤ pid then pages.getD (pid.toNat - 1) BPlusTreePage.zero
                            else BPlusTreePage.zero,
        pins := fun _ => 0, next_page_id_ := Int.ofNat pages.length + 1,
        mem := BPlusTreePage.zero } }

/-! ### Sequences of tree calls -/

/-- One call of `Insert` or `Remove`, with the iteration budget of its loops. -/
inductive TreeCall where
  | Insert (fuel : Nat) (key value : Int)
  | Remove (fuel : Nat) (key : Int)

/-- The tree after one call, when the call returns. -/
def TreeCall.apply (t : BPlusTree) : TreeCall → Except Fault BPlusTree
  | .Insert fuel key value => (BPlusTree.Insert fuel t key value).map Prod.fst
  | .Remove fuel key => BPlusTree.Remove fuel t key

/-- The tree after a sequence of calls, each of which returns. -/
def runTree (t : BPlusTree) : List TreeCall → Except Fault BPlusTree
  | [] => .ok t
  | c :: rest =>
    match c.apply t with
    | .error e => .error e
    | .ok t1 => runTree t1 rest

/-! ## Trie (`p0_trie.h`)

A key is the list of the characters of the `std::string`.  The trie is taken at one
value type `V`: every call of `Insert<T>` and `GetValue<T>` has `T = V`.  The
read-write latch of the trie is not part of the state. -/

/-- An object of class `TrieNode` or of its subclass `TrieNodeWithValue<V>`, owned
through a `unique_ptr`.  `value_` is `some v` when the object is a
`TrieNodeWithValue<V>` holding `v` and `none` when it is a plain `TrieNode`.
`children_` is the `unordered_map` from key character to child as an association
list; the order of the entries has no meaning. -/
inductive TrieNode (V : Type) where
  | mk (key_char_ : Char) (is_end_ : Bool) (value_ : Option V)
      (children_ : List (Char × TrieNode V))

namespace TrieNode

variable {V : Type}

/-- The member `key_char_`. -/
def key_char_ : TrieNode V → Char
  | mk c _ _ _ => c

/-- The member `is_end_`. -/
def is_end_ : TrieNode V → Bool
  | mk _ e _ _ => e

/-- The member `value_` of a `TrieNodeWithValue<V>`. -/
def value_ : TrieNode V → Option V
  | mk _ _ v _ => v

/-- The member `children_`. -/
def children_ : TrieNode V → List (Char × TrieNode V)
  | mk _ _ _ cs => cs

/-- The constructor `TrieNode(char key_char)`. -/
def new (key_char : Char) : TrieNode V := mk key_char false none []

/-- The lookup `children_.find(key_char)` in the map: the mapped node, if any. -/
def find : List (Char × TrieNode V) → Char → Option (TrieNode V)
  | [], _ => none
  | e :: rest, key_char => if e.1 = key_char then some e.2 else find rest key_char

/-- The store `children_[key_char] = child` and the store through a pointer to the
slot of `key_char`: the mapped node is replaced, or a new entry is added. -/
def assign : List (Char × TrieNode V) → Char → TrieNode V → List (Char × TrieNode V)
  | [], key_char, child => [(key_char, child)]
  | e :: rest, key_char, child =>
    if e.1 = key_char then (key_char, child) :: rest else e :: assign rest key_char child

/-- The method `HasChild`. -/
def HasChild (n : TrieNode V) (key_char : Char) : Bool := (find n.children_ key_char).isSome

/-- The method `HasChildren`. -/
def HasChildren (n : TrieNode V) : Bool := !n.children_.isEmpty

/-- The method `IsEndNode`. -/
def IsEndNode (n : TrieNode V) : Bool := n.is_end_

/-- The method `GetKeyChar`. -/
def GetKeyChar (n : TrieNode V) : Char := n.key_char_

/-- The node with the slot of `key_char` holding `child`: what a store through the
pointer that `GetChildNode` or `InsertChildNode` returned leaves behind. -/
def setChild (n : TrieNode V) (key_char : Char) (child : TrieNode V) : TrieNode V :=
  mk n.key_char_ n.is_end_ n.value_ (assign n.children_ key_char child)

/-- The method `InsertChildNode`: `none` is the null pointer; otherwise the node with
the child inserted, the returned pointer being the slot of `key_char`. -/
def InsertChildNode (n : TrieNode V) (key_char : Char) (child : TrieNode V) :
    Option (TrieNode V) :=
  if n.HasChild key_char ∨ key_char ≠ child.key_char_ then none
  else some (n.setChild key_char child)

/-- The method `GetChildNode`: the node behind the returned pointer, `none` for the
null pointer. -/
def GetChildNode (n : TrieNode V) (key_char : Char) : Option (TrieNode V) :=
  if n.HasChild key_char then find n.children_ key_char else none

/-- The method `RemoveChildNode`: `children_.erase(key_char)`. -/
def RemoveChildNode (n : TrieNode V) (key_char : Char) : TrieNode V :=
  mk n.key_char_ n.is_end_ n.value_ (n.children_.filter (fun e => !decide (e.1 = key_char)))

/-- The method `SetEndNode`. -/
def SetEndNode (n : TrieNode V) (is_end : Bool) : TrieNode V :=
  mk n.key_char_ is_end n.value_ n.children_

/-- The node reached from `n` along the characters of `path`. -/
def nodeAt : TrieNode V → List Char → Option (TrieNode V)
  | n, [] => some n
  | n, c :: rest =>
    match n.GetChildNode c with
    | none => none
    | some child => nodeAt child rest

end TrieNode

namespace TrieNodeWithValue

variable {V : Type}

/-- The constructor `TrieNodeWithValue(TrieNode &&trieNode, T value)`: key character
and children are taken over from `trieNode`, the value is stored and the end flag is
set. -/
def ofNode (trieNode : TrieNode V) (value : V) : TrieNode V :=
  (TrieNode.mk trieNode.key_char_ trieNode.is_end_ (some value) trieNode.children_).SetEndNode true

/-- The constructor `TrieNodeWithValue(char key_char, T value)`. -/
def new (key_char : Char) (value : V) : TrieNode V :=
  (TrieNode.mk key_char false (some value) []).SetEndNode true

end TrieNodeWithValue

/-- The class `Trie`: the root node. -/
structure Trie (V : Type) where
  root_ : TrieNode V

namespace Trie

variable {V : Type}

/-- The constructor `Trie()`: the root carries the character `'\0'`. -/
def new : Trie V := { root_ := TrieNode.new (Char.ofNat 0) }

/-- The `for` loop of `Insert` with `cur_node` pointing at `cur` and the characters
`key[i], key[i + 1], ...` still to read: the node `cur` after the loop and the value
returned.  The last character is the one with nothing after it; leaving the loop
without a character returns false.  The pointer that `InsertChildNode` returns is
the slot of `c` in the map, so the node behind it is read with `GetChildNode` in both
branches; a null pointer is dereferenced. -/
def insertLoop (value : V) : List Char → TrieNode V → Except Fault (TrieNode V × Bool)
  | [], cur => .ok (cur, false)
  | c :: rest, cur =>
    let stepped : Option (TrieNode V) :=
      if cur.HasChild c then some cur else cur.InsertChildNode c (TrieNode.new c)
    match stepped with
    | none => .error .undefined
    | some cur1 =>
      match cur1.GetChildNode c with
      | none => .error .undefined
      | some child =>
        if rest.isEmpty then
          if child.IsEndNode then .ok (cur1, false)
          else .ok (cur1.setChild c (TrieNodeWithValue.ofNode child value), true)
        else
          match insertLoop value rest child with
          | .error e => .error e
          | .ok (child1, r) => .ok (cur1.setChild c child1, r)

/-- The method `Insert`. -/
def Insert (t : Trie V) (key : List Char) (value : V) : Except Fault (Trie V × Bool) :=
  if key.isEmpty then .ok (t, false)
  else
    match insertLoop value key t.root_ with
    | .error e => .error e
    | .ok (root, r) => .ok ({ root_ := root }, r)

/-- The method `Dfs` called on the node `root` with the characters `key[index],
key[index + 1], ...` still to read: the node after the call, whether the returned
pointer is non-null, and `*success`. -/
def Dfs : List Char → TrieNode V → TrieNode V × Bool × Bool
  | [], root =>
    if !root.IsEndNode then (root, false, false)
    else if !root.HasChildren then (root, false, true)
    else (root.SetEndNode false, true, true)
  | c :: rest, root =>
    match root.GetChildNode c with
    | none => (root, false, false)
    | some child =>
      let (child1, node, success) := Dfs rest child
      let root1 := root.setChild c child1
      if success = false then (root1, false, false)
      else if node = false then
        let root2 := root1.RemoveChildNode c
        if !root2.HasChildren && !root2.IsEndNode then (root2, false, true)
        else (root2, true, true)
      else (root1, true, true)

/-- The method `Remove`: the trie after the call and the value returned. -/
def Remove (t : Trie V) (key : List Char) : Trie V × Bool :=
  let (root, _, success) := Dfs key t.root_
  ({ root_ := root }, success)

/-- The last round of the `for` loop of `GetValue`, with `cur_node` pointing at the
node `child` of the last character: the value returned and `*success`.  A
value-initialised `T` is `default`.  The `dynamic_cast` of a plain `TrieNode` gives a
null pointer, which is then dereferenced. -/
def getLast [Inhabited V] (child : TrieNode V) : Except Fault (V × Bool) :=
  if child.IsEndNode then
    match child.value_ with
    | some v => .ok (v, true)
    | none => .error .undefined
  else .ok (default, false)

/-- The `for` loop of `GetValue` with `cur_node` pointing at `cur` and the characters
`key[i], key[i + 1], ...` still to read: the value returned and `*success`. -/
def getLoop [Inhabited V] : List Char → TrieNode V → Except Fault (V × Bool)
  | [], _ => .ok (default, false)
  | c :: rest, cur =>
    match cur.GetChildNode c with
    | none => .ok (default, false)
    | some child => if rest.isEmpty then getLast child else getLoop rest child

/-- The method `GetValue`: the value returned and `*success`. -/
def GetValue [Inhabited V] (t : Trie V) (key : List Char) : Except Fault (V × Bool) :=
  if key.isEmpty then .ok (default, false) else getLoop key t.root_

/-- The tries that calls of `Insert` and `Remove` build from the empty trie. -/
inductive Reachable : Trie V → Prop where
  | new : Reachable Trie.new
  | Insert (t t1 : Trie V) (key : List Char) (value : V) (r : Bool) :
      Reachable t → t.Insert key value = .ok (t1, r) → Reachable t1
  | Remove (t : Trie V) (key : List Char) : Reachable t → Reachable (t.Remove key).1

end Trie

/-- The shape that `Insert` and `Remove` keep in the subtree of a node: a node with
the end flag set is a `TrieNodeWithValue`, and every child has a child of its own or
the end flag set; the same holds in every child. -/
inductive TrieNode.Sound {V : Type} : TrieNode V → Prop where
  | mk (c : Char) (e : Bool) (v : Option V) (cs : List (Char × TrieNode V)) :
      (e = true → v.isSome = true) →
      (∀ x ∈ cs, x.2.HasChildren = true ∨ x.2.is_end_ = true) →
      (∀ x ∈ cs, TrieNode.Sound x.2) →
      TrieNode.Sound (TrieNode.mk c e v cs)

end Bustub

/-! # Theorems -/

namespace Bustub

open BufferPoolManagerInstance

/-- C1: on the empty tree, for every key and value (and all maximum sizes),
Insert(key, value) returns true and makes page 1 the root, yet the following
GetValue(key) does not return true with [value]: the root page was never given the
leaf page type (the body of the leaf Init is empty), so FindLeaf reads the leaf data
through the internal-page class and the call has no defined result, whatever the
iteration budget.  The instance key = 1, value = 100, maximum sizes 4 is the failing
input. -/
theorem getValue_after_insert_has_no_result (leaf_max_size internal_max_size key value : Int) :
    (BPlusTree.Insert 1 (BPlusTree.new leaf_max_size internal_max_size) key value).map Prod.snd
      = .ok true ∧
    (BPlusTree.afterInsert 1 (BPlusTree.new leaf_max_size internal_max_size) key
      value).root_page_id_ = 1 ∧
    ((BPlusTree.afterInsert 1 (BPlusTree.new leaf_max_size internal_max_size) key
      value).buffer_pool_manager_.pages 1).IsLeafPage = false ∧
    ∀ fuel : Nat,
      (BPlusTree.GetValue (fuel + 1)
        (BPlusTree.afterInsert 1 (BPlusTree.new leaf_max_size internal_max_size) key value)
        key).map (fun r => r.2) = .error .undefined := by
  refine ⟨rfl, rfl, rfl, ?_⟩
  intro fuel; rfl

/-- C2: for every key and values v, v2, the tree that holds the key with value v
(built by one Insert on the empty tree) does not answer Insert(key, v2) with false:
the call has no defined result (FindLeaf reads the root, whose page type was never
set to leaf, through the internal-page class).  The instance key = 1, v = 100,
v2 = 200, maximum sizes 4 is the failing input. -/
theorem duplicate_insert_has_no_result (leaf_max_size internal_max_size key v v2 : Int) :
    (BPlusTree.Insert 1 (BPlusTree.new leaf_max_size internal_max_size) key v).map Prod.snd
      = .ok true ∧
    ∀ fuel : Nat,
      (BPlusTree.Insert (fuel + 1)
        (BPlusTree.afterInsert 1 (BPlusTree.new leaf_max_size internal_max_size) key v)
        key v2).map Prod.snd = .error .undefined := by
  refine ⟨rfl, ?_⟩
  intro fuel; rfl

/-- C3: for every key and value, on the tree that holds the key (built by one Insert
on the empty tree) Remove(key) does not return, so there is no state in which
GetValue(key) could report the key gone: the call has no defined result (FindLeaf
reads the root, whose page type was never set to leaf, through the internal-page
class).  The instance key = 1, value = 100, maximum sizes 4 is the failing input. -/
theorem remove_has_no_result (leaf_max_size internal_max_size key value : Int) :
    (BPlusTree.Insert 1 (BPlusTree.new leaf_max_size internal_max_size) key value).map Prod.snd
      = .ok true ∧
    ∀ fuel : Nat,
      (BPlusTree.Remove (fuel + 1)
        (BPlusTree.afterInsert 1 (BPlusTree.new leaf_max_size internal_max_size) key value)
        key).map (fun t => t.root_page_id_) = .error .undefined := by
  refine ⟨rfl, ?_⟩
  intro fuel; rfl

/-- C4: for every key and value, after the single call Insert(key, value) on the
empty tree the map is {key ↦ value}, but the scan from Begin() does not yield
[(key, value)]: Begin() has no defined result (FindLeaf reads the root, whose page
type was never set to leaf, through the internal-page class).  The instance key = 1,
value = 100, maximum sizes 4 is the failing input. -/
theorem scan_after_insert_has_no_result (leaf_max_size internal_max_size key value : Int) :
    (BPlusTree.Insert 1 (BPlusTree.new leaf_max_size internal_max_size) key value).map Prod.snd
      = .ok true ∧
    ∀ fuel : Nat,
      BPlusTree.scan (fuel + 1)
        (BPlusTree.afterInsert 1 (BPlusTree.new leaf_max_size internal_max_size) key value)
        = .error .undefined := by
  refine ⟨rfl, ?_⟩
  intro fuel; rfl

theorem setAt_same {α : Type} (f : Nat → α) (i : Nat) (v : α) : setAt f i v i = v := by
  simp [setAt]

theorem setAt_other {α : Type} (f : Nat → α) (i j : Nat) (v : α) (h : j ≠ i) :
    setAt f i v j = f j := by
  simp [setAt, h]

/-- C6: on a pool of one frame with k = 2, after NewPage and UnpinPage(0, false) the
free list is empty and Evict yields no victim (it runs off its end), yet neither
NewPage nor FetchPage(1) returns null: the frame index is read uninitialised and the
call has no defined result. -/
theorem newPage_without_victim_has_no_result :
    runCalls (BufferPoolManagerInstance.new 1 2 4) [.NewPage 1, .UnpinPage 0 false]
      = .ok (afterCalls (BufferPoolManagerInstance.new 1 2 4) [.NewPage 1, .UnpinPage 0 false]) ∧
    (afterCalls (BufferPoolManagerInstance.new 1 2 4) [.NewPage 1, .UnpinPage 0 false]).free_list_
      = [] ∧
    (afterCalls (BufferPoolManagerInstance.new 1 2 4)
      [.NewPage 1, .UnpinPage 0 false]).replacer_.Evict = .error .undefined ∧
    (afterCalls (BufferPoolManagerInstance.new 1 2 4)
      [.NewPage 1, .UnpinPage 0 false]).page_table_.Find 1 = .ok none ∧
    (∀ fuel, (NewPgImp fuel (afterCalls (BufferPoolManagerInstance.new 1 2 4)
      [.NewPage 1, .UnpinPage 0 false])).map Prod.snd = .error .undefined) ∧
    (∀ fuel, (FetchPgImp fuel (afterCalls (BufferPoolManagerInstance.new 1 2 4)
      [.NewPage 1, .UnpinPage 0 false]) 1).map Prod.snd = .error .undefined) := by
  refine ⟨rfl, rfl, rfl, rfl, ?_, ?_⟩
  · intro fuel; rfl
  · intro fuel; rfl

/-- C8: on a pool of two frames, after NewPage, UnpinPage(0, false), NewPage and
FetchPage(0), page 1 is resident in frame 1 with pin count 1, yet UnpinPage(1, false)
does not return true: SetEvictable(1, true) compares the frame id 1 with Size() = 0
and throws. -/
theorem unpin_raises_for_pinned_resident_page :
    runCalls (BufferPoolManagerInstance.new 2 2 4)
        [.NewPage 1, .UnpinPage 0 false, .NewPage 1, .FetchPage 1 0]
      = .ok (afterCalls (BufferPoolManagerInstance.new 2 2 4)
        [.NewPage 1, .UnpinPage 0 false, .NewPage 1, .FetchPage 1 0]) ∧
    (afterCalls (BufferPoolManagerInstance.new 2 2 4)
      [.NewPage 1, .UnpinPage 0 false, .NewPage 1, .FetchPage 1 0]).page_table_.Find 1
      = .ok (some 1) ∧
    ((afterCalls (BufferPoolManagerInstance.new 2 2 4)
      [.NewPage 1, .UnpinPage 0 false, .NewPage 1, .FetchPage 1 0]).pages_ 1).pin_count_ = 1 ∧
    (afterCalls (BufferPoolManagerInstance.new 2 2 4)
      [.NewPage 1, .UnpinPage 0 false, .NewPage 1, .FetchPage 1 0]).replacer_.Size = 0 ∧
    (UnpinPgImp (afterCalls (BufferPoolManagerInstance.new 2 2 4)
      [.NewPage 1, .UnpinPage 0 false, .NewPage 1, .FetchPage 1 0]) 1 false).map Prod.snd
      = .error .exception :=
  ⟨rfl, rfl, rfl, rfl, rfl⟩

/-- C10: on a pool of three frames, after three rounds of NewPage and UnpinPage and
then FetchPage(0) and FetchPage(1), page 2 is resident in frame 2 with pin count 0,
yet DeletePage(2) does not return true: SetEvictable(2, true) compares the frame id 2
with Size() = 1 and throws. -/
theorem delete_raises_for_unpinned_resident_page :
    runCalls (BufferPoolManagerInstance.new 3 2 4)
        [.NewPage 1, .UnpinPage 0 false, .NewPage 1, .UnpinPage 1 false, .NewPage 1,
         .UnpinPage 2 false, .FetchPage 1 0, .FetchPage 1 1]
      = .ok (afterCalls (BufferPoolManagerInstance.new 3 2 4)
        [.NewPage 1, .UnpinPage 0 false, .NewPage 1, .UnpinPage 1 false, .NewPage 1,
         .UnpinPage 2 false, .FetchPage 1 0, .FetchPage 1 1]) ∧
    (afterCalls (BufferPoolManagerInstance.new 3 2 4)
        [.NewPage 1, .UnpinPage 0 false, .NewPage 1, .UnpinPage 1 false, .NewPage 1,
         .UnpinPage 2 false, .FetchPage 1 0, .FetchPage 1 1]).page_table_.Find 2
      = .ok (some 2) ∧
    ((afterCalls (BufferPoolManagerInstance.new 3 2 4)
        [.NewPage 1, .UnpinPage 0 false, .NewPage 1, .UnpinPage 1 false, .NewPage 1,
         .UnpinPage 2 false, .FetchPage 1 0, .FetchPage 1 1]).pages_ 2).pin_count_ = 0 ∧
    (afterCalls (BufferPoolManagerInstance.new 3 2 4)
        [.NewPage 1, .UnpinPage 0 false, .NewPage 1, .UnpinPage 1 false, .NewPage 1,
         .UnpinPage 2 false, .FetchPage 1 0, .FetchPage 1 1]).replacer_.Size = 1 ∧
    (DeletePgImp (afterCalls (BufferPoolManagerInstance.new 3 2 4)
        [.NewPage 1, .UnpinPage 0 false, .NewPage 1, .UnpinPage 1 false, .NewPage 1,
         .UnpinPage 2 false, .FetchPage 1 0, .FetchPage 1 1]) 2).map Prod.snd
      = .error .exception :=
  ⟨rfl, rfl, rfl, rfl, rfl⟩

/-- C11: on a pool of one frame with k = 1, after NewPage, UnpinPage(0, false) and a
DeletePage(0) that returns true, frame 0 is on the free list and yet still tracked
by the replacer: it is in the cache list, its evictable flag is set, Size() counts it
and a call of Evict returns it.  DeletePgImp calls SetEvictable(frame, true) and then
Remove, whose body is empty. -/
theorem freed_frame_still_tracked_by_replacer :
    runCalls (BufferPoolManagerInstance.new 1 1 4)
        [.NewPage 1, .UnpinPage 0 false]
      = .ok (afterCalls (BufferPoolManagerInstance.new 1 1 4) [.NewPage 1, .UnpinPage 0 false]) ∧
    (DeletePgImp (afterCalls (BufferPoolManagerInstance.new 1 1 4)
      [.NewPage 1, .UnpinPage 0 false]) 0).map Prod.snd = .ok true ∧
    (afterCalls (BufferPoolManagerInstance.new 1 1 4)
      [.NewPage 1, .UnpinPage 0 false, .DeletePage 0]).free_list_ = [0] ∧
    (afterCalls (BufferPoolManagerInstance.new 1 1 4)
      [.NewPage 1, .UnpinPage 0 false, .DeletePage 0]).replacer_.cache_list_ = [0] ∧
    (afterCalls (BufferPoolManagerInstance.new 1 1 4)
      [.NewPage 1, .UnpinPage 0 false, .DeletePage 0]).replacer_.is_evictable 0 = true ∧
    (afterCalls (BufferPoolManagerInstance.new 1 1 4)
      [.NewPage 1, .UnpinPage 0 false, .DeletePage 0]).replacer_.Size = 1 ∧
    (afterCalls (BufferPoolManagerInstance.new 1 1 4)
      [.NewPage 1, .UnpinPage 0 false, .DeletePage 0]).replacer_.Evict.map Prod.snd
      = .ok (some 0) :=
  ⟨rfl, rfl, rfl, rfl, rfl, rfl, rfl⟩

theorem flushFrames_pages (n i : Nat) (s : BufferPoolManagerInstance) (j : Nat) :
    (flushFrames n i s).pages_ j =
      if i ≤ j ∧ j < i + n then { s.pages_ j with is_dirty_ := false } else s.pages_ j := by
  induction n generalizing i s with
  | zero =>
    show s.pages_ j = _
    rw [if_neg (by omega)]
  | succ n ih =>
    unfold flushFrames
    simp only
    rw [ih]
    by_cases hj : j = i
    · subst hj
      have h1 : ¬ (j + 1 ≤ j ∧ j < j + 1 + n) := by omega
      have h2 : j ≤ j ∧ j < j + (n + 1) := by omega
      simp [h1, h2, setAt]
    · by_cases hr : i + 1 ≤ j ∧ j < i + 1 + n
      · have h2 : i ≤ j ∧ j < i + (n + 1) := by omega
        simp [hr, h2, setAt, hj]
      · have h2 : ¬ (i ≤ j ∧ j < i + (n + 1)) := by omega
        simp [hr, h2, setAt, hj]

theorem flushFrames_writes (n i : Nat) (s : BufferPoolManagerInstance) :
    (flushFrames n i s).disk_manager_.writes =
      s.disk_manager_.writes ++
        (List.range' i n).map (fun j => ((s.pages_ j).page_id_, (s.pages_ j).data_)) := by
  induction n generalizing i s with
  | zero => simp [flushFrames]
  | succ n ih =>
    unfold flushFrames
    simp only
    rw [ih]
    simp only [DiskManager.WritePage, List.range'_succ, List.map_cons, List.append_assoc,
      List.singleton_append]
    congr 2
    apply List.map_congr_left
    intro j _
    by_cases hj : j = i
    · subst hj; simp [setAt]
    · simp [setAt, hj]

/-- C12: FlushAllPages calls WritePage once for every frame of the pool, in frame
order, with the page id stored in the frame, whether or not the frame holds a page,
and clears every dirty flag.  On a pool of two frames after one NewPage, frame 1 is
unused (its page id is INVALID_PAGE_ID) and the disk sees WritePage for page 0 and
then WritePage(INVALID_PAGE_ID, zero bytes). -/
theorem flushAll_writes_unused_frames :
    (∀ s : BufferPoolManagerInstance,
      (FlushAllPgsImp s).disk_manager_.writes =
        s.disk_manager_.writes ++
          (List.range s.pool_size_).map (fun j => ((s.pages_ j).page_id_, (s.pages_ j).data_))) ∧
    (∀ (s : BufferPoolManagerInstance) (j : Nat),
      ((FlushAllPgsImp s).pages_ j).is_dirty_ =
        (decide (s.pool_size_ ≤ j) && (s.pages_ j).is_dirty_)) ∧
    ((afterCalls (BufferPoolManagerInstance.new 2 2 4) [.NewPage 1]).pages_ 1).page_id_
      = INVALID_PAGE_ID ∧
    (afterCalls (BufferPoolManagerInstance.new 2 2 4) [.NewPage 1]).page_table_.Find
      INVALID_PAGE_ID = .ok none ∧
    (FlushAllPgsImp (afterCalls (BufferPoolManagerInstance.new 2 2 4)
      [.NewPage 1])).disk_manager_.writes = [(0, 0), (INVALID_PAGE_ID, 0)] := by
  refine ⟨?_, ?_, rfl, rfl, rfl⟩
  · intro s
    unfold FlushAllPgsImp
    rw [flushFrames_writes, List.range_eq_range']
  · intro s j
    unfold FlushAllPgsImp
    rw [flushFrames_pages]
    by_cases hj : j < s.pool_size_
    · have h2 : ¬ (s.pool_size_ ≤ j) := by omega
      rw [if_pos (by omega)]
      simp [h2]
    · have h2 : s.pool_size_ ≤ j := by omega
      rw [if_neg (by omega)]
      simp [h2]

/-- C13: on a pool of one frame with k = 2, NewPage returns page 0 in frame 0 and a
second NewPage returns null, but after UnpinPage(0, false) the next NewPage does not
return a page p1: Evict finds frame 0 in neither list (its single access never put
it into the history list) and runs off its end, so the call has no defined result
and there is no state in which the page table holds p1. -/
theorem pin_barrier_scenario_has_no_result :
    (NewPgImp 1 (BufferPoolManagerInstance.new 1 2 4)).map Prod.snd = .ok (some (0, 0)) ∧
    (NewPgImp 1 (afterCalls (BufferPoolManagerInstance.new 1 2 4) [.NewPage 1])).map Prod.snd
      = .ok none ∧
    (UnpinPgImp (afterCalls (BufferPoolManagerInstance.new 1 2 4) [.NewPage 1, .NewPage 1])
      0 false).map Prod.snd = .ok true ∧
    runCalls (BufferPoolManagerInstance.new 1 2 4) [.NewPage 1, .NewPage 1, .UnpinPage 0 false]
      = .ok (afterCalls (BufferPoolManagerInstance.new 1 2 4)
        [.NewPage 1, .NewPage 1, .UnpinPage 0 false]) ∧
    (afterCalls (BufferPoolManagerInstance.new 1 2 4)
      [.NewPage 1, .NewPage 1, .UnpinPage 0 false]).replacer_.history_list_ = [] ∧
    (afterCalls (BufferPoolManagerInstance.new 1 2 4)
      [.NewPage 1, .NewPage 1, .UnpinPage 0 false]).replacer_.cache_list_ = [] ∧
    (∀ fuel, (NewPgImp fuel (afterCalls (BufferPoolManagerInstance.new 1 2 4)
      [.NewPage 1, .NewPage 1, .UnpinPage 0 false])).map Prod.snd = .error .undefined) := by
  refine ⟨rfl, rfl, rfl, rfl, rfl, rfl, ?_⟩
  intro fuel; rfl

/-- C14: on a replacer of 7 frames with k = 2, after the accesses 0, 0, 1, 1 both
frames have K accesses and the cache list is [1, 0], most recent first; with both
frames set evictable, Evict returns frame 1, the most recently accessed one, and not
frame 0 at the tail: the loop over the cache list starts at its front. -/
theorem evict_takes_most_recent_of_cache :
    runReplacer (LRUKReplacer.new 7 2)
        [.RecordAccess 0, .RecordAccess 0, .RecordAccess 1, .RecordAccess 1,
         .SetEvictable 0 true, .SetEvictable 1 true]
      = .ok (afterReplacerCalls (LRUKReplacer.new 7 2)
        [.RecordAccess 0, .RecordAccess 0, .RecordAccess 1, .RecordAccess 1,
         .SetEvictable 0 true, .SetEvictable 1 true]) ∧
    (afterReplacerCalls (LRUKReplacer.new 7 2)
        [.RecordAccess 0, .RecordAccess 0, .RecordAccess 1, .RecordAccess 1,
         .SetEvictable 0 true, .SetEvictable 1 true]).history_list_ = [] ∧
    (afterReplacerCalls (LRUKReplacer.new 7 2)
        [.RecordAccess 0, .RecordAccess 0, .RecordAccess 1, .RecordAccess 1,
         .SetEvictable 0 true, .SetEvictable 1 true]).cache_list_ = [1, 0] ∧
    (afterReplacerCalls (LRUKReplacer.new 7 2)
        [.RecordAccess 0, .RecordAccess 0, .RecordAccess 1, .RecordAccess 1,
         .SetEvictable 0 true, .SetEvictable 1 true]).is_evictable 0 = true ∧
    (afterReplacerCalls (LRUKReplacer.new 7 2)
        [.RecordAccess 0, .RecordAccess 0, .RecordAccess 1, .RecordAccess 1,
         .SetEvictable 0 true, .SetEvictable 1 true]).is_evictable 1 = true ∧
    (afterReplacerCalls (LRUKReplacer.new 7 2)
        [.RecordAccess 0, .RecordAccess 0, .RecordAccess 1, .RecordAccess 1,
         .SetEvictable 0 true, .SetEvictable 1 true]).Evict.map Prod.snd = .ok (some 1) :=
  ⟨rfl, rfl, rfl, rfl, rfl, rfl⟩

/-- C15: on a replacer of 7 frames with k = 2, after the accesses
1, 2, 3, 4, 1, 2, 3, 4, 5, 6 the history list is empty (frames 5 and 6 were accessed
once and are in no list) and SetEvictable(f, true) throws for each of the six frames,
because f > Size() = 0, so Evict is never reached and does not return frame 5.  With
frame ids that pass that guard (access 0 once and 1 twice, set both evictable) Evict
returns frame 1, which has K accesses, and not frame 0, which has fewer. -/
theorem fewer_than_k_accesses_not_evicted_first :
    runReplacer (LRUKReplacer.new 7 2)
        [.RecordAccess 1, .RecordAccess 2, .RecordAccess 3, .RecordAccess 4, .RecordAccess 1,
         .RecordAccess 2, .RecordAccess 3, .RecordAccess 4, .RecordAccess 5, .RecordAccess 6]
      = .ok (afterReplacerCalls (LRUKReplacer.new 7 2)
        [.RecordAccess 1, .RecordAccess 2, .RecordAccess 3, .RecordAccess 4, .RecordAccess 1,
         .RecordAccess 2, .RecordAccess 3, .RecordAccess 4, .RecordAccess 5, .RecordAccess 6]) ∧
    (afterReplacerCalls (LRUKReplacer.new 7 2)
        [.RecordAccess 1, .RecordAccess 2, .RecordAccess 3, .RecordAccess 4, .RecordAccess 1,
         .RecordAccess 2, .RecordAccess 3, .RecordAccess 4, .RecordAccess 5,
         .RecordAccess 6]).history_list_ = [] ∧
    (afterReplacerCalls (LRUKReplacer.new 7 2)
        [.RecordAccess 1, .RecordAccess 2, .RecordAccess 3, .RecordAccess 4, .RecordAccess 1,
         .RecordAccess 2, .RecordAccess 3, .RecordAccess 4, .RecordAccess 5,
         .RecordAccess 6]).cache_list_ = [4, 3, 2, 1] ∧
    (afterReplacerCalls (LRUKReplacer.new 7 2)
        [.RecordAccess 1, .RecordAccess 2, .RecordAccess 3, .RecordAccess 4, .RecordAccess 1,
         .RecordAccess 2, .RecordAccess 3, .RecordAccess 4, .RecordAccess 5,
         .RecordAccess 6]).Size = 0 ∧
    [1, 2, 3, 4, 5, 6].map (fun f =>
      ((afterReplacerCalls (LRUKReplacer.new 7 2)
        [.RecordAccess 1, .RecordAccess 2, .RecordAccess 3, .RecordAccess 4, .RecordAccess 1,
         .RecordAccess 2, .RecordAccess 3, .RecordAccess 4, .RecordAccess 5,
         .RecordAccess 6]).SetEvictable f true).map (fun r => r.Size))
      = List.replicate 6 (.error .exception) ∧
    runReplacer (LRUKReplacer.new 7 2)
        [.RecordAccess 0, .RecordAccess 1, .RecordAccess 1, .SetEvictable 0 true,
         .SetEvictable 1 true]
      = .ok (afterReplacerCalls (LRUKReplacer.new 7 2)
        [.RecordAccess 0, .RecordAccess 1, .RecordAccess 1, .SetEvictable 0 true,
         .SetEvictable 1 true]) ∧
    (afterReplacerCalls (LRUKReplacer.new 7 2)
        [.RecordAccess 0, .RecordAccess 1, .RecordAccess 1, .SetEvictable 0 true,
         .SetEvictable 1 true]).count_ 0 = some 1 ∧
    (afterReplacerCalls (LRUKReplacer.new 7 2)
        [.RecordAccess 0, .RecordAccess 1, .RecordAccess 1, .SetEvictable 0 true,
         .SetEvictable 1 true]).is_evictable 0 = true ∧
    (afterReplacerCalls (LRUKReplacer.new 7 2)
        [.RecordAccess 0, .RecordAccess 1, .RecordAccess 1, .SetEvictable 0 true,
         .SetEvictable 1 true]).Evict.map Prod.snd = .ok (some 1) := by
  exact ⟨rfl, rfl, rfl, rfl, rfl, rfl, rfl, rfl, rfl⟩

/-! ## Replacer: the history list, Evict, SetEvictable, Remove -/

theorem RecordAccess_history_empty (r r1 : LRUKReplacer) (f : Nat)
    (h : r.RecordAccess f = .ok r1) (he : r.history_list_ = []) : r1.history_list_ = [] := by
  unfold LRUKReplacer.RecordAccess at h
  split at h
  · simp at h
  · simp only at h
    split at h
    · simp at h; rw [← h]; simp [he]
    · split at h
      · simp at h; rw [← h]; simp [he]
      · split at h
        · rename_i hn
          simp [setAt] at hn
        · simp at h; rw [← h]; simp [he]

theorem SetEvictable_history (r r1 : LRUKReplacer) (f : Nat) (b : Bool)
    (h : r.SetEvictable f b = .ok r1) : r1.history_list_ = r.history_list_ := by
  unfold LRUKReplacer.SetEvictable at h
  split at h
  · simp at h
  · split at h
    · split at h <;> (simp at h; rw [← h])
    · split at h <;> (simp at h; rw [← h])

theorem Evict_history_empty (r r1 : LRUKReplacer) (v : Option Nat)
    (h : r.Evict = .ok (r1, v)) (he : r.history_list_ = []) : r1.history_list_ = [] := by
  unfold LRUKReplacer.Evict at h
  rw [he] at h
  simp only [LRUKReplacer.firstEvictable] at h
  split at h
  · simp at h; rw [← h.1]; exact he
  · split at h
    · simp at h; rw [← h.1]
    · simp at h

theorem ReplacerCall_history_empty (c : ReplacerCall) (r r1 : LRUKReplacer)
    (h : c.apply r = .ok r1) (he : r.history_list_ = []) : r1.history_list_ = [] := by
  cases c with
  | RecordAccess f => exact RecordAccess_history_empty r r1 f h he
  | SetEvictable f b =>
    rw [SetEvictable_history r r1 f b h]; exact he
  | Evict =>
    simp only [ReplacerCall.apply] at h
    cases hq : r.Evict with
    | error e => simp [hq, Except.map] at h
    | ok p =>
      obtain ⟨ra, v⟩ := p
      simp [hq, Except.map] at h
      subst h
      exact Evict_history_empty r ra v hq he
  | Remove f =>
    simp only [ReplacerCall.apply, LRUKReplacer.Remove, Except.ok.injEq] at h
    subst h; exact he

theorem history_list_stays_empty (num_frames k : Nat) (calls : List ReplacerCall)
    (r : LRUKReplacer) (h : runReplacer (LRUKReplacer.new num_frames k) calls = .ok r) :
    r.history_list_ = [] := by
  have key : ∀ (calls : List ReplacerCall) (r0 r : LRUKReplacer),
      r0.history_list_ = [] → runReplacer r0 calls = .ok r → r.history_list_ = [] := by
    intro calls
    induction calls with
    | nil =>
      intro r0 r he h
      simp only [runReplacer, Except.ok.injEq] at h
      subst h; exact he
    | cons c rest ih =>
      intro r0 r he h
      simp only [runReplacer] at h
      cases hq : c.apply r0 with
      | error e => simp [hq] at h
      | ok r2 =>
        simp only [hq] at h
        exact ih r2 r (ReplacerCall_history_empty c r0 r2 hq he) h
  exact key calls _ r rfl h

/-- C16: on a replacer of 7 frames with k = 2, the first RecordAccess(0) returns and
sets the access count of frame 0 to 1, which is below K, but frame 0 is not put into
the history list (nor into the cache list): the test `count_.count(frame_id) == 0`
runs after `count_[frame_id]++` has created the entry.  The second access, the K-th,
puts the frame at the front of the cache list. -/
theorem first_access_not_put_into_history :
    runReplacer (LRUKReplacer.new 7 2) [.RecordAccess 0]
      = .ok (afterReplacerCalls (LRUKReplacer.new 7 2) [.RecordAccess 0]) ∧
    (LRUKReplacer.new 7 2).count_ 0 = none ∧
    (LRUKReplacer.new 7 2).history_list_ = [] ∧
    (afterReplacerCalls (LRUKReplacer.new 7 2) [.RecordAccess 0]).count_ 0 = some 1 ∧
    (afterReplacerCalls (LRUKReplacer.new 7 2) [.RecordAccess 0]).history_list_ = [] ∧
    (afterReplacerCalls (LRUKReplacer.new 7 2) [.RecordAccess 0]).cache_list_ = [] ∧
    (afterReplacerCalls (LRUKReplacer.new 7 2) [.RecordAccess 0, .RecordAccess 0]).count_ 0
      = some 2 ∧
    (afterReplacerCalls (LRUKReplacer.new 7 2) [.RecordAccess 0, .RecordAccess 0]).cache_list_
      = [0] :=
  ⟨rfl, rfl, rfl, rfl, rfl, rfl, rfl, rfl⟩

/-- C17: on a replacer of 7 frames with k = 2, after RecordAccess(0) and
SetEvictable(0, true) the replacer reports Size() = 1 and frame 0 is flagged
evictable, yet Evict neither returns true with a frame nor returns false: frame 0 is
in neither list, both loops end without a victim and control runs off the end of
the function. -/
theorem evict_runs_off_its_end :
    runReplacer (LRUKReplacer.new 7 2) [.RecordAccess 0, .SetEvictable 0 true]
      = .ok (afterReplacerCalls (LRUKReplacer.new 7 2) [.RecordAccess 0, .SetEvictable 0 true]) ∧
    (afterReplacerCalls (LRUKReplacer.new 7 2) [.RecordAccess 0, .SetEvictable 0 true]).Size
      = 1 ∧
    (afterReplacerCalls (LRUKReplacer.new 7 2)
      [.RecordAccess 0, .SetEvictable 0 true]).is_evictable 0 = true ∧
    (afterReplacerCalls (LRUKReplacer.new 7 2) [.RecordAccess 0, .SetEvictable 0 true]).Evict
      = .error .undefined :=
  ⟨rfl, rfl, rfl, rfl⟩

/-- C18: on a replacer of 7 frames with k = 2, after RecordAccess(0) and
SetEvictable(0, true) the replacer reports Size() = 1 although no frame is both
flagged evictable and a member of the history list or the cache list: both lists
are empty. -/
theorem size_counts_frames_in_no_list :
    runReplacer (LRUKReplacer.new 7 2) [.RecordAccess 0, .SetEvictable 0 true]
      = .ok (afterReplacerCalls (LRUKReplacer.new 7 2) [.RecordAccess 0, .SetEvictable 0 true]) ∧
    (afterReplacerCalls (LRUKReplacer.new 7 2) [.RecordAccess 0, .SetEvictable 0 true]).Size
      = 1 ∧
    (afterReplacerCalls (LRUKReplacer.new 7 2)
      [.RecordAccess 0, .SetEvictable 0 true]).history_list_ = [] ∧
    (afterReplacerCalls (LRUKReplacer.new 7 2)
      [.RecordAccess 0, .SetEvictable 0 true]).cache_list_ = [] ∧
    (((afterReplacerCalls (LRUKReplacer.new 7 2)
        [.RecordAccess 0, .SetEvictable 0 true]).history_list_ ++
      (afterReplacerCalls (LRUKReplacer.new 7 2)
        [.RecordAccess 0, .SetEvictable 0 true]).cache_list_).filter
      (afterReplacerCalls (LRUKReplacer.new 7 2)
        [.RecordAccess 0, .SetEvictable 0 true]).is_evictable).length = 0 :=
  ⟨rfl, rfl, rfl, rfl, rfl⟩

/-- C19: on a replacer of 2 frames, after SetEvictable(0, true), SetEvictable(1, true)
and SetEvictable(0, false), frame 1 is a valid frame flagged evictable and Size() is
1; SetEvictable(1, false) returns with the flag cleared and Size() = 0, but the same
call made again does not leave that state: it throws, because 1 > Size() = 0.  On
the fresh replacer SetEvictable(1, true) throws as well instead of raising Size()
to 1. -/
theorem setEvictable_twice_throws :
    runReplacer (LRUKReplacer.new 2 2)
        [.SetEvictable 0 true, .SetEvictable 1 true, .SetEvictable 0 false]
      = .ok (afterReplacerCalls (LRUKReplacer.new 2 2)
        [.SetEvictable 0 true, .SetEvictable 1 true, .SetEvictable 0 false]) ∧
    (afterReplacerCalls (LRUKReplacer.new 2 2)
      [.SetEvictable 0 true, .SetEvictable 1 true, .SetEvictable 0 false]).is_evictable 1
      = true ∧
    (afterReplacerCalls (LRUKReplacer.new 2 2)
      [.SetEvictable 0 true, .SetEvictable 1 true, .SetEvictable 0 false]).Size = 1 ∧
    ((afterReplacerCalls (LRUKReplacer.new 2 2)
      [.SetEvictable 0 true, .SetEvictable 1 true, .SetEvictable 0 false]).SetEvictable 1
        false).map (fun r => (r.is_evictable 1, r.Size)) = .ok (false, 0) ∧
    ((afterReplacerCalls (LRUKReplacer.new 2 2)
      [.SetEvictable 0 true, .SetEvictable 1 true, .SetEvictable 0 false,
       .SetEvictable 1 false]).SetEvictable 1 false).map (fun r => (r.is_evictable 1, r.Size))
      = .error .exception ∧
    ((LRUKReplacer.new 2 2).SetEvictable 1 true).map (fun r => (r.is_evictable 1, r.Size))
      = .error .exception :=
  ⟨rfl, rfl, rfl, rfl, rfl, rfl⟩

/-- C20: Remove changes nothing, for every replacer state and frame.  On a replacer
of 7 frames with k = 1, after RecordAccess(0) and SetEvictable(0, true) frame 0 is
tracked and evictable; after Remove(0) it is still in the cache list with its access
count, Size() is still 1 and Evict returns frame 0.  On the tracked, non-evictable
frame 0 (after RecordAccess(0) alone) Remove(0) returns as well. -/
theorem remove_does_nothing :
    (∀ (r : LRUKReplacer) (f : Nat), r.Remove f = r) ∧
    runReplacer (LRUKReplacer.new 7 1) [.RecordAccess 0, .SetEvictable 0 true, .Remove 0]
      = .ok (afterReplacerCalls (LRUKReplacer.new 7 1)
        [.RecordAccess 0, .SetEvictable 0 true, .Remove 0]) ∧
    (afterReplacerCalls (LRUKReplacer.new 7 1)
      [.RecordAccess 0, .SetEvictable 0 true]).cache_list_ = [0] ∧
    (afterReplacerCalls (LRUKReplacer.new 7 1)
      [.RecordAccess 0, .SetEvictable 0 true]).is_evictable 0 = true ∧
    (afterReplacerCalls (LRUKReplacer.new 7 1)
      [.RecordAccess 0, .SetEvictable 0 true, .Remove 0]).cache_list_ = [0] ∧
    (afterReplacerCalls (LRUKReplacer.new 7 1)
      [.RecordAccess 0, .SetEvictable 0 true, .Remove 0]).count_ 0 = some 1 ∧
    (afterReplacerCalls (LRUKReplacer.new 7 1)
      [.RecordAccess 0, .SetEvictable 0 true, .Remove 0]).Size = 1 ∧
    (afterReplacerCalls (LRUKReplacer.new 7 1)
      [.RecordAccess 0, .SetEvictable 0 true, .Remove 0]).Evict.map Prod.snd = .ok (some 0) ∧
    (afterReplacerCalls (LRUKReplacer.new 7 1) [.RecordAccess 0]).is_evictable 0 = false ∧
    (ReplacerCall.Remove 0).apply (afterReplacerCalls (LRUKReplacer.new 7 1) [.RecordAccess 0])
      = .ok (afterReplacerCalls (LRUKReplacer.new 7 1) [.RecordAccess 0]) :=
  ⟨fun _ _ => rfl, rfl, rfl, rfl, rfl, rfl, rfl, rfl, rfl, rfl⟩

end Bustub

namespace Bustub

/-! ## Replacer: the bound on the frame id -/

namespace ExtendibleHashTable

variable {V : Type}

theorem bucketAt_eq_some (t : ExtendibleHashTable V) (i h : Nat) (b : Bucket V) :
    bucketAt t i = some (h, b) ↔ t.dir_[i]? = some h ∧ t.store_[h]? = some b := by
  unfold bucketAt
  cases hd : t.dir_[i]? with
  | none => simp
  | some h1 =>
    simp only [Option.some.injEq]
    cases hs : t.store_[h1]? with
    | none =>
      simp only [false_iff, not_and, reduceCtorEq]
      intro he; subst he; simp [hs]
    | some b1 =>
      simp only [Option.some.injEq, Prod.mk.injEq]
      constructor
      · rintro ⟨rfl, rfl⟩; exact ⟨rfl, hs⟩
      · rintro ⟨rfl, h2⟩; rw [hs] at h2; exact ⟨rfl, Option.some.inj h2⟩

theorem pow_mod_succ_iff (a b d : Nat) :
    a % 2 ^ (d + 1) = b % 2 ^ (d + 1) ↔
      (a % 2 ^ d = b % 2 ^ d ∧ (a / 2 ^ d) % 2 = (b / 2 ^ d) % 2) := by
  rw [Nat.mod_pow_succ, Nat.mod_pow_succ]
  have ha : a % 2 ^ d < 2 ^ d := Nat.mod_lt _ (by positivity)
  have hb : b % 2 ^ d < 2 ^ d := Nat.mod_lt _ (by positivity)
  have ca : (a / 2 ^ d) % 2 < 2 := Nat.mod_lt _ (by decide)
  have cb : (b / 2 ^ d) % 2 < 2 := Nat.mod_lt _ (by decide)
  generalize a % 2 ^ d = x at *
  generalize b % 2 ^ d = y at *
  generalize (a / 2 ^ d) % 2 = u at *
  generalize (b / 2 ^ d) % 2 = w at *
  generalize 2 ^ d = P at *
  constructor
  · intro h
    interval_cases u <;> interval_cases w <;> simp at h ⊢ <;> omega
  · rintro ⟨rfl, rfl⟩; rfl

theorem mod_pow_mod_pow (a d g : Nat) (h : d ≤ g) : a % 2 ^ g % 2 ^ d = a % 2 ^ d :=
  Nat.mod_mod_of_dvd a (pow_dvd_pow 2 h)

theorem bit_mod_pow (a d g : Nat) (h : d < g) : (a % 2 ^ g / 2 ^ d) % 2 = (a / 2 ^ d) % 2 := by
  have h1 : a % 2 ^ g % 2 ^ (d + 1) = a % 2 ^ (d + 1) := mod_pow_mod_pow a (d + 1) g h
  exact ((pow_mod_succ_iff _ _ d).1 h1).2


theorem WellFormed_new (bucket_size : Nat) :
    WellFormed (new bucket_size : ExtendibleHashTable V) := by
  have key : ∀ i h (b : Bucket V), bucketAt (new bucket_size : ExtendibleHashTable V) i = some (h, b) →
      i = 0 ∧ h = 0 ∧ b = { size_ := bucket_size, depth_ := 0, list_ := [] } := by
    intro i h b hb
    rw [bucketAt_eq_some] at hb
    obtain ⟨h1, h2⟩ := hb
    simp only [new] at h1 h2
    cases i with
    | zero =>
      simp at h1
      subst h1
      simp at h2
      exact ⟨rfl, rfl, h2.symm⟩
    | succ n => simp at h1
  constructor
  · rfl
  · simp [new]
  · intro i hi
    simp only [new, List.length_singleton] at hi
    have : i = 0 := by omega
    subst this
    exact ⟨0, _, rfl⟩
  · intro i h b hb
    obtain ⟨_, _, rfl⟩ := key i h b hb
    simp [new]
  · intro i h b hb j hj
    obtain ⟨rfl, rfl, rfl⟩ := key i h b hb
    simp only [new, List.length_singleton] at hj
    have : j = 0 := by omega
    subst this
    simp [new]
  · intro i h b hb p hp
    obtain ⟨_, _, rfl⟩ := key i h b hb
    simp at hp
  · intro i h b hb
    obtain ⟨_, _, rfl⟩ := key i h b hb
    simp
  · intro i h b hb
    obtain ⟨_, _, rfl⟩ := key i h b hb
    rfl
  · intro i h b hb
    obtain ⟨_, _, rfl⟩ := key i h b hb
    simp

theorem redistribute_eq (d s dep : Nat) (l a0 a1 : List (Int × V))
    (hl : (l.map Prod.fst).Nodup)
    (hd0 : ∀ p ∈ a0, ∀ q ∈ l, p.1 ≠ q.1) (hd1 : ∀ p ∈ a1, ∀ q ∈ l, p.1 ≠ q.1)
    (h0 : a0.length + l.length ≤ s) (h1 : a1.length + l.length ≤ s) :
    redistribute d l { size_ := s, depth_ := dep, list_ := a0 }
        { size_ := s, depth_ := dep, list_ := a1 } =
      ({ size_ := s, depth_ := dep,
         list_ := a0 ++ l.filter (fun p => decide ((hashKey p.1 / 2 ^ d) % 2 ≠ 1)) },
       { size_ := s, depth_ := dep,
         list_ := a1 ++ l.filter (fun p => decide ((hashKey p.1 / 2 ^ d) % 2 = 1)) }) := by
  induction l generalizing a0 a1 with
  | nil => simp [redistribute]
  | cons it rest ih =>
    simp only [List.map_cons, List.nodup_cons, List.mem_map, not_exists, not_and] at hl
    obtain ⟨hnot, hrest⟩ := hl
    simp only [List.length_cons] at h0 h1
    unfold redistribute
    by_cases hbit : (hashKey it.1 / 2 ^ d) % 2 = 1
    · have hins : (Bucket.Insert { size_ := s, depth_ := dep, list_ := a1 } it.1 it.2).1 =
          { size_ := s, depth_ := dep, list_ := a1 ++ [it] } := by
        have hnf : ¬ (a1.length = s) := by omega
        have hany : (a1.any fun p => p.1 == it.1) = false := by
          rw [List.any_eq_false]
          intro x hx
          simpa using hd1 x hx it (List.mem_cons_self _ _)
        simp [Bucket.Insert, Bucket.IsFull, hnf, hany]
      rw [if_pos hbit, hins, ih a0 (a1 ++ [it]) hrest]
      · simp [hbit]
      · intro p hp q hq
        exact hd0 p hp q (List.mem_cons_of_mem _ hq)
      · intro p hp q hq
        rcases List.mem_append.1 hp with hp | hp
        · exact hd1 p hp q (List.mem_cons_of_mem _ hq)
        · simp only [List.mem_singleton] at hp
          subst hp
          intro he
          exact hnot q hq he.symm
      · omega
      · simp only [List.length_append, List.length_singleton]; omega
    · have hins : (Bucket.Insert { size_ := s, depth_ := dep, list_ := a0 } it.1 it.2).1 =
          { size_ := s, depth_ := dep, list_ := a0 ++ [it] } := by
        have hnf : ¬ (a0.length = s) := by omega
        have hany : (a0.any fun p => p.1 == it.1) = false := by
          rw [List.any_eq_false]
          intro x hx
          simpa using hd0 x hx it (List.mem_cons_self _ _)
        simp [Bucket.Insert, Bucket.IsFull, hnf, hany]
      rw [if_neg hbit, hins, ih (a0 ++ [it]) a1 hrest]
      · have hb0 : hashKey it.1 / 2 ^ d % 2 = 0 := by omega
        simp [hbit, hb0, List.filter_cons]
      · intro p hp q hq
        rcases List.mem_append.1 hp with hp | hp
        · exact hd0 p hp q (List.mem_cons_of_mem _ hq)
        · simp only [List.mem_singleton] at hp
          subst hp
          intro he
          exact hnot q hq he.symm
      · intro p hp q hq
        exact hd1 p hp q (List.mem_cons_of_mem _ hq)
      · simp only [List.length_append, List.length_singleton]; omega
      · omega

theorem find_filter_of_imp {α : Type} (p q : α → Bool) (l : List α)
    (h : ∀ x, p x = true → q x = true) : (l.filter q).find? p = l.find? p := by
  induction l with
  | nil => rfl
  | cons a rest ih =>
    by_cases hq : q a = true
    · rw [List.filter_cons_of_pos hq]
      simp only [List.find?_cons]
      rw [ih]
    · have hp : ¬ p a = true := fun hp => hq (h a hp)
      rw [List.filter_cons_of_neg hq, ih]
      simp [List.find?_cons, hp]


theorem getElem_lt_of_some {α : Type} (l : List α) (i : Nat) (a : α) (h : l[i]? = some a) :
    i < l.length := by
  obtain ⟨hi, _⟩ := List.getElem?_eq_some.1 h
  exact hi

theorem append_self_getElem {α : Type} (l : List α) (j : Nat) (hj : j < 2 * l.length) :
    (l ++ l)[j]? = l[j % l.length]? := by
  by_cases h : j < l.length
  · rw [List.getElem?_append_left h, Nat.mod_eq_of_lt h]
  · have h1 : l.length ≤ j := by omega
    rw [List.getElem?_append_right h1]
    have h2 : j % l.length = j - l.length := by
      rw [Nat.mod_eq_sub_mod h1, Nat.mod_eq_of_lt (by omega)]
    rw [h2]

theorem splitBucket_fields (t t2 : ExtendibleHashTable V) (h : Nat) (target : Bucket V)
    (hres : splitBucket t h target = .ok t2) :
    target.depth_ < 31 ∧
    (target.depth_ = t.global_depth_ → t.dir_.length * 2 < 2147483648) ∧
    t2.global_depth_ =
      (if target.depth_ = t.global_depth_ then t.global_depth_ + 1 else t.global_depth_) ∧
    t2.bucket_size_ = t.bucket_size_ ∧
    t2.num_buckets_ = t.num_buckets_ + 1 ∧
    t2.store_ = t.store_ ++
      [(redistribute target.depth_ target.list_
          { size_ := t.bucket_size_, depth_ := target.depth_ + 1, list_ := [] }
          { size_ := t.bucket_size_, depth_ := target.depth_ + 1, list_ := [] }).1,
       (redistribute target.depth_ target.list_
          { size_ := t.bucket_size_, depth_ := target.depth_ + 1, list_ := [] }
          { size_ := t.bucket_size_, depth_ := target.depth_ + 1, list_ := [] }).2] ∧
    t2.dir_.length =
      (if target.depth_ = t.global_depth_ then t.dir_ ++ t.dir_ else t.dir_).length ∧
    (∀ j, t2.dir_[j]? =
      ((if target.depth_ = t.global_depth_ then t.dir_ ++ t.dir_ else t.dir_)[j]?).map
        (fun dd => if dd = h then
            (if (j / 2 ^ target.depth_) % 2 = 1 then t.store_.length + 1 else t.store_.length)
          else dd)) := by
  unfold splitBucket at hres
  simp only at hres
  split at hres
  · simp at hres
  · rename_i hguard
    split at hres
    · simp at hres
    · rename_i hdep
      simp only [Except.ok.injEq] at hres
      subst hres
      refine ⟨by omega, ?_, ?_, ?_, ?_, ?_, ?_, ?_⟩
      · intro hd
        simp only [hd, true_and, not_le] at hguard
        exact hguard
      · by_cases hd : target.depth_ = t.global_depth_ <;> simp [hd]
      · by_cases hd : target.depth_ = t.global_depth_ <;> simp [hd]
      · by_cases hd : target.depth_ = t.global_depth_ <;> simp [hd]
      · by_cases hd : target.depth_ = t.global_depth_ <;> simp [hd]
      · by_cases hd : target.depth_ = t.global_depth_ <;> simp [hd]
      · intro j
        by_cases hd : target.depth_ = t.global_depth_
        · simp only [hd, if_true]
          rw [List.getElem?_map]
          by_cases hj : j < (t.dir_ ++ t.dir_).length
          · rw [List.getElem?_range hj]
            obtain ⟨dd, hdd⟩ : ∃ dd, (t.dir_ ++ t.dir_)[j]? = some dd :=
              ⟨_, List.getElem?_eq_getElem hj⟩
            simp only [Option.map_some', hdd]
          · have h1 : (List.range (t.dir_ ++ t.dir_).length)[j]? = none :=
              List.getElem?_eq_none (by simpa using hj)
            have h2 : (t.dir_ ++ t.dir_)[j]? = none := List.getElem?_eq_none (by omega)
            rw [h1, h2]; rfl
        · simp only [hd, if_false]
          rw [List.getElem?_map]
          by_cases hj : j < t.dir_.length
          · rw [List.getElem?_range hj]
            obtain ⟨dd, hdd⟩ : ∃ dd, t.dir_[j]? = some dd := ⟨_, List.getElem?_eq_getElem hj⟩
            simp only [Option.map_some', hdd]
          · have h1 : (List.range t.dir_.length)[j]? = none :=
              List.getElem?_eq_none (by simpa using hj)
            have h2 : t.dir_[j]? = none := List.getElem?_eq_none (by omega)
            rw [h1, h2]; rfl


theorem double_bucketAt (t : ExtendibleHashTable V) (hwf : WellFormed t) (j : Nat)
    (hj : j < 2 * t.dir_.length) :
    bucketAt { t with global_depth_ := t.global_depth_ + 1, dir_ := t.dir_ ++ t.dir_ } j =
      bucketAt t (j % 2 ^ t.global_depth_) := by
  unfold bucketAt
  simp only
  rw [append_self_getElem _ _ hj, hwf.dir_length]

theorem double_WF (t : ExtendibleHashTable V) (hwf : WellFormed t) (hg : t.global_depth_ < 30) :
    WellFormed { t with global_depth_ := t.global_depth_ + 1, dir_ := t.dir_ ++ t.dir_ } := by
  have hlen : t.dir_.length = 2 ^ t.global_depth_ := hwf.dir_length
  have hpos : 0 < 2 ^ t.global_depth_ := by positivity
  have hlt : ∀ j, j % 2 ^ t.global_depth_ < t.dir_.length := by
    intro j; rw [hlen]; exact Nat.mod_lt _ hpos
  have hin : ∀ j h b,
      bucketAt { t with global_depth_ := t.global_depth_ + 1, dir_ := t.dir_ ++ t.dir_ } j =
        some (h, b) →
      j < 2 * t.dir_.length ∧ bucketAt t (j % 2 ^ t.global_depth_) = some (h, b) := by
    intro j h b hb
    have hj : j < 2 * t.dir_.length := by
      have h1 := ((bucketAt_eq_some _ _ _ _).1 hb).1
      have h2 := getElem_lt_of_some _ _ _ h1
      simp only [List.length_append] at h2
      omega
    rw [double_bucketAt t hwf j hj] at hb
    exact ⟨hj, hb⟩
  constructor
  · simp only [List.length_append, hlen, pow_succ]; omega
  · simp only; omega
  · intro j hj
    simp only [List.length_append] at hj
    rw [double_bucketAt t hwf j (by omega)]
    exact hwf.slot_bucket _ (hlt j)
  · intro j h b hb
    have := hwf.local_le _ _ _ (hin j h b hb).2
    simp only; omega
  · intro i h b hb j hj
    simp only [List.length_append] at hj
    obtain ⟨hi, hb1⟩ := hin i h b hb
    have hd := hwf.local_le _ _ _ hb1
    have key := hwf.same_bucket _ _ _ hb1 (j % 2 ^ t.global_depth_) (hlt j)
    rw [mod_pow_mod_pow _ _ _ hd, mod_pow_mod_pow _ _ _ hd] at key
    rw [← key]
    simp only
    rw [append_self_getElem _ _ (by omega), hlen]
  · intro i h b hb p hp
    obtain ⟨hi, hb1⟩ := hin i h b hb
    have hd := hwf.local_le _ _ _ hb1
    have key := hwf.key_slot _ _ _ hb1 p hp
    rw [mod_pow_mod_pow _ _ _ hd] at key
    exact key
  · intro i h b hb
    exact hwf.keys_nodup _ _ _ (hin i h b hb).2
  · intro i h b hb
    exact hwf.capacity _ _ _ (hin i h b hb).2
  · intro i h b hb
    exact hwf.fill _ _ _ (hin i h b hb).2

theorem Find_eq_of_bucket (t : ExtendibleHashTable V) (key : Int) (hg : t.global_depth_ ≤ 30)
    (h : Nat) (b : Bucket V)
    (hb : bucketAt t (hashKey key % 2 ^ t.global_depth_) = some (h, b)) :
    Find t key = .ok (b.Find key) := by
  unfold Find IndexOf
  rw [if_neg (by omega)]
  simp only [hb]

theorem double_Find (t : ExtendibleHashTable V) (hwf : WellFormed t) (hg : t.global_depth_ < 30)
    (key : Int) :
    Find { t with global_depth_ := t.global_depth_ + 1, dir_ := t.dir_ ++ t.dir_ } key =
      Find t key := by
  have hpos : 0 < 2 ^ t.global_depth_ := by positivity
  have hlt : hashKey key % 2 ^ t.global_depth_ < t.dir_.length := by
    rw [hwf.dir_length]; exact Nat.mod_lt _ hpos
  obtain ⟨h, b, hb⟩ := hwf.slot_bucket _ hlt
  rw [Find_eq_of_bucket t key (by omega) h b hb]
  apply Find_eq_of_bucket _ key (by simp only; omega) h b
  simp only
  have h2 : hashKey key % 2 ^ (t.global_depth_ + 1) < 2 * t.dir_.length := by
    rw [hwf.dir_length]
    have := Nat.mod_lt (hashKey key) (show 0 < 2 ^ (t.global_depth_ + 1) by positivity)
    rw [pow_succ] at this
    omega
  rw [double_bucketAt t hwf _ h2, mod_pow_mod_pow _ _ _ (Nat.le_succ _)]
  exact hb


theorem split_bucketAt (t1 t2 : ExtendibleHashTable V) (h : Nat) (target b0 b1 : Bucket V)
    (hstore : t2.store_ = t1.store_ ++ [b0, b1])
    (hdir : ∀ j, t2.dir_[j]? = (t1.dir_[j]?).map (fun dd => if dd = h then
        (if (j / 2 ^ target.depth_) % 2 = 1 then t1.store_.length + 1 else t1.store_.length)
      else dd))
    (j hj : Nat) (bj : Bucket V) (hb : bucketAt t1 j = some (hj, bj)) :
    bucketAt t2 j =
      some (if hj = h then
          (if (j / 2 ^ target.depth_) % 2 = 1 then (t1.store_.length + 1, b1)
           else (t1.store_.length, b0))
        else (hj, bj)) := by
  rw [bucketAt_eq_some] at hb
  obtain ⟨hd, hs⟩ := hb
  have hlt : hj < t1.store_.length := getElem_lt_of_some _ _ _ hs
  by_cases hh : hj = h
  · rw [if_pos hh]
    by_cases hbit : (j / 2 ^ target.depth_) % 2 = 1
    · rw [if_pos hbit, bucketAt_eq_some, hdir, hd, hstore]
      refine ⟨by simp [hh, hbit], ?_⟩
      rw [List.getElem?_append_right (by omega)]
      simp
    · rw [if_neg hbit, bucketAt_eq_some, hdir, hd, hstore]
      refine ⟨by simp [hh, hbit], ?_⟩
      rw [List.getElem?_append_right (by omega)]
      simp
  · rw [if_neg hh, bucketAt_eq_some, hdir, hd, hstore]
    refine ⟨by simp [hh], ?_⟩
    rw [List.getElem?_append_left hlt]
    exact hs

theorem split_spec (t1 t2 : ExtendibleHashTable V) (i h : Nat) (target : Bucket V)
    (hwf : WellFormed t1) (hb : bucketAt t1 i = some (h, target))
    (hlt : target.depth_ < t1.global_depth_)
    (hg : t2.global_depth_ = t1.global_depth_) (hbs : t2.bucket_size_ = t1.bucket_size_)
    (hstore : t2.store_ = t1.store_ ++
      [{ size_ := t1.bucket_size_, depth_ := target.depth_ + 1,
         list_ := target.list_.filter
           (fun p => decide ((hashKey p.1 / 2 ^ target.depth_) % 2 ≠ 1)) },
       { size_ := t1.bucket_size_, depth_ := target.depth_ + 1,
         list_ := target.list_.filter
           (fun p => decide ((hashKey p.1 / 2 ^ target.depth_) % 2 = 1)) }])
    (hlen : t2.dir_.length = t1.dir_.length)
    (hdir : ∀ j, t2.dir_[j]? = (t1.dir_[j]?).map (fun dd => if dd = h then
        (if (j / 2 ^ target.depth_) % 2 = 1 then t1.store_.length + 1 else t1.store_.length)
      else dd)) :
    WellFormed t2 ∧ ∀ key, Find t2 key = Find t1 key := by
  have hfwd := split_bucketAt t1 t2 h target _ _ hstore hdir
  have htarget : ∀ j bj, bucketAt t1 j = some (h, bj) → bj = target := by
    intro j bj hbj
    have h1 := ((bucketAt_eq_some _ _ _ _).1 hbj).2
    have h2 := ((bucketAt_eq_some _ _ _ _).1 hb).2
    rw [h1] at h2
    exact Option.some.inj h2
  have hbwd : ∀ j hj bj, bucketAt t2 j = some (hj, bj) →
      j < t1.dir_.length ∧
      ((bucketAt t1 j = some (hj, bj) ∧ hj ≠ h ∧ hj < t1.store_.length) ∨
       (bucketAt t1 j = some (h, target) ∧
         ((j / 2 ^ target.depth_) % 2 = 1 ∧ hj = t1.store_.length + 1 ∧
            bj = { size_ := t1.bucket_size_, depth_ := target.depth_ + 1,
                   list_ := target.list_.filter
                     (fun p => decide ((hashKey p.1 / 2 ^ target.depth_) % 2 = 1)) } ∨
          (j / 2 ^ target.depth_) % 2 ≠ 1 ∧ hj = t1.store_.length ∧
            bj = { size_ := t1.bucket_size_, depth_ := target.depth_ + 1,
                   list_ := target.list_.filter
                     (fun p => decide ((hashKey p.1 / 2 ^ target.depth_) % 2 ≠ 1)) }))) := by
    intro j hj bj hbj
    have hjl : j < t1.dir_.length := by
      have := getElem_lt_of_some _ _ _ ((bucketAt_eq_some _ _ _ _).1 hbj).1
      omega
    refine ⟨hjl, ?_⟩
    obtain ⟨h1, b1, hb1⟩ := hwf.slot_bucket j hjl
    have h1lt : h1 < t1.store_.length :=
      getElem_lt_of_some _ _ _ ((bucketAt_eq_some _ _ _ _).1 hb1).2
    have := hfwd j h1 b1 hb1
    rw [hbj] at this
    by_cases hh : h1 = h
    · right
      subst hh
      have hbt := htarget j b1 hb1
      subst hbt
      refine ⟨hb1, ?_⟩
      by_cases hbit : (j / 2 ^ b1.depth_) % 2 = 1
      · left
        simp only [if_true, hbit, Option.some.injEq, Prod.mk.injEq] at this
        exact ⟨hbit, this.1, this.2⟩
      · right
        simp only [if_true, hbit, if_false, Option.some.injEq, Prod.mk.injEq] at this
        exact ⟨hbit, this.1, this.2⟩
    · left
      simp only [hh, if_false, Option.some.injEq, Prod.mk.injEq] at this
      obtain ⟨rfl, rfl⟩ := this
      exact ⟨hb1, hh, h1lt⟩
  have hdirj : ∀ j, j < t1.dir_.length → ∃ dd bd, bucketAt t1 j = some (dd, bd) ∧
      dd < t1.store_.length ∧ t1.dir_[j]? = some dd := by
    intro j hj
    obtain ⟨dd, bd, hbd⟩ := hwf.slot_bucket j hj
    have h1 := (bucketAt_eq_some _ _ _ _).1 hbd
    exact ⟨dd, bd, hbd, getElem_lt_of_some _ _ _ h1.2, h1.1⟩
  refine ⟨?_, ?_⟩
  · constructor
    · rw [hlen, hg]; exact hwf.dir_length
    · rw [hg]; exact hwf.depth_bound
    · intro j hj
      rw [hlen] at hj
      obtain ⟨h1, b1, hb1⟩ := hwf.slot_bucket j hj
      exact ⟨_, _, by rw [hfwd j h1 b1 hb1]⟩
    · intro j hj bj hbj
      rw [hg]
      rcases (hbwd j hj bj hbj).2 with ⟨h1, _, _⟩ | ⟨_, ⟨_, _, rfl⟩ | ⟨_, _, rfl⟩⟩
      · exact hwf.local_le _ _ _ h1
      · exact hlt
      · exact hlt
    · intro i2 hi2 bi2 hbi2 j hj
      rw [hlen] at hj
      obtain ⟨dd, bd, hbd, hddlt, hdd⟩ := hdirj j hj
      rw [hdir, hdd]
      simp only [Option.map_some', Option.some.injEq]
      rcases (hbwd i2 hi2 bi2 hbi2).2 with ⟨h1, hne, hlt2⟩ | ⟨h1, ⟨hbit, rfl, rfl⟩ | ⟨hbit, rfl, rfl⟩⟩
      · rw [← hwf.same_bucket _ _ _ h1 j hj, hdd]
        simp only [Option.some.injEq]
        by_cases hh : dd = h
        · simp only [hh, if_true]
          constructor
          · intro he; split at he <;> omega
          · intro he; exact absurd he.symm hne
        · simp only [hh, if_false]
      · simp only
        rw [pow_mod_succ_iff, ← hwf.same_bucket _ _ _ h1 j hj, hdd, hbit]
        simp only [Option.some.injEq]
        by_cases hh : dd = h
        · simp only [hh, if_true, true_and]
          constructor
          · intro he; split at he
            · assumption
            · omega
          · intro he; rw [if_pos he]
        · simp only [hh, if_false, false_and, iff_false]
          omega
      · simp only
        rw [pow_mod_succ_iff, ← hwf.same_bucket _ _ _ h1 j hj, hdd]
        simp only [Option.some.injEq]
        by_cases hh : dd = h
        · simp only [hh, if_true, true_and]
          constructor
          · intro he; split at he
            · omega
            · omega
          · intro he; rw [if_neg (by omega)]
        · simp only [hh, if_false, false_and, iff_false]
          omega
    · intro i2 hi2 bi2 hbi2 p hp
      rcases (hbwd i2 hi2 bi2 hbi2).2 with ⟨h1, _, _⟩ | ⟨h1, ⟨hbit, _, rfl⟩ | ⟨hbit, _, rfl⟩⟩
      · exact hwf.key_slot _ _ _ h1 p hp
      · simp only [List.mem_filter, decide_eq_true_eq] at hp
        simp only
        rw [pow_mod_succ_iff]
        exact ⟨hwf.key_slot _ _ _ h1 p hp.1, by rw [hp.2, hbit]⟩
      · simp only [List.mem_filter, decide_eq_true_eq] at hp
        simp only
        rw [pow_mod_succ_iff]
        refine ⟨hwf.key_slot _ _ _ h1 p hp.1, ?_⟩
        have := hp.2
        omega
    · intro i2 hi2 bi2 hbi2
      rcases (hbwd i2 hi2 bi2 hbi2).2 with ⟨h1, _, _⟩ | ⟨h1, ⟨_, _, rfl⟩ | ⟨_, _, rfl⟩⟩
      · exact hwf.keys_nodup _ _ _ h1
      · exact List.Nodup.sublist ((List.filter_sublist _).map _) (hwf.keys_nodup _ _ _ h1)
      · exact List.Nodup.sublist ((List.filter_sublist _).map _) (hwf.keys_nodup _ _ _ h1)
    · intro i2 hi2 bi2 hbi2
      rw [hbs]
      rcases (hbwd i2 hi2 bi2 hbi2).2 with ⟨h1, _, _⟩ | ⟨h1, ⟨_, _, rfl⟩ | ⟨_, _, rfl⟩⟩
      · exact hwf.capacity _ _ _ h1
      · rfl
      · rfl
    · intro i2 hi2 bi2 hbi2
      rcases (hbwd i2 hi2 bi2 hbi2).2 with ⟨h1, _, _⟩ | ⟨h1, ⟨_, _, rfl⟩ | ⟨_, _, rfl⟩⟩
      · exact hwf.fill _ _ _ h1
      · have h2 := hwf.fill _ _ _ h1
        have h3 := hwf.capacity _ _ _ h1
        have h4 := List.length_filter_le
          (fun p : Int × V => decide ((hashKey p.1 / 2 ^ target.depth_) % 2 = 1)) target.list_
        simp only
        omega
      · have h2 := hwf.fill _ _ _ h1
        have h3 := hwf.capacity _ _ _ h1
        have h4 := List.length_filter_le
          (fun p : Int × V => decide ((hashKey p.1 / 2 ^ target.depth_) % 2 ≠ 1)) target.list_
        simp only
        omega
  · intro key
    have hpos : 0 < 2 ^ t1.global_depth_ := by positivity
    have hkl : hashKey key % 2 ^ t1.global_depth_ < t1.dir_.length := by
      rw [hwf.dir_length]; exact Nat.mod_lt _ hpos
    obtain ⟨h1, b1, hb1⟩ := hwf.slot_bucket _ hkl
    rw [Find_eq_of_bucket t1 key hwf.depth_bound h1 b1 hb1]
    have hg2 : t2.global_depth_ ≤ 30 := by rw [hg]; exact hwf.depth_bound
    have h2 := hfwd _ h1 b1 hb1
    by_cases hh : h1 = h
    · subst hh
      have hbt := htarget _ b1 hb1
      subst hbt
      rw [if_pos rfl, bit_mod_pow _ _ _ hlt] at h2
      by_cases hbit : (hashKey key / 2 ^ b1.depth_) % 2 = 1
      · rw [if_pos hbit, ← hg] at h2
        rw [Find_eq_of_bucket t2 key hg2 _ _ h2]
        simp only [Bucket.Find]
        rw [find_filter_of_imp]
        intro x hx
        simp only [beq_iff_eq] at hx
        simp [hx, hbit]
      · rw [if_neg hbit, ← hg] at h2
        rw [Find_eq_of_bucket t2 key hg2 _ _ h2]
        simp only [Bucket.Find]
        rw [find_filter_of_imp]
        intro x hx
        simp only [beq_iff_eq] at hx
        simp [hx, hbit]
    · rw [if_neg hh, ← hg] at h2
      rw [Find_eq_of_bucket t2 key hg2 _ _ h2]


theorem splitBucket_spec (t t2 : ExtendibleHashTable V) (i h : Nat) (target : Bucket V)
    (hwf : WellFormed t) (hb : bucketAt t i = some (h, target))
    (hres : splitBucket t h target = .ok t2) :
    WellFormed t2 ∧ (∀ key, Find t2 key = Find t key) ∧
      t2.bucket_size_ = t.bucket_size_ ∧
      (∀ key, bucketAt t (hashKey key % 2 ^ t.global_depth_) = some (h, target) →
        ∃ h2 b2, bucketAt t2 (hashKey key % 2 ^ t2.global_depth_) = some (h2, b2) ∧
          b2.depth_ = target.depth_ + 1 ∧ ∀ p ∈ b2.list_, p ∈ target.list_) := by
  obtain ⟨hd31, hcap, hg, hbs, _, hstore, hlen, hdir⟩ := splitBucket_fields t t2 h target hres
  have hred := redistribute_eq target.depth_ t.bucket_size_ (target.depth_ + 1) target.list_ [] []
    (hwf.keys_nodup _ _ _ hb) (by simp) (by simp)
    (by have := hwf.fill _ _ _ hb; have := hwf.capacity _ _ _ hb; simp only [List.length_nil]; omega)
    (by have := hwf.fill _ _ _ hb; have := hwf.capacity _ _ _ hb; simp only [List.length_nil]; omega)
  rw [hred] at hstore
  simp only [List.nil_append] at hstore
  have hi : i < t.dir_.length := getElem_lt_of_some _ _ _ ((bucketAt_eq_some _ _ _ _).1 hb).1
  by_cases hd : target.depth_ = t.global_depth_
  · simp only [if_pos hd] at hg hlen hdir
    have hg30 : t.global_depth_ < 30 := by
      by_contra hcon
      have h30 : 2 ^ 30 ≤ 2 ^ t.global_depth_ := Nat.pow_le_pow_right (by decide) (by omega)
      have := hcap hd
      rw [hwf.dir_length] at this
      norm_num at h30
      omega
    have hwf1 := double_WF t hwf hg30
    have hmod : ∀ j, j < t.dir_.length → j % 2 ^ t.global_depth_ = j := by
      intro j hj
      rw [hwf.dir_length] at hj
      exact Nat.mod_eq_of_lt hj
    have hb1 : bucketAt { t with global_depth_ := t.global_depth_ + 1, dir_ := t.dir_ ++ t.dir_ } i =
        some (h, target) := by
      rw [double_bucketAt t hwf i (by omega), hmod i hi]
      exact hb
    have hspec := split_spec { t with global_depth_ := t.global_depth_ + 1, dir_ := t.dir_ ++ t.dir_ }
      t2 i h target hwf1 hb1 (by simp only; omega) hg hbs hstore hlen hdir
    refine ⟨hspec.1, ?_, hbs, ?_⟩
    · intro key
      rw [hspec.2 key, double_Find t hwf hg30]
    · intro key hk
      have hk2 : hashKey key % 2 ^ (t.global_depth_ + 1) < 2 * t.dir_.length := by
        rw [hwf.dir_length]
        have := Nat.mod_lt (hashKey key) (show 0 < 2 ^ (t.global_depth_ + 1) by positivity)
        rw [pow_succ] at this
        omega
      have hk1 : bucketAt { t with global_depth_ := t.global_depth_ + 1, dir_ := t.dir_ ++ t.dir_ }
          (hashKey key % 2 ^ (t.global_depth_ + 1)) = some (h, target) := by
        rw [double_bucketAt t hwf _ hk2, mod_pow_mod_pow _ _ _ (Nat.le_succ _)]
        exact hk
      have hf := split_bucketAt
        { t with global_depth_ := t.global_depth_ + 1, dir_ := t.dir_ ++ t.dir_ }
        t2 h target _ _ hstore hdir _ _ _ hk1
      rw [if_pos rfl] at hf
      rw [hg]
      by_cases hbit : (hashKey key % 2 ^ (t.global_depth_ + 1) / 2 ^ target.depth_) % 2 = 1
      · rw [if_pos hbit] at hf
        exact ⟨_, _, hf, rfl, fun p hp => (List.mem_filter.1 hp).1⟩
      · rw [if_neg hbit] at hf
        exact ⟨_, _, hf, rfl, fun p hp => (List.mem_filter.1 hp).1⟩
  · simp only [if_neg hd] at hg hlen hdir
    have hlt : target.depth_ < t.global_depth_ := by
      have := hwf.local_le _ _ _ hb
      omega
    have hspec := split_spec t t2 i h target hwf hb hlt hg hbs hstore hlen hdir
    refine ⟨hspec.1, hspec.2, hbs, ?_⟩
    intro key hk
    have hf := split_bucketAt t t2 h target _ _ hstore hdir _ _ _ hk
    rw [if_pos rfl] at hf
    rw [hg]
    by_cases hbit : (hashKey key % 2 ^ t.global_depth_ / 2 ^ target.depth_) % 2 = 1
    · rw [if_pos hbit] at hf
      exact ⟨_, _, hf, rfl, fun p hp => (List.mem_filter.1 hp).1⟩
    · rw [if_neg hbit] at hf
      exact ⟨_, _, hf, rfl, fun p hp => (List.mem_filter.1 hp).1⟩


theorem set_bucketAt (t : ExtendibleHashTable V) (h : Nat) (b2 : Bucket V)
    (hlt : h < t.store_.length) (j : Nat) :
    bucketAt { t with store_ := t.store_.set h b2 } j =
      (bucketAt t j).map (fun x => if x.1 = h then (h, b2) else x) := by
  unfold bucketAt
  simp only
  cases hd : t.dir_[j]? with
  | none => rfl
  | some hj =>
    simp only
    rw [List.getElem?_set]
    by_cases hh : h = hj
    · subst hh
      rw [if_pos rfl, if_pos hlt]
      obtain ⟨b, hb⟩ : ∃ b, t.store_[h]? = some b := ⟨_, List.getElem?_eq_getElem hlt⟩
      rw [hb]
      simp
    · rw [if_neg hh]
      cases hs : t.store_[hj]? with
      | none => rfl
      | some b =>
        have : ¬ hj = h := fun he => hh he.symm
        simp [this]

theorem set_bucketAt_some (t : ExtendibleHashTable V) (i h : Nat) (b b2 : Bucket V)
    (hb : bucketAt t i = some (h, b)) (j hj : Nat) (bj : Bucket V)
    (hbj : bucketAt { t with store_ := t.store_.set h b2 } j = some (hj, bj)) :
    (hj ≠ h ∧ bucketAt t j = some (hj, bj)) ∨
      (hj = h ∧ bj = b2 ∧ bucketAt t j = some (h, b)) := by
  have hs := ((bucketAt_eq_some _ _ _ _).1 hb).2
  have hlt : h < t.store_.length := getElem_lt_of_some _ _ _ hs
  rw [set_bucketAt t h b2 hlt j] at hbj
  cases hx : bucketAt t j with
  | none => rw [hx] at hbj; simp at hbj
  | some x =>
    obtain ⟨hx1, bx⟩ := x
    rw [hx] at hbj
    simp only [Option.map_some', Option.some.injEq] at hbj
    by_cases hh : hx1 = h
    · right
      rw [if_pos hh] at hbj
      simp only [Prod.mk.injEq] at hbj
      subst hh
      have hs2 := ((bucketAt_eq_some _ _ _ _).1 hx).2
      rw [hs] at hs2
      have := Option.some.inj hs2
      subst this
      exact ⟨hbj.1.symm, hbj.2.symm, rfl⟩
    · left
      rw [if_neg hh] at hbj
      simp only [Prod.mk.injEq] at hbj
      obtain ⟨rfl, rfl⟩ := hbj
      exact ⟨hh, rfl⟩

theorem setBucket_WF (t : ExtendibleHashTable V) (i h : Nat) (b b2 : Bucket V)
    (hwf : WellFormed t) (hb : bucketAt t i = some (h, b))
    (hdep : b2.depth_ = b.depth_) (hsize : b2.size_ = b.size_)
    (hfill : b2.list_.length ≤ b2.size_) (hnd : (b2.list_.map Prod.fst).Nodup)
    (hkeys : ∀ p ∈ b2.list_, hashKey p.1 % 2 ^ b.depth_ = i % 2 ^ b.depth_) :
    WellFormed { t with store_ := t.store_.set h b2 } := by
  have hs := ((bucketAt_eq_some _ _ _ _).1 hb).2
  have hlt : h < t.store_.length := getElem_lt_of_some _ _ _ hs
  have hi : i < t.dir_.length := getElem_lt_of_some _ _ _ ((bucketAt_eq_some _ _ _ _).1 hb).1
  have hcase := set_bucketAt_some t i h b b2 hb
  constructor
  · exact hwf.dir_length
  · exact hwf.depth_bound
  · intro j hj
    obtain ⟨hj1, bj, hbj⟩ := hwf.slot_bucket j hj
    rw [set_bucketAt t h b2 hlt j, hbj]
    exact ⟨_, _, rfl⟩
  · intro j hj bj hbj
    rcases hcase j hj bj hbj with ⟨_, h1⟩ | ⟨_, rfl, h1⟩
    · exact hwf.local_le _ _ _ h1
    · rw [hdep]; exact hwf.local_le _ _ _ h1
  · intro j hj bj hbj k hk
    rcases hcase j hj bj hbj with ⟨_, h1⟩ | ⟨rfl, rfl, h1⟩
    · exact hwf.same_bucket _ _ _ h1 k hk
    · rw [hdep]; exact hwf.same_bucket _ _ _ h1 k hk
  · intro j hj bj hbj p hp
    rcases hcase j hj bj hbj with ⟨_, h1⟩ | ⟨rfl, rfl, h1⟩
    · exact hwf.key_slot _ _ _ h1 p hp
    · rw [hdep, hkeys p hp]
      have hjl : j < t.dir_.length :=
        getElem_lt_of_some _ _ _ ((bucketAt_eq_some _ _ _ _).1 h1).1
      exact ((hwf.same_bucket _ _ _ hb j hjl).1 ((bucketAt_eq_some _ _ _ _).1 h1).1).symm
  · intro j hj bj hbj
    rcases hcase j hj bj hbj with ⟨_, h1⟩ | ⟨rfl, rfl, h1⟩
    · exact hwf.keys_nodup _ _ _ h1
    · exact hnd
  · intro j hj bj hbj
    rcases hcase j hj bj hbj with ⟨_, h1⟩ | ⟨rfl, rfl, h1⟩
    · exact hwf.capacity _ _ _ h1
    · rw [hsize]; exact hwf.capacity _ _ _ h1
  · intro j hj bj hbj
    rcases hcase j hj bj hbj with ⟨_, h1⟩ | ⟨rfl, rfl, h1⟩
    · exact hwf.fill _ _ _ h1
    · exact hfill

theorem setBucket_Find (t : ExtendibleHashTable V) (i h : Nat) (b b2 : Bucket V)
    (hwf : WellFormed t) (hb : bucketAt t i = some (h, b)) (key : Int) :
    Find { t with store_ := t.store_.set h b2 } key =
      if t.dir_[hashKey key % 2 ^ t.global_depth_]? = some h then .ok (b2.Find key)
      else Find t key := by
  have hs := ((bucketAt_eq_some _ _ _ _).1 hb).2
  have hlt : h < t.store_.length := getElem_lt_of_some _ _ _ hs
  have hpos : 0 < 2 ^ t.global_depth_ := by positivity
  have hkl : hashKey key % 2 ^ t.global_depth_ < t.dir_.length := by
    rw [hwf.dir_length]; exact Nat.mod_lt _ hpos
  obtain ⟨hk, bk, hbk⟩ := hwf.slot_bucket _ hkl
  have hdk := ((bucketAt_eq_some _ _ _ _).1 hbk).1
  have h2 := set_bucketAt t h b2 hlt (hashKey key % 2 ^ t.global_depth_)
  rw [hbk] at h2
  simp only [Option.map_some'] at h2
  rw [hdk]
  by_cases hh : hk = h
  · rw [if_pos hh] at h2
    rw [if_pos (by rw [hh])]
    exact Find_eq_of_bucket { t with store_ := t.store_.set h b2 } key hwf.depth_bound _ _ h2
  · rw [if_neg hh] at h2
    rw [if_neg (by simpa using hh)]
    rw [Find_eq_of_bucket { t with store_ := t.store_.set h b2 } key hwf.depth_bound _ _ h2,
      Find_eq_of_bucket t key hwf.depth_bound _ _ hbk]


theorem IndexOf_ok (t : ExtendibleHashTable V) (hg : t.global_depth_ ≤ 30) (key : Int) :
    IndexOf t key = .ok (hashKey key % 2 ^ t.global_depth_) := by
  unfold IndexOf
  rw [if_neg (by omega)]

theorem key_bucket (t : ExtendibleHashTable V) (hwf : WellFormed t) (key : Int) :
    ∃ h b, bucketAt t (hashKey key % 2 ^ t.global_depth_) = some (h, b) := by
  apply hwf.slot_bucket
  rw [hwf.dir_length]
  exact Nat.mod_lt _ (by positivity)

theorem growLoop_spec (fuel : Nat) (t t1 : ExtendibleHashTable V) (key : Int)
    (hwf : WellFormed t) (hres : growLoop fuel t key = .ok t1) :
    WellFormed t1 ∧ (∀ k, Find t1 k = Find t k) ∧ t1.bucket_size_ = t.bucket_size_ ∧
      ∃ h b, bucketAt t1 (hashKey key % 2 ^ t1.global_depth_) = some (h, b) ∧
        b.IsFull = false := by
  induction fuel generalizing t with
  | zero => simp [growLoop] at hres
  | succ n ih =>
    unfold growLoop at hres
    rw [IndexOf_ok t hwf.depth_bound] at hres
    obtain ⟨h, b, hb⟩ := key_bucket t hwf key
    simp only [hb] at hres
    by_cases hfull : b.IsFull = true
    · simp only [hfull, if_true] at hres
      cases hsp : splitBucket t h b with
      | error e => rw [hsp] at hres; simp at hres
      | ok t2 =>
        rw [hsp] at hres
        simp only at hres
        obtain ⟨hwf2, hfind2, hbs2, _⟩ := splitBucket_spec t t2 _ h b hwf hb hsp
        obtain ⟨hwf1, hfind1, hbs1, hex⟩ := ih t2 hwf2 hres
        refine ⟨hwf1, ?_, ?_, hex⟩
        · intro k; rw [hfind1, hfind2]
        · rw [hbs1, hbs2]
    · simp only [hfull, if_false, Except.ok.injEq, Bool.false_eq_true] at hres
      subst hres
      exact ⟨hwf, fun _ => rfl, rfl, h, b, hb, by simpa using hfull⟩

theorem Bucket_Find_eq_none {V : Type} (b : Bucket V) (key : Int) :
    b.Find key = none ↔ b.list_.any (fun p => p.1 == key) = false := by
  unfold Bucket.Find
  cases hf : b.list_.find? (fun p => p.1 == key) with
  | none =>
    simp only [true_iff]
    rw [List.find?_eq_none] at hf
    rw [List.any_eq_false]
    exact hf
  | some p =>
    simp only [reduceCtorEq, false_iff]
    intro hany
    rw [List.any_eq_false] at hany
    have h1 := List.mem_of_find?_eq_some hf
    have h2 := List.find?_some hf
    exact hany p h1 h2

theorem find_append_other {V : Type} (l : List (Int × V)) (key k : Int) (value : V)
    (hne : k ≠ key) :
    (l ++ [(key, value)]).find? (fun p => p.1 == k) = l.find? (fun p => p.1 == k) := by
  rw [List.find?_append]
  have : List.find? (fun p : Int × V => p.1 == k) [(key, value)] = none := by
    simp [List.find?_cons, Ne.symm hne]
  rw [this]
  cases l.find? (fun p => p.1 == k) <;> rfl

theorem Insert_spec (fuel : Nat) (t t2 : ExtendibleHashTable V) (key : Int) (value : V)
    (hwf : WellFormed t) (hres : Insert fuel t key value = .ok t2) :
    WellFormed t2 ∧ t2.bucket_size_ = t.bucket_size_ ∧
      (∀ k, k ≠ key → Find t2 k = Find t k) ∧
      (Find t key = .ok none → Find t2 key = .ok (some value)) ∧
      (∀ v0, Find t key = .ok (some v0) → Find t2 key = .ok (some v0)) := by
  unfold Insert at hres
  cases hgl : growLoop fuel t key with
  | error e => rw [hgl] at hres; simp at hres
  | ok t1 =>
    rw [hgl] at hres
    simp only at hres
    obtain ⟨hwf1, hfind1, hbs1, h, b, hb, hnf⟩ := growLoop_spec fuel t t1 key hwf hgl
    rw [IndexOf_ok t1 hwf1.depth_bound] at hres
    simp only [hb, Except.ok.injEq] at hres
    subst hres
    have hdir : t1.dir_[hashKey key % 2 ^ t1.global_depth_]? = some h :=
      ((bucketAt_eq_some _ _ _ _).1 hb).1
    have hfb : Find t1 key = .ok (b.Find key) :=
      Find_eq_of_bucket t1 key hwf1.depth_bound h b hb
    have hlen : b.list_.length < b.size_ := by
      have h1 := hwf1.fill _ _ _ hb
      have h2 : ¬ b.list_.length = b.size_ := by
        simpa [Bucket.IsFull] using hnf
      omega
    by_cases hany : b.list_.any (fun p => p.1 == key) = true
    · have hins : (b.Insert key value).1 = b := by
        simp [Bucket.Insert, hnf, hany]
      rw [hins]
      have hwf2 := setBucket_WF t1 _ h b b hwf1 hb rfl rfl (hwf1.fill _ _ _ hb)
        (hwf1.keys_nodup _ _ _ hb) (hwf1.key_slot _ _ _ hb)
      have hf2 : ∀ k, Find { t1 with store_ := t1.store_.set h b } k = Find t k := by
        intro k
        rw [setBucket_Find t1 _ h b b hwf1 hb k, ← hfind1 k]
        split
        · rename_i hk
          have hbk : bucketAt t1 (hashKey k % 2 ^ t1.global_depth_) = some (h, b) :=
            (bucketAt_eq_some _ _ _ _).2 ⟨hk, ((bucketAt_eq_some _ _ _ _).1 hb).2⟩
          rw [Find_eq_of_bucket t1 k hwf1.depth_bound h b hbk]
        · rfl
      refine ⟨hwf2, hbs1, fun k _ => hf2 k, ?_, ?_⟩
      · intro hnone
        rw [← hfind1, hfb] at hnone
        have := (Bucket_Find_eq_none b key).1 (by simpa using hnone)
        rw [hany] at this
        simp at this
      · intro v0 hv0
        rw [hf2 key]; exact hv0
    · have hany2 : b.list_.any (fun p => p.1 == key) = false := Bool.eq_false_iff.2 hany
      have hins : (b.Insert key value).1 = { b with list_ := b.list_ ++ [(key, value)] } := by
        simp [Bucket.Insert, hnf, hany2]
      rw [hins]
      have hnotin : ∀ p ∈ b.list_, ¬ p.1 = key := by
        intro p hp
        have := List.any_eq_false.1 hany2 p hp
        simpa using this
      have hwf2 := setBucket_WF t1 _ h b { b with list_ := b.list_ ++ [(key, value)] } hwf1 hb
        rfl rfl
        (by simp only [List.length_append, List.length_singleton]; omega)
        (by
          simp only [List.map_append, List.map_cons, List.map_nil]
          rw [List.nodup_append]
          refine ⟨hwf1.keys_nodup _ _ _ hb, List.nodup_singleton _, ?_⟩
          intro a ha hb2
          simp only [List.mem_singleton] at hb2
          subst hb2
          obtain ⟨p, hp, hpa⟩ := List.mem_map.1 ha
          exact hnotin p hp hpa)
        (by
          intro p hp
          rcases List.mem_append.1 hp with hp | hp
          · exact hwf1.key_slot _ _ _ hb p hp
          · simp only [List.mem_singleton] at hp
            subst hp
            simp only
            rw [mod_pow_mod_pow _ _ _ (hwf1.local_le _ _ _ hb)])
      refine ⟨hwf2, hbs1, ?_, ?_, ?_⟩
      · intro k hne
        rw [setBucket_Find t1 _ h b _ hwf1 hb k, ← hfind1 k]
        split
        · rename_i hk
          have hbk : bucketAt t1 (hashKey k % 2 ^ t1.global_depth_) = some (h, b) :=
            (bucketAt_eq_some _ _ _ _).2 ⟨hk, ((bucketAt_eq_some _ _ _ _).1 hb).2⟩
          rw [Find_eq_of_bucket t1 k hwf1.depth_bound h b hbk]
          simp only [Bucket.Find]
          rw [find_append_other _ _ _ _ hne]
        · rfl
      · intro _
        rw [setBucket_Find t1 _ h b _ hwf1 hb key, if_pos hdir]
        simp only [Bucket.Find]
        rw [List.find?_append]
        have h1 : b.list_.find? (fun p => p.1 == key) = none := by
          rw [List.find?_eq_none]
          intro p hp
          simpa using hnotin p hp
        rw [h1]
        simp [List.find?_cons]
      · intro v0 hv0
        rw [← hfind1, hfb] at hv0
        have h1 : b.Find key = none := (Bucket_Find_eq_none b key).2 hany2
        rw [h1] at hv0
        simp at hv0


theorem eraseP_find_other {V : Type} (l : List (Int × V)) (key k : Int) (hne : k ≠ key) :
    (l.eraseP (fun p => p.1 == key)).find? (fun p => p.1 == k) =
      l.find? (fun p => p.1 == k) := by
  induction l with
  | nil => rfl
  | cons a rest ih =>
    by_cases ha : a.1 = key
    · have h1 : (a.1 == key) = true := by simp [ha]
      have h2 : (a.1 == k) = false := by
        simp only [beq_eq_false_iff_ne, ne_eq]
        intro he; exact hne (he.symm.trans ha)
      rw [List.eraseP_cons, h1, List.find?_cons, h2]
      rfl
    · have h1 : (a.1 == key) = false := by simpa using ha
      rw [List.eraseP_cons, h1]
      simp only [cond_false]
      rw [List.find?_cons, List.find?_cons, ih]

theorem eraseP_no_key {V : Type} (l : List (Int × V)) (key : Int)
    (hnd : (l.map Prod.fst).Nodup) :
    ∀ p ∈ l.eraseP (fun p => p.1 == key), p.1 ≠ key := by
  induction l with
  | nil => intro p hp; simp at hp
  | cons a rest ih =>
    simp only [List.map_cons, List.nodup_cons, List.mem_map, not_exists, not_and] at hnd
    obtain ⟨hnot, hrest⟩ := hnd
    intro p hp
    by_cases ha : a.1 = key
    · have h1 : (a.1 == key) = true := by simp [ha]
      rw [List.eraseP_cons, h1] at hp
      simp only [cond_true] at hp
      intro he
      exact hnot p hp (he.trans ha.symm)
    · have h1 : (a.1 == key) = false := by simpa using ha
      rw [List.eraseP_cons, h1] at hp
      simp only [cond_false] at hp
      rcases List.mem_cons.1 hp with hp | hp
      · subst hp; exact ha
      · exact ih hrest p hp

theorem Remove_spec (t : ExtendibleHashTable V) (key : Int) (hwf : WellFormed t) :
    ∃ t2 r, Remove t key = .ok (t2, r) ∧ WellFormed t2 ∧ t2.bucket_size_ = t.bucket_size_ ∧
      (r = true ↔ ∃ v, Find t key = .ok (some v)) ∧
      Find t2 key = .ok none ∧
      (∀ k, k ≠ key → Find t2 k = Find t k) ∧
      t2.global_depth_ = t.global_depth_ ∧ t2.num_buckets_ = t.num_buckets_ ∧
      t2.dir_ = t.dir_ ∧
      (∀ j, GetLocalDepth t2 j = GetLocalDepth t j) := by
  obtain ⟨h, b, hb⟩ := key_bucket t hwf key
  have hs := ((bucketAt_eq_some _ _ _ _).1 hb).2
  have hlt : h < t.store_.length := getElem_lt_of_some _ _ _ hs
  have hdir : t.dir_[hashKey key % 2 ^ t.global_depth_]? = some h :=
    ((bucketAt_eq_some _ _ _ _).1 hb).1
  have hfb : Find t key = .ok (b.Find key) := Find_eq_of_bucket t key hwf.depth_bound h b hb
  have hrem : Remove t key =
      .ok ({ t with store_ := t.store_.set h (b.Remove key).1 }, (b.Remove key).2) := by
    unfold Remove
    rw [IndexOf_ok t hwf.depth_bound]
    simp only [hb]
  have hshape : ∃ l, (b.Remove key).1 = { b with list_ := l } ∧ l.Sublist b.list_ ∧
      (∀ p ∈ l, p.1 ≠ key) ∧
      (∀ k, k ≠ key → l.find? (fun p => p.1 == k) = b.list_.find? (fun p => p.1 == k)) := by
    unfold Bucket.Remove
    by_cases hany : b.list_.any (fun p => p.1 == key) = true
    · rw [if_pos hany]
      exact ⟨_, rfl, List.eraseP_sublist _, eraseP_no_key _ _ (hwf.keys_nodup _ _ _ hb),
        fun k hk => eraseP_find_other _ _ _ hk⟩
    · rw [if_neg hany]
      refine ⟨b.list_, rfl, List.Sublist.refl _, ?_, fun _ _ => rfl⟩
      intro p hp he
      apply hany
      rw [List.any_eq_true]
      exact ⟨p, hp, by simp [he]⟩
  obtain ⟨l, hl, hsub, hnokey, hother⟩ := hshape
  have hwf2 : WellFormed { t with store_ := t.store_.set h (b.Remove key).1 } := by
    rw [hl]
    apply setBucket_WF t _ h b { b with list_ := l } hwf hb rfl rfl
    · have := hwf.fill _ _ _ hb
      have := hsub.length_le
      simp only
      omega
    · exact List.Nodup.sublist (hsub.map _) (hwf.keys_nodup _ _ _ hb)
    · intro p hp
      exact hwf.key_slot _ _ _ hb p (hsub.subset hp)
  refine ⟨_, _, hrem, hwf2, rfl, ?_, ?_, ?_, rfl, rfl, rfl, ?_⟩
  · rw [hfb]
    unfold Bucket.Remove
    by_cases hany : b.list_.any (fun p => p.1 == key) = true
    · rw [if_pos hany]
      simp only [true_iff]
      cases hf : b.Find key with
      | none =>
        rw [(Bucket_Find_eq_none b key).1 hf] at hany
        simp at hany
      | some v => exact ⟨v, rfl⟩
    · rw [if_neg hany]
      simp only [Bool.false_eq_true, false_iff, not_exists]
      intro v hv
      have h1 : b.Find key = none := (Bucket_Find_eq_none b key).2 (Bool.eq_false_iff.2 hany)
      rw [h1] at hv
      simp at hv
  · rw [setBucket_Find t _ h b _ hwf hb key, if_pos hdir, hl]
    simp only [Bucket.Find]
    have : l.find? (fun p => p.1 == key) = none := by
      rw [List.find?_eq_none]
      intro p hp
      simpa using hnokey p hp
    rw [this]
  · intro k hk
    rw [setBucket_Find t _ h b _ hwf hb k]
    split
    · rename_i hdk
      have hbk : bucketAt t (hashKey k % 2 ^ t.global_depth_) = some (h, b) :=
        (bucketAt_eq_some _ _ _ _).2 ⟨hdk, hs⟩
      rw [Find_eq_of_bucket t k hwf.depth_bound h b hbk, hl]
      simp only [Bucket.Find]
      rw [hother k hk]
    · rfl
  · intro j
    unfold GetLocalDepth
    rw [set_bucketAt t h _ hlt j]
    cases hx : bucketAt t j with
    | none => rfl
    | some x =>
      obtain ⟨hx1, bx⟩ := x
      simp only [Option.map_some']
      by_cases hh : hx1 = h
      · subst hh
        have hs2 := ((bucketAt_eq_some _ _ _ _).1 hx).2
        rw [hs] at hs2
        have := Option.some.inj hs2
        subst this
        rw [if_pos rfl, hl]
      · rw [if_neg hh]

end ExtendibleHashTable

theorem TableCall_apply_WF {V : Type} (c : TableCall V) (t t1 : ExtendibleHashTable V)
    (hwf : t.WellFormed) (h : c.apply t = .ok t1) :
    t1.WellFormed ∧ t1.bucket_size_ = t.bucket_size_ := by
  cases c with
  | Insert fuel key value =>
    have := ExtendibleHashTable.Insert_spec fuel t t1 key value hwf h
    exact ⟨this.1, this.2.1⟩
  | Remove key =>
    obtain ⟨t2, r, hrem, hwf2, hbs, _⟩ := ExtendibleHashTable.Remove_spec t key hwf
    simp only [TableCall.apply, hrem, Except.map, Except.ok.injEq] at h
    subst h
    exact ⟨hwf2, hbs⟩

theorem runTable_WF {V : Type} (calls : List (TableCall V)) (t t1 : ExtendibleHashTable V)
    (hwf : t.WellFormed) (h : runTable t calls = .ok t1) :
    t1.WellFormed ∧ t1.bucket_size_ = t.bucket_size_ := by
  induction calls generalizing t with
  | nil =>
    simp only [runTable, Except.ok.injEq] at h
    subst h
    exact ⟨hwf, rfl⟩
  | cons c rest ih =>
    simp only [runTable] at h
    cases hq : c.apply t with
    | error e => simp [hq] at h
    | ok t2 =>
      simp only [hq] at h
      obtain ⟨hwf2, hbs2⟩ := TableCall_apply_WF c t t2 hwf hq
      obtain ⟨hwf1, hbs1⟩ := ih t2 hwf2 h
      exact ⟨hwf1, hbs1.trans hbs2⟩

theorem reachable_WF {V : Type} (bucket_size : Nat) (calls : List (TableCall V))
    (t : ExtendibleHashTable V)
    (h : runTable (ExtendibleHashTable.new bucket_size) calls = .ok t) :
    t.WellFormed ∧ t.bucket_size_ = bucket_size :=
  runTable_WF calls _ t (ExtendibleHashTable.WellFormed_new bucket_size) h

namespace ExtendibleHashTable

variable {V : Type}

theorem growLoop_full_never_returns (t : ExtendibleHashTable V) (key : Int)
    (P : ExtendibleHashTable V → Prop)
    (hfull : ∀ t1 h b, WellFormed t1 → P t1 →
      bucketAt t1 (hashKey key % 2 ^ t1.global_depth_) = some (h, b) → b.IsFull = true)
    (hstep : ∀ t1 t2 h b, WellFormed t1 → P t1 →
      bucketAt t1 (hashKey key % 2 ^ t1.global_depth_) = some (h, b) →
      splitBucket t1 h b = .ok t2 → P t2)
    (hwf : WellFormed t) (hP : P t) (fuel : Nat) :
    ∃ e, growLoop fuel t key = .error e := by
  induction fuel generalizing t with
  | zero => exact ⟨_, rfl⟩
  | succ n ih =>
    unfold growLoop
    rw [IndexOf_ok t hwf.depth_bound]
    obtain ⟨h, b, hb⟩ := key_bucket t hwf key
    simp only [hb, hfull t h b hwf hP hb, if_true]
    cases hsp : splitBucket t h b with
    | error e => exact ⟨e, rfl⟩
    | ok t2 =>
      simp only
      exact ih t2 (splitBucket_spec t t2 _ h b hwf hb hsp).1 (hstep t t2 h b hwf hP hb hsp)

theorem Insert_colliding_key_capacity_one (t : ExtendibleHashTable V) (hwf : WellFormed t)
    (hbs : t.bucket_size_ = 1) (key k0 : Int) (v0 : V)
    (hcol : hashKey key % 2 ^ 30 = hashKey k0 % 2 ^ 30)
    (hfind : Find t k0 = .ok (some v0)) (fuel : Nat) (value : V) :
    ∃ e, Insert fuel t key value = .error e := by
  obtain ⟨e, he⟩ := growLoop_full_never_returns t key
    (fun t1 => t1.bucket_size_ = 1 ∧ Find t1 k0 = .ok (some v0))
    (by
      intro t1 h b hwf1 hP hb
      have h1 := hwf1.capacity _ _ _ hb
      have h2 := hwf1.fill _ _ _ hb
      have h3 := hP.2
      have hslot : hashKey key % 2 ^ t1.global_depth_ = hashKey k0 % 2 ^ t1.global_depth_ := by
        rw [← mod_pow_mod_pow (hashKey key) _ 30 hwf1.depth_bound,
          ← mod_pow_mod_pow (hashKey k0) _ 30 hwf1.depth_bound, hcol]
      rw [hslot] at hb
      rw [Find_eq_of_bucket t1 k0 hwf1.depth_bound h b hb] at h3
      have h4 : b.list_ ≠ [] := by
        intro hnil
        simp [Bucket.Find, hnil] at h3
      have h5 : 0 < b.list_.length := List.length_pos.2 h4
      simp only [Bucket.IsFull, beq_iff_eq]
      omega)
    (by
      intro t1 t2 h b hwf1 hP hb hsp
      have hs := splitBucket_spec t1 t2 _ h b hwf1 hb hsp
      exact ⟨by rw [hs.2.2.1]; exact hP.1, by rw [hs.2.1]; exact hP.2⟩)
    hwf ⟨hbs, hfind⟩ fuel
  exact ⟨e, by unfold Insert; rw [he]⟩

end ExtendibleHashTable

/-! ## Extendible hash table: Insert, Remove and the loop of Insert -/

open ExtendibleHashTable

/-- C22: with bucket_size 2, Insert(1, 10) followed by Insert(1, 20) both return, and
Find(1) then gives 10, not 20: `Bucket::Insert` walks the list with `for (auto v :
list_)`, so `v.second = value` changes a copy and the stored entry keeps its value.
With bucket_size 1 the second Insert returns for no iteration budget: the loop of
`Insert` splits the full bucket before the key is looked for, and the bucket of the
key stays full. -/
theorem insert_of_present_key_keeps_old_value :
    runTable (ExtendibleHashTable.new 2) [.Insert 1 1 10, .Insert 1 1 20] =
        .ok (afterTableCalls (ExtendibleHashTable.new 2) [.Insert 1 1 10, .Insert 1 1 20]) ∧
      (afterTableCalls (ExtendibleHashTable.new 2 : ExtendibleHashTable Nat)
        [.Insert 1 1 10]).Find 1 = .ok (some 10) ∧
      (afterTableCalls (ExtendibleHashTable.new 2 : ExtendibleHashTable Nat)
        [.Insert 1 1 10, .Insert 1 1 20]).Find 1 = .ok (some 10) ∧
      ((afterTableCalls (ExtendibleHashTable.new 2 : ExtendibleHashTable Nat)
        [.Insert 1 1 10, .Insert 1 1 20]).store_.map (fun b => b.list_)) = [[(1, 10)]] ∧
      runTable (ExtendibleHashTable.new 1) [.Insert 1 1 10] =
        .ok (afterTableCalls (ExtendibleHashTable.new 1 : ExtendibleHashTable Nat)
          [.Insert 1 1 10]) ∧
      (∀ fuel, ∃ e, (afterTableCalls (ExtendibleHashTable.new 1 : ExtendibleHashTable Nat)
        [.Insert 1 1 10]).Insert fuel 1 20 = .error e) := by
  refine ⟨rfl, rfl, rfl, rfl, rfl, ?_⟩
  intro fuel
  have hwf := reachable_WF 1 [TableCall.Insert 1 1 10]
    (afterTableCalls (ExtendibleHashTable.new 1 : ExtendibleHashTable Nat) [.Insert 1 1 10]) rfl
  exact Insert_colliding_key_capacity_one _ hwf.1 hwf.2 1 1 10 rfl rfl fuel 20

/-- C23: in every table reached from the constructor by calls of Insert and Remove
that return, a call Insert(key, value) that returns leaves the value of every other
key as it was: a key that Find reported with value v before the call is reported with
v after it, also when the call doubled the directory and split buckets. -/
theorem insert_keeps_other_entries {V : Type} (bucket_size : Nat)
    (calls : List (TableCall V)) (t : ExtendibleHashTable V)
    (hreach : runTable (ExtendibleHashTable.new bucket_size) calls = .ok t)
    (fuel : Nat) (key : Int) (value : V) (t2 : ExtendibleHashTable V)
    (hins : t.Insert fuel key value = .ok t2)
    (k : Int) (v : V) (hne : k ≠ key) (hfind : t.Find k = .ok (some v)) :
    t2.Find k = .ok (some v) := by
  have hwf := (reachable_WF bucket_size calls t hreach).1
  have hspec := Insert_spec fuel t t2 key value hwf hins
  rw [hspec.2.2.1 k hne]
  exact hfind

/-- Witness of C23: bucket_size 2, after Insert(0, 10) and Insert(2, 12), the call
Insert(6, 16), which doubles the directory twice, keeps the entry of key 0. -/
theorem insert_keeps_other_entries_witness :
    runTable (ExtendibleHashTable.new 2) [.Insert 1 0 10, .Insert 1 2 12] =
        .ok (afterTableCalls (ExtendibleHashTable.new 2 : ExtendibleHashTable Nat)
          [.Insert 1 0 10, .Insert 1 2 12]) ∧
      (afterTableCalls (ExtendibleHashTable.new 2 : ExtendibleHashTable Nat)
        [.Insert 1 0 10, .Insert 1 2 12]).Insert 3 6 16 =
          .ok (afterTableCalls (ExtendibleHashTable.new 2 : ExtendibleHashTable Nat)
            [.Insert 1 0 10, .Insert 1 2 12, .Insert 3 6 16]) ∧
      (afterTableCalls (ExtendibleHashTable.new 2 : ExtendibleHashTable Nat)
        [.Insert 1 0 10, .Insert 1 2 12, .Insert 3 6 16]).GetGlobalDepth = 2 ∧
      (afterTableCalls (ExtendibleHashTable.new 2 : ExtendibleHashTable Nat)
        [.Insert 1 0 10, .Insert 1 2 12, .Insert 3 6 16]).Find 0 = .ok (some 10) :=
  ⟨rfl, rfl, rfl,
    insert_keeps_other_entries 2 [.Insert 1 0 10, .Insert 1 2 12]
      (afterTableCalls (ExtendibleHashTable.new 2 : ExtendibleHashTable Nat)
        [.Insert 1 0 10, .Insert 1 2 12]) (by rfl) 3 6 16
      (afterTableCalls (ExtendibleHashTable.new 2 : ExtendibleHashTable Nat)
        [.Insert 1 0 10, .Insert 1 2 12, .Insert 3 6 16]) (by rfl) 0 10 (by decide)
      (by rfl)⟩

/-- C24: in every table reached from the constructor by calls of Insert and Remove
that return, Remove(key) returns; it returns true exactly when Find reported the key
before the call; after the call Find does not report the key, every other key is
reported as before, and the global depth, the number of buckets, the directory and the
local depth behind every slot are unchanged. -/
theorem remove_erases_only_its_key {V : Type} (bucket_size : Nat)
    (calls : List (TableCall V)) (t : ExtendibleHashTable V)
    (hreach : runTable (ExtendibleHashTable.new bucket_size) calls = .ok t) (key : Int) :
    ∃ t2 r, t.Remove key = .ok (t2, r) ∧
      (r = true ↔ ∃ v, t.Find key = .ok (some v)) ∧
      t2.Find key = .ok none ∧
      (∀ k, k ≠ key → t2.Find k = t.Find k) ∧
      t2.GetGlobalDepth = t.GetGlobalDepth ∧ t2.GetNumBuckets = t.GetNumBuckets ∧
      (∀ j, t2.GetLocalDepth j = t.GetLocalDepth j) := by
  have hwf := (reachable_WF bucket_size calls t hreach).1
  obtain ⟨t2, r, h1, _, _, h2, h3, h4, h5, h6, _, h7⟩ := Remove_spec t key hwf
  exact ⟨t2, r, h1, h2, h3, h4, h5, h6, h7⟩

/-- Witness of C24: bucket_size 2, after Insert(0, 10) and Insert(2, 12), the call
Remove(0). -/
theorem remove_erases_only_its_key_witness :
    runTable (ExtendibleHashTable.new 2) [.Insert 1 0 10, .Insert 1 2 12] =
        .ok (afterTableCalls (ExtendibleHashTable.new 2 : ExtendibleHashTable Nat)
          [.Insert 1 0 10, .Insert 1 2 12]) ∧
      ∃ t2 r, (afterTableCalls (ExtendibleHashTable.new 2 : ExtendibleHashTable Nat)
          [.Insert 1 0 10, .Insert 1 2 12]).Remove 0 = .ok (t2, r) ∧
        (r = true ↔ ∃ v, (afterTableCalls (ExtendibleHashTable.new 2 : ExtendibleHashTable Nat)
          [.Insert 1 0 10, .Insert 1 2 12]).Find 0 = .ok (some v)) ∧
        t2.Find 0 = .ok none ∧
        (∀ k, k ≠ 0 → t2.Find k =
          (afterTableCalls (ExtendibleHashTable.new 2 : ExtendibleHashTable Nat)
            [.Insert 1 0 10, .Insert 1 2 12]).Find k) ∧
        t2.GetGlobalDepth = (afterTableCalls (ExtendibleHashTable.new 2 : ExtendibleHashTable Nat)
          [.Insert 1 0 10, .Insert 1 2 12]).GetGlobalDepth ∧
        t2.GetNumBuckets = (afterTableCalls (ExtendibleHashTable.new 2 : ExtendibleHashTable Nat)
          [.Insert 1 0 10, .Insert 1 2 12]).GetNumBuckets ∧
        (∀ j, t2.GetLocalDepth j =
          (afterTableCalls (ExtendibleHashTable.new 2 : ExtendibleHashTable Nat)
            [.Insert 1 0 10, .Insert 1 2 12]).GetLocalDepth j) :=
  ⟨rfl, remove_erases_only_its_key 2 [.Insert 1 0 10, .Insert 1 2 12]
    (afterTableCalls (ExtendibleHashTable.new 2 : ExtendibleHashTable Nat)
      [.Insert 1 0 10, .Insert 1 2 12]) (by rfl) 0⟩

/-- C25: every table reached from the constructor by calls of Insert and Remove that
return has a directory of `2 ^ global_depth` slots; every slot holds a bucket whose
local depth is at most the global depth; two slots hold the same bucket exactly when
they agree on the low local-depth bits; the hash of every key stored in the bucket
behind slot i agrees with i on the low local-depth bits; and for every key IndexOf
returns a slot inside the directory, whose bucket is the only one that can hold the
key. -/
theorem reachable_table_shape {V : Type} (bucket_size : Nat)
    (calls : List (TableCall V)) (t : ExtendibleHashTable V)
    (hreach : runTable (ExtendibleHashTable.new bucket_size) calls = .ok t) :
    t.dir_.length = 2 ^ t.GetGlobalDepth ∧
      (∀ i, i < t.dir_.length → ∃ d, t.GetLocalDepth i = some d ∧ d ≤ t.GetGlobalDepth) ∧
      (∀ i j d, i < t.dir_.length → j < t.dir_.length → t.GetLocalDepth i = some d →
        (t.dir_[i]? = t.dir_[j]? ↔ i % 2 ^ d = j % 2 ^ d)) ∧
      (∀ i h b, t.bucketAt i = some (h, b) → ∀ p ∈ b.list_,
        hashKey p.1 % 2 ^ b.depth_ = i % 2 ^ b.depth_) ∧
      (∀ key, ∃ i h b, t.IndexOf key = .ok i ∧ i < t.dir_.length ∧
        t.bucketAt i = some (h, b) ∧
        ∀ j hj bj, t.bucketAt j = some (hj, bj) → (∃ v, (key, v) ∈ bj.list_) → hj = h) := by
  have hwf := (reachable_WF bucket_size calls t hreach).1
  refine ⟨hwf.dir_length, ?_, ?_, hwf.key_slot, ?_⟩
  · intro i hi
    obtain ⟨h, b, hb⟩ := hwf.slot_bucket i hi
    refine ⟨b.depth_, ?_, hwf.local_le _ _ _ hb⟩
    simp only [GetLocalDepth, hb]
  · intro i j d hi hj hd
    obtain ⟨h, b, hb⟩ := hwf.slot_bucket i hi
    simp only [GetLocalDepth, hb, Option.some.injEq] at hd
    subst hd
    have hdi := ((bucketAt_eq_some _ _ _ _).1 hb).1
    rw [hdi]
    constructor
    · intro he
      exact ((hwf.same_bucket _ _ _ hb j hj).1 he.symm).symm
    · intro he
      exact ((hwf.same_bucket _ _ _ hb j hj).2 he.symm).symm
  · intro key
    obtain ⟨h, b, hb⟩ := key_bucket t hwf key
    have hil : hashKey key % 2 ^ t.global_depth_ < t.dir_.length :=
      getElem_lt_of_some _ _ _ ((bucketAt_eq_some _ _ _ _).1 hb).1
    refine ⟨_, h, b, IndexOf_ok t hwf.depth_bound key, hil, hb, ?_⟩
    intro j hj bj hbj hmem
    obtain ⟨v, hv⟩ := hmem
    have h1 := hwf.key_slot _ _ _ hbj (key, v) hv
    have h2 := (hwf.same_bucket _ _ _ hbj _ hil).2
      (by rw [mod_pow_mod_pow _ _ _ (hwf.local_le _ _ _ hbj)]; exact h1)
    rw [((bucketAt_eq_some _ _ _ _).1 hb).1] at h2
    exact (Option.some.inj h2).symm

/-- Witness of C25: the table after Insert of the keys 0, 2, 6, 4 with bucket_size 2,
which has global depth 2 and three buckets. -/
theorem reachable_table_shape_witness :
    runTable (ExtendibleHashTable.new 2)
        [.Insert 3 0 10, .Insert 3 2 12, .Insert 3 6 16, .Insert 3 4 14] =
        .ok (afterTableCalls (ExtendibleHashTable.new 2 : ExtendibleHashTable Nat)
          [.Insert 3 0 10, .Insert 3 2 12, .Insert 3 6 16, .Insert 3 4 14]) ∧
      (afterTableCalls (ExtendibleHashTable.new 2 : ExtendibleHashTable Nat)
        [.Insert 3 0 10, .Insert 3 2 12, .Insert 3 6 16, .Insert 3 4 14]).dir_.length =
        2 ^ (afterTableCalls (ExtendibleHashTable.new 2 : ExtendibleHashTable Nat)
          [.Insert 3 0 10, .Insert 3 2 12, .Insert 3 6 16, .Insert 3 4 14]).GetGlobalDepth ∧
      (∀ i h b, (afterTableCalls (ExtendibleHashTable.new 2 : ExtendibleHashTable Nat)
          [.Insert 3 0 10, .Insert 3 2 12, .Insert 3 6 16, .Insert 3 4 14]).bucketAt i =
            some (h, b) →
        ∀ p ∈ b.list_, hashKey p.1 % 2 ^ b.depth_ = i % 2 ^ b.depth_) :=
  ⟨rfl,
    (reachable_table_shape 2 [.Insert 3 0 10, .Insert 3 2 12, .Insert 3 6 16, .Insert 3 4 14]
      (afterTableCalls (ExtendibleHashTable.new 2 : ExtendibleHashTable Nat)
        [.Insert 3 0 10, .Insert 3 2 12, .Insert 3 6 16, .Insert 3 4 14]) (by rfl)).1,
    (reachable_table_shape 2 [.Insert 3 0 10, .Insert 3 2 12, .Insert 3 6 16, .Insert 3 4 14]
      (afterTableCalls (ExtendibleHashTable.new 2 : ExtendibleHashTable Nat)
        [.Insert 3 0 10, .Insert 3 2 12, .Insert 3 6 16, .Insert 3 4 14]) (by rfl)).2.2.2.1⟩

theorem four_keys_step1 {V : Type} (n : Nat) (a : Int) (va : V) :
    (ExtendibleHashTable.new 2).Insert (n + 1) a va =
      .ok { global_depth_ := 0, bucket_size_ := 2, num_buckets_ := 1, dir_ := [0],
            store_ := [{ size_ := 2, depth_ := 0, list_ := [(a, va)] }] } := by
  simp [ExtendibleHashTable.Insert, growLoop, IndexOf, bucketAt, ExtendibleHashTable.new, Bucket.IsFull,
    Bucket.Insert, Nat.mod_one]

theorem four_keys_step2 {V : Type} (n : Nat) (a b : Int) (va vb : V) (hab : a ≠ b) :
    ({ global_depth_ := 0, bucket_size_ := 2, num_buckets_ := 1, dir_ := [0],
       store_ := [{ size_ := 2, depth_ := 0, list_ := [(a, va)] }] } :
      ExtendibleHashTable V).Insert (n + 1) b vb =
      .ok { global_depth_ := 0, bucket_size_ := 2, num_buckets_ := 1, dir_ := [0],
            store_ := [{ size_ := 2, depth_ := 0, list_ := [(a, va), (b, vb)] }] } := by
  simp [ExtendibleHashTable.Insert, growLoop, IndexOf, bucketAt, Bucket.IsFull, Bucket.Insert, Nat.mod_one, hab]

theorem four_keys_step3 {V : Type} (n : Nat) (a b c : Int) (va vb vc : V)
    (ha : hashKey a % 4 = 0) (hb : hashKey b % 4 = 2) (hc : hashKey c % 4 = 2) (hbc : b ≠ c) :
    ({ global_depth_ := 0, bucket_size_ := 2, num_buckets_ := 1, dir_ := [0],
       store_ := [{ size_ := 2, depth_ := 0, list_ := [(a, va), (b, vb)] }] } :
      ExtendibleHashTable V).Insert (n + 3) c vc =
      .ok { global_depth_ := 2, bucket_size_ := 2, num_buckets_ := 3, dir_ := [3, 2, 4, 2],
            store_ := [{ size_ := 2, depth_ := 0, list_ := [(a, va), (b, vb)] },
                       { size_ := 2, depth_ := 1, list_ := [(a, va), (b, vb)] },
                       { size_ := 2, depth_ := 1, list_ := [] },
                       { size_ := 2, depth_ := 2, list_ := [(a, va)] },
                       { size_ := 2, depth_ := 2, list_ := [(b, vb), (c, vc)] }] } := by
  have a1 : hashKey a % 2 = 0 := by omega
  have a2 : hashKey a / 2 % 2 = 0 := by omega
  have b1 : hashKey b % 2 = 0 := by omega
  have b2 : hashKey b / 2 % 2 = 1 := by omega
  have c1 : hashKey c % 2 = 0 := by omega
  have hab : a ≠ b := by intro h; rw [h] at ha; omega
  simp [ExtendibleHashTable.Insert, growLoop, IndexOf, bucketAt, Bucket.IsFull, Bucket.Insert, Nat.mod_one,
    splitBucket, redistribute, a1, a2, b1, b2, c1, hc, hab, hbc, List.range_succ]

theorem four_keys_step4 {V : Type} (n : Nat) (a b c d : Int) (va vb vc vd : V)
    (hd : hashKey d % 4 = 0) (had : a ≠ d) :
    ({ global_depth_ := 2, bucket_size_ := 2, num_buckets_ := 3, dir_ := [3, 2, 4, 2],
       store_ := [{ size_ := 2, depth_ := 0, list_ := [(a, va), (b, vb)] },
                  { size_ := 2, depth_ := 1, list_ := [(a, va), (b, vb)] },
                  { size_ := 2, depth_ := 1, list_ := [] },
                  { size_ := 2, depth_ := 2, list_ := [(a, va)] },
                  { size_ := 2, depth_ := 2, list_ := [(b, vb), (c, vc)] }] } :
      ExtendibleHashTable V).Insert (n + 1) d vd =
      .ok { global_depth_ := 2, bucket_size_ := 2, num_buckets_ := 3, dir_ := [3, 2, 4, 2],
            store_ := [{ size_ := 2, depth_ := 0, list_ := [(a, va), (b, vb)] },
                       { size_ := 2, depth_ := 1, list_ := [(a, va), (b, vb)] },
                       { size_ := 2, depth_ := 1, list_ := [] },
                       { size_ := 2, depth_ := 2, list_ := [(a, va), (d, vd)] },
                       { size_ := 2, depth_ := 2, list_ := [(b, vb), (c, vc)] }] } := by
  simp [ExtendibleHashTable.Insert, growLoop, IndexOf, bucketAt, Bucket.IsFull, Bucket.Insert,
    hd, had]

/-- C27: with bucket_size 2 and the identity hash, inserting into an empty table four
keys a, b, c, d whose hashes end in the bits 00, 10, 10, 00, with b and c distinct and
a and d distinct (the other pairs differ by their bits), each with a budget of at least
3 rounds of the loop, returns a table with global depth 2 and 3 buckets in which Find
reports each of the four keys with the value inserted for it. -/
theorem four_keys_split_twice {V : Type} (n : Nat) (a b c d : Int) (va vb vc vd : V)
    (ha : hashKey a % 4 = 0) (hb : hashKey b % 4 = 2) (hc : hashKey c % 4 = 2)
    (hd : hashKey d % 4 = 0) (hbc : b ≠ c) (had : a ≠ d) :
    ∃ t, runTable (ExtendibleHashTable.new 2)
        [.Insert (n + 3) a va, .Insert (n + 3) b vb, .Insert (n + 3) c vc,
         .Insert (n + 3) d vd] = .ok t ∧
      t.GetGlobalDepth = 2 ∧ t.GetNumBuckets = 3 ∧
      t.Find a = .ok (some va) ∧ t.Find b = .ok (some vb) ∧
      t.Find c = .ok (some vc) ∧ t.Find d = .ok (some vd) := by
  have hab : a ≠ b := by intro h; rw [h] at ha; omega
  have hcb : c ≠ b := fun h => hbc h.symm
  have hda : d ≠ a := fun h => had h.symm
  refine ⟨{ global_depth_ := 2, bucket_size_ := 2, num_buckets_ := 3, dir_ := [3, 2, 4, 2],
            store_ := [{ size_ := 2, depth_ := 0, list_ := [(a, va), (b, vb)] },
                       { size_ := 2, depth_ := 1, list_ := [(a, va), (b, vb)] },
                       { size_ := 2, depth_ := 1, list_ := [] },
                       { size_ := 2, depth_ := 2, list_ := [(a, va), (d, vd)] },
                       { size_ := 2, depth_ := 2, list_ := [(b, vb), (c, vc)] }] }, ?_, ?_⟩
  · simp only [runTable, TableCall.apply]
    rw [four_keys_step1 (n + 2) a va]
    simp only
    rw [four_keys_step2 (n + 2) a b va vb hab]
    simp only
    rw [four_keys_step3 n a b c va vb vc ha hb hc hbc]
    simp only
    rw [four_keys_step4 (n + 2) a b c d va vb vc vd hd had]
  · simp [GetGlobalDepth, GetNumBuckets, Find, IndexOf, bucketAt, Bucket.Find, ha, hb, hc, hd,
      List.find?_cons, hcb, hda, hbc, had]

/-- Witness of C27 at the keys 0, 2, 6, 4. -/
theorem four_keys_split_twice_witness :
    ∃ t : ExtendibleHashTable Nat, runTable (ExtendibleHashTable.new 2)
        [.Insert 3 0 10, .Insert 3 2 12, .Insert 3 6 16, .Insert 3 4 14] = .ok t ∧
      t.GetGlobalDepth = 2 ∧ t.GetNumBuckets = 3 ∧
      t.Find 0 = .ok (some 10) ∧ t.Find 2 = .ok (some 12) ∧
      t.Find 6 = .ok (some 16) ∧ t.Find 4 = .ok (some 14) :=
  four_keys_split_twice 0 0 2 6 4 10 12 16 14 (by decide) (by decide) (by decide) (by decide)
    (by decide) (by decide)

/-! ## B+Tree: the trees the code reaches, and calls on pages with an initialised header -/

theorem call_on_one_key_tree_fails (leaf_max_size internal_max_size key value : Int)
    (c : TreeCall) :
    ∃ e, c.apply (BPlusTree.afterInsert 1 (BPlusTree.new leaf_max_size internal_max_size)
      key value) = .error e := by
  cases c with
  | Insert fuel k v =>
    cases fuel with
    | zero => exact ⟨.diverged, rfl⟩
    | succ n => exact ⟨.undefined, rfl⟩
  | Remove fuel k =>
    cases fuel with
    | zero => exact ⟨.diverged, rfl⟩
    | succ n => exact ⟨.undefined, rfl⟩

theorem runTree_from_one_key (leaf_max_size internal_max_size key value : Int)
    (calls : List TreeCall) (t : BPlusTree)
    (h : runTree (BPlusTree.afterInsert 1 (BPlusTree.new leaf_max_size internal_max_size)
      key value) calls = .ok t) :
    t = BPlusTree.afterInsert 1 (BPlusTree.new leaf_max_size internal_max_size) key value := by
  cases calls with
  | nil =>
    simp only [runTree, Except.ok.injEq] at h
    exact h.symm
  | cons c rest =>
    obtain ⟨e, he⟩ := call_on_one_key_tree_fails leaf_max_size internal_max_size key value c
    simp [runTree, he] at h

theorem reachable_tree_cases (leaf_max_size internal_max_size : Int)
    (calls : List TreeCall) (t : BPlusTree)
    (h : runTree (BPlusTree.new leaf_max_size internal_max_size) calls = .ok t) :
    t = BPlusTree.new leaf_max_size internal_max_size ∨
      ∃ key value,
        t = BPlusTree.afterInsert 1 (BPlusTree.new leaf_max_size internal_max_size) key value := by
  induction calls with
  | nil =>
    simp only [runTree, Except.ok.injEq] at h
    exact Or.inl h.symm
  | cons c rest ih =>
    cases c with
    | Insert fuel k v =>
      have hc : (TreeCall.Insert fuel k v).apply (BPlusTree.new leaf_max_size internal_max_size) =
          .ok (BPlusTree.afterInsert 1 (BPlusTree.new leaf_max_size internal_max_size) k v) := rfl
      simp only [runTree, hc] at h
      exact Or.inr ⟨k, v, runTree_from_one_key _ _ _ _ rest t h⟩
    | Remove fuel k =>
      have hc : (TreeCall.Remove fuel k).apply (BPlusTree.new leaf_max_size internal_max_size) =
          .ok (BPlusTree.new leaf_max_size internal_max_size) := rfl
      simp only [runTree, hc] at h
      exact ih h

/-- C29: with leaf and internal maximum size 4, Insert(1, 10) on the empty tree returns
true, and the following Insert(2, 20) has no result for any iteration budget, so the
sequence 1, 2, 3, 4, 5 of the claim cannot be run.  On a root leaf with an initialised
header that holds 1, 2, 3, Insert(4, 40) does split the leaf ([1, 2] stays, the new
page 2 receives [3, 4]), but the body of the leaf `Init` is empty: the new page keeps
page id 0 and maximum size 0 in its header, so the new root, page 3, receives the
slots [(_, 1), (3, 0)], with child 0 where page 2 belongs, and the left leaf gets 0 as
its next page id. -/
theorem leaf_split_pushes_page_zero :
    (BPlusTree.Insert 1 (BPlusTree.new 4 4) 1 10).map Prod.snd = .ok true ∧
    (∀ fuel : Nat,
      (BPlusTree.Insert (fuel + 1) (BPlusTree.afterInsert 1 (BPlusTree.new 4 4) 1 10) 2 20).map
        Prod.snd = .error .undefined) ∧
    (BPlusTree.Insert 3
      (BPlusTree.ofPages 1 4 4
        [leafPage 1 INVALID_PAGE_ID 4 INVALID_PAGE_ID [(1, 10), (2, 20), (3, 30)]]) 4 40).map
      (fun r => (r.2, r.1.root_page_id_,
        (r.1.buffer_pool_manager_.pages 3).internalArray,
        (r.1.buffer_pool_manager_.pages 2).page_id_,
        (r.1.buffer_pool_manager_.pages 2).max_size_,
        (r.1.buffer_pool_manager_.pages 2).leafArray,
        (r.1.buffer_pool_manager_.pages 1).size_,
        (r.1.buffer_pool_manager_.pages 1).nextField)) =
      .ok (true, 3, .ok [(0, 1), (3, 0)], 0, 0, .ok [(3, 30), (4, 40)], 2, .ok 0) := by
  refine ⟨rfl, ?_, rfl⟩
  intro fuel; rfl

/-- C30: on a tree whose root, page 1, is a leaf with an initialised header holding
(1, 100), no page pinned: GetValue(1) returns true with [100] and GetValue(7) returns
false, and both leave page 1 with pin count 1, because `GetValue` never unpins the
leaf that `FindLeaf` returned.  Remove(1) on a root leaf holding 1, 2, 3 returns and
leaves page 1 with pin count 1: only the exit for a missing key unpins the leaf.
Insert of a second key and Insert of the key already present do return page 1 with
pin count 0. -/
theorem getValue_leaves_leaf_pinned :
    (BPlusTree.ofPages 1 4 4
      [leafPage 1 INVALID_PAGE_ID 4 INVALID_PAGE_ID [(1, 100)]]).buffer_pool_manager_.pins 1
      = 0 ∧
    (∀ fuel : Nat, (BPlusTree.GetValue (fuel + 1)
      (BPlusTree.ofPages 1 4 4 [leafPage 1 INVALID_PAGE_ID 4 INVALID_PAGE_ID [(1, 100)]]) 1).map
      (fun r => (r.2.1, r.2.2, r.1.buffer_pool_manager_.pins 1)) = .ok (true, [100], 1)) ∧
    (∀ fuel : Nat, (BPlusTree.GetValue (fuel + 1)
      (BPlusTree.ofPages 1 4 4 [leafPage 1 INVALID_PAGE_ID 4 INVALID_PAGE_ID [(1, 100)]]) 7).map
      (fun r => (r.2.1, r.2.2, r.1.buffer_pool_manager_.pins 1)) = .ok (false, [], 1)) ∧
    (∀ fuel : Nat, (BPlusTree.Remove (fuel + 1)
      (BPlusTree.ofPages 1 4 4
        [leafPage 1 INVALID_PAGE_ID 4 INVALID_PAGE_ID [(1, 10), (2, 20), (3, 30)]]) 1).map
      (fun t => ((t.buffer_pool_manager_.pages 1).size_, t.buffer_pool_manager_.pins 1)) =
        .ok (2, 1)) ∧
    (∀ fuel : Nat, (BPlusTree.Insert (fuel + 1)
      (BPlusTree.ofPages 1 4 4 [leafPage 1 INVALID_PAGE_ID 4 INVALID_PAGE_ID [(1, 100)]])
      2 200).map (fun r => (r.2, r.1.buffer_pool_manager_.pins 1)) = .ok (true, 0)) ∧
    (∀ fuel : Nat, (BPlusTree.Insert (fuel + 1)
      (BPlusTree.ofPages 1 4 4 [leafPage 1 INVALID_PAGE_ID 4 INVALID_PAGE_ID [(1, 100)]])
      1 200).map (fun r => (r.2, r.1.buffer_pool_manager_.pins 1)) = .ok (false, 0)) := by
  refine ⟨rfl, ?_, ?_, ?_, ?_, ?_⟩ <;> (intro fuel; rfl)

end Bustub

namespace Bustub

/-! ## Trie: what `Insert`, `GetValue` and `Remove` do on the tries that calls build -/

namespace TrieNode

variable {V : Type}

theorem eta (n : TrieNode V) : mk n.key_char_ n.is_end_ n.value_ n.children_ = n := by
  cases n; rfl

theorem find_assign_same (cs : List (Char × TrieNode V)) (c : Char) (x : TrieNode V) :
    find (assign cs c x) c = some x := by
  induction cs with
  | nil => simp [assign, find]
  | cons e rest ih =>
    by_cases h : e.1 = c
    · simp [assign, find, h]
    · simp [assign, find, h, ih]

theorem find_assign_other (cs : List (Char × TrieNode V)) (c c' : Char) (x : TrieNode V)
    (h : c' ≠ c) : find (assign cs c x) c' = find cs c' := by
  induction cs with
  | nil => simp [assign, find, Ne.symm h]
  | cons e rest ih =>
    obtain ⟨a, b⟩ := e
    by_cases h1 : a = c
    · subst h1
      simp only [assign, find, if_true, if_neg (Ne.symm h)]
    · by_cases h2 : a = c'
      · subst h2
        simp only [assign, find, if_neg h1, if_true]
      · simp only [assign, find, if_neg h1, if_neg h2, ih]

theorem assign_find_self (cs : List (Char × TrieNode V)) (c : Char) (x : TrieNode V)
    (h : find cs c = some x) : assign cs c x = cs := by
  induction cs with
  | nil => simp [find] at h
  | cons e rest ih =>
    by_cases h1 : e.1 = c
    · simp only [find, h1, if_true, Option.some.injEq] at h
      simp only [assign, h1, if_true]
      rw [← h, ← h1]
    · simp only [find, h1, if_false] at h
      simp only [assign, h1, if_false, ih h]

theorem assign_assign (cs : List (Char × TrieNode V)) (c : Char) (x y : TrieNode V) :
    assign (assign cs c x) c y = assign cs c y := by
  induction cs with
  | nil => simp [assign]
  | cons e rest ih =>
    by_cases h1 : e.1 = c
    · simp [assign, h1]
    · simp [assign, h1, ih]

theorem assign_ne_nil (cs : List (Char × TrieNode V)) (c : Char) (x : TrieNode V) :
    assign cs c x ≠ [] := by
  cases cs with
  | nil => simp [assign]
  | cons e rest =>
    by_cases h1 : e.1 = c
    · simp [assign, h1]
    · simp [assign, h1]

theorem mem_assign (cs : List (Char × TrieNode V)) (c : Char) (x : TrieNode V)
    (y : Char × TrieNode V) (h : y ∈ assign cs c x) : y = (c, x) ∨ y ∈ cs := by
  induction cs with
  | nil => simp [assign] at h; exact Or.inl h
  | cons e rest ih =>
    by_cases h1 : e.1 = c
    · simp only [assign, h1, if_true, List.mem_cons] at h
      rcases h with h | h
      · exact Or.inl h
      · exact Or.inr (List.mem_cons_of_mem _ h)
    · simp only [assign, h1, if_false, List.mem_cons] at h
      rcases h with h | h
      · exact Or.inr (h ▸ List.mem_cons_self _ _)
      · rcases ih h with h2 | h2
        · exact Or.inl h2
        · exact Or.inr (List.mem_cons_of_mem _ h2)

theorem find_mem (cs : List (Char × TrieNode V)) (c : Char) (x : TrieNode V)
    (h : find cs c = some x) : (c, x) ∈ cs := by
  induction cs with
  | nil => simp [find] at h
  | cons e rest ih =>
    by_cases h1 : e.1 = c
    · simp only [find, h1, if_true, Option.some.injEq] at h
      have : e = (c, x) := by rw [← h, ← h1]
      rw [this]; exact List.mem_cons_self _ _
    · simp only [find, h1, if_false] at h
      exact List.mem_cons_of_mem _ (ih h)

theorem find_filter_same (cs : List (Char × TrieNode V)) (c : Char) :
    find (cs.filter (fun e => !decide (e.1 = c))) c = none := by
  induction cs with
  | nil => simp [find]
  | cons e rest ih =>
    by_cases h1 : e.1 = c
    · simp only [List.filter_cons, h1, decide_True, Bool.not_true, ih]
      simpa using ih
    · simp only [List.filter_cons, h1, decide_False, Bool.not_false, if_true, find, if_false, ih]

theorem find_filter_other (cs : List (Char × TrieNode V)) (c c' : Char) (h : c' ≠ c) :
    find (cs.filter (fun e => !decide (e.1 = c))) c' = find cs c' := by
  induction cs with
  | nil => simp [find]
  | cons e rest ih =>
    obtain ⟨a, b⟩ := e
    by_cases h1 : a = c
    · subst h1
      simp only [List.filter_cons, decide_True, Bool.not_true, find, if_neg (Ne.symm h)]
      simpa using ih
    · by_cases h2 : a = c'
      · subst h2
        simp only [List.filter_cons, h1, decide_False, Bool.not_false, if_true, find]
      · simp only [List.filter_cons, h1, decide_False, Bool.not_false, if_true, find,
          if_neg h2, ih]

theorem GetChildNode_eq (n : TrieNode V) (c : Char) : n.GetChildNode c = find n.children_ c := by
  unfold GetChildNode HasChild
  cases h : find n.children_ c <;> simp

@[simp] theorem setChild_is_end (n : TrieNode V) (c : Char) (x : TrieNode V) :
    (n.setChild c x).is_end_ = n.is_end_ := rfl

@[simp] theorem setChild_value (n : TrieNode V) (c : Char) (x : TrieNode V) :
    (n.setChild c x).value_ = n.value_ := rfl

@[simp] theorem setChild_children (n : TrieNode V) (c : Char) (x : TrieNode V) :
    (n.setChild c x).children_ = assign n.children_ c x := rfl

theorem setChild_setChild (n : TrieNode V) (c : Char) (x y : TrieNode V) :
    (n.setChild c x).setChild c y = n.setChild c y := by
  simp only [setChild, key_char_, is_end_, value_, children_, assign_assign]

theorem setChild_self (n : TrieNode V) (c : Char) (x : TrieNode V)
    (h : find n.children_ c = some x) : n.setChild c x = n := by
  simp only [setChild, assign_find_self _ _ _ h, eta]

theorem setChild_HasChildren (n : TrieNode V) (c : Char) (x : TrieNode V) :
    (n.setChild c x).HasChildren = true := by
  simp only [HasChildren, setChild_children]
  cases h : assign n.children_ c x with
  | nil => exact absurd h (assign_ne_nil _ _ _)
  | cons _ _ => rfl

end TrieNode

namespace Trie

open TrieNode

variable {V : Type}

theorem getLast_congr [Inhabited V] (x y : TrieNode V) (h1 : x.is_end_ = y.is_end_)
    (h2 : x.value_ = y.value_) : getLast x = getLast y := by
  simp only [getLast, IsEndNode, h1, h2]

theorem getLoop_cons [Inhabited V] (c : Char) (rest : List Char) (n : TrieNode V) :
    getLoop (c :: rest) n =
      match find n.children_ c with
      | none => .ok (default, false)
      | some child => if rest.isEmpty then getLast child else getLoop rest child := by
  simp only [getLoop, GetChildNode_eq]

theorem getLoop_congr_children [Inhabited V] (key : List Char) (x y : TrieNode V)
    (h : x.children_ = y.children_) : getLoop key x = getLoop key y := by
  cases key with
  | nil => rfl
  | cons c rest => simp only [getLoop_cons, h]

theorem getLoop_no_children [Inhabited V] (key : List Char) (x : TrieNode V)
    (h : x.children_ = []) : getLoop key x = .ok (default, false) := by
  cases key with
  | nil => rfl
  | cons c rest => simp only [getLoop_cons, h, find]

theorem getLoop_setChild_other [Inhabited V] (c c' : Char) (rest : List Char)
    (n x : TrieNode V) (h : c' ≠ c) :
    getLoop (c' :: rest) (n.setChild c x) = getLoop (c' :: rest) n := by
  simp only [getLoop_cons, setChild_children, find_assign_other _ _ _ _ h]

theorem getLoop_setChild_same [Inhabited V] (c : Char) (rest : List Char)
    (n x : TrieNode V) :
    getLoop (c :: rest) (n.setChild c x) =
      if rest.isEmpty then getLast x else getLoop rest x := by
  simp only [getLoop_cons, setChild_children, find_assign_same]

theorem HasChildren_of_find (n x : TrieNode V) (c : Char) (h : find n.children_ c = some x) :
    n.HasChildren = true := by
  unfold HasChildren
  cases h1 : n.children_ with
  | nil => rw [h1] at h; simp [find] at h
  | cons _ _ => rfl

theorem no_children_of_not_HasChildren (n : TrieNode V) (h : n.HasChildren = false) :
    n.children_ = [] := by
  unfold HasChildren at h
  cases h1 : n.children_ with
  | nil => rfl
  | cons _ _ => rw [h1] at h; simp at h

theorem Sound_new (c : Char) : (TrieNode.new c : TrieNode V).Sound :=
  TrieNode.Sound.mk c false none [] (by simp) (by simp) (by simp)

theorem Sound_end_value (n : TrieNode V) (h : n.Sound) (he : n.is_end_ = true) :
    ∃ v, n.value_ = some v := by
  cases h with
  | mk c e v cs h1 h2 h3 =>
    have := h1 he
    exact Option.isSome_iff_exists.1 this

theorem Sound_child (n : TrieNode V) (h : n.Sound) (x : Char × TrieNode V)
    (hx : x ∈ n.children_) : x.2.Sound ∧ (x.2.HasChildren = true ∨ x.2.is_end_ = true) := by
  cases h with
  | mk c e v cs h1 h2 h3 => exact ⟨h3 x hx, h2 x hx⟩

theorem Sound_intro (n : TrieNode V) (h1 : n.is_end_ = true → n.value_.isSome = true)
    (h2 : ∀ x ∈ n.children_, x.2.HasChildren = true ∨ x.2.is_end_ = true)
    (h3 : ∀ x ∈ n.children_, x.2.Sound) : n.Sound := by
  cases n with
  | mk c e v cs => exact TrieNode.Sound.mk c e v cs h1 h2 h3

theorem Sound_setChild (n x : TrieNode V) (c : Char) (hn : n.Sound) (hx : x.Sound)
    (hx2 : x.HasChildren = true ∨ x.is_end_ = true) : (n.setChild c x).Sound := by
  apply Sound_intro
  · intro he
    obtain ⟨v, hv⟩ := Sound_end_value n hn he
    simp [hv]
  · intro y hy
    rcases mem_assign _ _ _ _ hy with h | h
    · rw [h]; exact hx2
    · exact (Sound_child n hn y h).2
  · intro y hy
    rcases mem_assign _ _ _ _ hy with h | h
    · rw [h]; exact hx
    · exact (Sound_child n hn y h).1

theorem getLast_of_end [Inhabited V] (n : TrieNode V) (h : n.Sound) (he : n.is_end_ = true) :
    ∃ v, getLast n = .ok (v, true) := by
  obtain ⟨v, hv⟩ := Sound_end_value n h he
  exact ⟨v, by simp [getLast, IsEndNode, he, hv]⟩

theorem getLast_of_not_end [Inhabited V] (n : TrieNode V) (he : n.is_end_ = false) :
    getLast n = .ok (default, false) := by
  simp [getLast, IsEndNode, he]

theorem insertLoop_cons (v : V) (c : Char) (rest : List Char) (n : TrieNode V) :
    insertLoop v (c :: rest) n =
      if rest.isEmpty then
        (if ((find n.children_ c).getD (TrieNode.new c)).is_end_ = true then .ok (n, false)
         else .ok (n.setChild c
           (TrieNodeWithValue.ofNode ((find n.children_ c).getD (TrieNode.new c)) v), true))
      else
        match insertLoop v rest ((find n.children_ c).getD (TrieNode.new c)) with
        | .error e => .error e
        | .ok (child1, r) => .ok (n.setChild c child1, r) := by
  cases h : find n.children_ c with
  | none =>
    have h1 : n.HasChild c = false := by simp [HasChild, h]
    have h2 : n.InsertChildNode c (TrieNode.new c) = some (n.setChild c (TrieNode.new c)) := by
      simp [InsertChildNode, h1, TrieNode.new, key_char_]
    have h3 : (n.setChild c (TrieNode.new c)).GetChildNode c = some (TrieNode.new c) := by
      rw [GetChildNode_eq, setChild_children, find_assign_same]
    simp only [insertLoop, h1, h2, h3, Option.getD_none, setChild_setChild, Bool.false_eq_true,
      if_false, IsEndNode]
    have h4 : (TrieNode.new c : TrieNode V).is_end_ = false := rfl
    simp only [h4, Bool.false_eq_true, if_false]
  | some x =>
    have h1 : n.HasChild c = true := by simp [HasChild, h]
    have h3 : n.GetChildNode c = some x := by rw [GetChildNode_eq, h]
    simp only [insertLoop, h1, h3, Option.getD_some, if_true, IsEndNode]

end Trie

namespace Trie

open TrieNode

variable {V : Type}

theorem child0_Sound (n : TrieNode V) (hn : n.Sound) (c : Char) :
    ((find n.children_ c).getD (TrieNode.new c)).Sound := by
  cases h : find n.children_ c with
  | none => exact Sound_new c
  | some x => exact (Sound_child n hn _ (find_mem _ _ _ h)).1

theorem getLoop_setChild_child0 [Inhabited V] (n : TrieNode V) (c : Char) (key : List Char) :
    getLoop key (n.setChild c ((find n.children_ c).getD (TrieNode.new c))) = getLoop key n := by
  cases h : find n.children_ c with
  | some x => rw [Option.getD_some, setChild_self n c x h]
  | none =>
    rw [Option.getD_none]
    cases key with
    | nil => rfl
    | cons c' rest =>
      by_cases hc : c' = c
      · subst hc
        rw [getLoop_setChild_same, getLoop_cons, h]
        by_cases hr : rest.isEmpty = true
        · rw [if_pos hr]; exact getLast_of_not_end _ rfl
        · rw [if_neg hr]; exact getLoop_no_children _ _ rfl
      · exact getLoop_setChild_other c c' rest n _ hc

theorem Sound_ofNode (x : TrieNode V) (hx : x.Sound) (v : V) :
    (TrieNodeWithValue.ofNode x v).Sound := by
  apply Sound_intro
  · intro _; rfl
  · intro y hy; exact (Sound_child x hx y hy).2
  · intro y hy; exact (Sound_child x hx y hy).1

theorem insertLoop_spec [Inhabited V] (v : V) : ∀ (key : List Char) (n : TrieNode V),
    key ≠ [] → n.Sound →
    ∃ n1 r, insertLoop v key n = .ok (n1, r) ∧ n1.Sound ∧ n1.is_end_ = n.is_end_ ∧
      n1.value_ = n.value_ ∧ n1.HasChildren = true ∧
      (r = false ↔ (getLoop key n).map Prod.snd = .ok true) ∧
      (r = false → n1 = n) ∧
      (r = true → getLoop key n1 = .ok (v, true)) ∧
      (∀ key1, key1 ≠ key → getLoop key1 n1 = getLoop key1 n) := by
  intro key
  induction key with
  | nil => intro n h; exact absurd rfl h
  | cons c rest ih =>
    intro n _ hn
    have hc0 := child0_Sound n hn c
    have hg0 := getLoop_setChild_child0 n c
    rw [insertLoop_cons]
    generalize hch : (find n.children_ c).getD (TrieNode.new c) = child0 at hc0 hg0
    by_cases hr : rest.isEmpty = true
    · have hrest : rest = [] := List.isEmpty_iff.1 hr
      subst hrest
      simp only [List.isEmpty_nil, if_true]
      by_cases he : child0.is_end_ = true
      · -- the key is present
        have hfind : find n.children_ c = some child0 := by
          cases h : find n.children_ c with
          | none =>
            rw [h, Option.getD_none] at hch
            rw [← hch] at he
            exact absurd he (by simp [TrieNode.new, is_end_])
          | some x => rw [h, Option.getD_some] at hch; rw [hch]
        obtain ⟨v0, hv0⟩ := getLast_of_end child0 hc0 he
        refine ⟨n, false, by rw [if_pos he], hn, rfl, rfl, HasChildren_of_find n child0 c hfind,
          ?_, fun _ => rfl, fun h => absurd h (by simp), fun _ _ => rfl⟩
        rw [getLoop_cons, hfind]
        simp [hv0, Except.map]
      · -- the key is absent
        have he' : child0.is_end_ = false := by simpa using he
        have hnew : (TrieNodeWithValue.ofNode child0 v).Sound := Sound_ofNode child0 hc0 v
        refine ⟨n.setChild c (TrieNodeWithValue.ofNode child0 v), true, by rw [if_neg he],
          Sound_setChild n _ c hn hnew (Or.inr rfl), rfl, rfl, setChild_HasChildren _ _ _,
          ?_, fun h => absurd h (by simp), fun _ => ?_, ?_⟩
        · constructor
          · intro h; exact absurd h (by simp)
          · intro h
            rw [← hg0, getLoop_setChild_same] at h
            simp [getLast_of_not_end child0 he', Except.map] at h
        · rw [getLoop_setChild_same]
          simp [getLast, IsEndNode, TrieNodeWithValue.ofNode, SetEndNode, is_end_, value_]
        · intro key1 hk1
          rw [← hg0 key1]
          cases key1 with
          | nil => rfl
          | cons c1 rest1 =>
            by_cases hcc : c1 = c
            · subst hcc
              have hr1 : rest1 ≠ [] := fun h => hk1 (by rw [h])
              have hr1' : ¬ rest1.isEmpty = true := fun h => hr1 (List.isEmpty_iff.1 h)
              rw [getLoop_setChild_same, getLoop_setChild_same, if_neg hr1', if_neg hr1']
              exact getLoop_congr_children _ _ _ rfl
            · rw [getLoop_setChild_other _ _ _ _ _ hcc, getLoop_setChild_other _ _ _ _ _ hcc]
    · have hrest : rest ≠ [] := fun h => hr (by rw [h]; rfl)
      obtain ⟨child1, r, hins, hs1, he1, hv1, hh1, hiff, hsame, hget, hother⟩ :=
        ih child0 hrest hc0
      simp only [if_neg hr, hins]
      refine ⟨n.setChild c child1, r, rfl, Sound_setChild n _ c hn hs1 (Or.inl hh1), rfl, rfl,
        setChild_HasChildren _ _ _, ?_, ?_, ?_, ?_⟩
      · rw [hiff, ← hg0, getLoop_setChild_same, if_neg hr]
      · intro hrf
        have h1 := hsame hrf
        rw [h1]
        have h2 := (hiff.1 hrf)
        -- the child existed, since a fresh node holds no key
        cases h : find n.children_ c with
        | none =>
          rw [h, Option.getD_none] at hch
          rw [← hch, getLoop_no_children rest (TrieNode.new c) rfl] at h2
          simp [Except.map] at h2
        | some x =>
          rw [h, Option.getD_some] at hch
          rw [← hch]; exact setChild_self n c x h
      · intro hrt
        rw [getLoop_setChild_same, if_neg hr]
        exact hget hrt
      · intro key1 hk1
        rw [← hg0 key1]
        cases key1 with
        | nil => rfl
        | cons c1 rest1 =>
          by_cases hcc : c1 = c
          · subst hcc
            have hr1 : rest1 ≠ rest := fun h => hk1 (by rw [h])
            rw [getLoop_setChild_same, getLoop_setChild_same]
            by_cases hre : rest1.isEmpty = true
            · rw [if_pos hre, if_pos hre]
              exact getLast_congr _ _ he1 hv1
            · rw [if_neg hre, if_neg hre]
              exact hother rest1 hr1
          · rw [getLoop_setChild_other _ _ _ _ _ hcc, getLoop_setChild_other _ _ _ _ _ hcc]

end Trie

namespace Trie

open TrieNode

variable {V : Type}

theorem Dfs_cons (c : Char) (rest : List Char) (n : TrieNode V) :
    Dfs (c :: rest) n =
      match find n.children_ c with
      | none => (n, false, false)
      | some child =>
        if (Dfs rest child).2.2 = false then (n.setChild c (Dfs rest child).1, false, false)
        else if (Dfs rest child).2.1 = false then
          if (!((n.setChild c (Dfs rest child).1).RemoveChildNode c).HasChildren &&
              !((n.setChild c (Dfs rest child).1).RemoveChildNode c).IsEndNode) = true then
            ((n.setChild c (Dfs rest child).1).RemoveChildNode c, false, true)
          else ((n.setChild c (Dfs rest child).1).RemoveChildNode c, true, true)
        else (n.setChild c (Dfs rest child).1, true, true) := by
  simp only [Dfs, GetChildNode_eq]

theorem Sound_RemoveChildNode (n : TrieNode V) (c : Char) (hn : n.Sound) :
    (n.RemoveChildNode c).Sound := by
  apply Sound_intro
  · intro he
    obtain ⟨v, hv⟩ := Sound_end_value n hn he
    have hv1 : (n.RemoveChildNode c).value_ = n.value_ := rfl
    rw [hv1, hv]; rfl
  · intro y hy
    exact (Sound_child n hn y (List.mem_of_mem_filter hy)).2
  · intro y hy
    exact (Sound_child n hn y (List.mem_of_mem_filter hy)).1

theorem Sound_removed (n x : TrieNode V) (c : Char) (hn : n.Sound) :
    ((n.setChild c x).RemoveChildNode c).Sound := by
  apply Sound_intro
  · intro he
    obtain ⟨v, hv⟩ := Sound_end_value n hn he
    have hv1 : ((n.setChild c x).RemoveChildNode c).value_ = n.value_ := rfl
    rw [hv1, hv]; rfl
  · intro y hy
    have h1 : y ∈ (assign n.children_ c x).filter (fun e => !decide (e.1 = c)) := hy
    rw [List.mem_filter] at h1
    rcases mem_assign _ _ _ _ h1.1 with h | h
    · rw [h] at h1; simp at h1
    · exact (Sound_child n hn y h).2
  · intro y hy
    have h1 : y ∈ (assign n.children_ c x).filter (fun e => !decide (e.1 = c)) := hy
    rw [List.mem_filter] at h1
    rcases mem_assign _ _ _ _ h1.1 with h | h
    · rw [h] at h1; simp at h1
    · exact (Sound_child n hn y h).1

theorem getLoop_removed_same [Inhabited V] (c : Char) (rest : List Char) (n : TrieNode V) :
    getLoop (c :: rest) (n.RemoveChildNode c) = .ok (default, false) := by
  rw [getLoop_cons]
  have : (n.RemoveChildNode c).children_ = n.children_.filter (fun e => !decide (e.1 = c)) := rfl
  rw [this, find_filter_same]

theorem getLoop_removed_other [Inhabited V] (c c1 : Char) (rest : List Char) (n : TrieNode V)
    (h : c1 ≠ c) : getLoop (c1 :: rest) (n.RemoveChildNode c) = getLoop (c1 :: rest) n := by
  rw [getLoop_cons, getLoop_cons]
  have : (n.RemoveChildNode c).children_ = n.children_.filter (fun e => !decide (e.1 = c)) := rfl
  rw [this, find_filter_other _ _ _ h]

/-- What one call of `Dfs` does to a sound subtree. -/
theorem Dfs_spec [Inhabited V] : ∀ (key : List Char) (n : TrieNode V), n.Sound →
    (Dfs key n).1.Sound ∧
    (key ≠ [] → (Dfs key n).1.is_end_ = n.is_end_ ∧ (Dfs key n).1.value_ = n.value_) ∧
    ((Dfs key n).2.2 = true ↔
      (if key.isEmpty then getLast n else getLoop key n).map Prod.snd = .ok true) ∧
    ((Dfs key n).2.2 = false → (Dfs key n).1 = n) ∧
    ((Dfs key n).2.2 = true → (key ≠ [] ∨ (Dfs key n).2.1 = true) →
      (if key.isEmpty then getLast (Dfs key n).1 else getLoop key (Dfs key n).1) =
        .ok (default, false)) ∧
    ((Dfs key n).2.2 = true → (Dfs key n).2.1 = false →
      (Dfs key n).1.HasChildren = false ∧ (key ≠ [] → (Dfs key n).1.is_end_ = false)) ∧
    ((Dfs key n).2.2 = true → ∀ key1, key1 ≠ key →
      getLoop key1 (Dfs key n).1 = getLoop key1 n) ∧
    ((Dfs key n).2.2 = true → (Dfs key n).2.1 = true →
      (Dfs key n).1.HasChildren = true ∨ (Dfs key n).1.is_end_ = true) := by
  intro key
  induction key with
  | nil =>
    intro n hn
    by_cases he : n.is_end_ = true
    · obtain ⟨v0, hv0⟩ := getLast_of_end n hn he
      by_cases hc : n.HasChildren = true
      · have hd : Dfs [] n = (n.SetEndNode false, true, true) := by
          simp [Dfs, IsEndNode, he, hc]
        rw [hd]
        refine ⟨?_, fun h => absurd rfl h, ?_, fun h => absurd h (by simp), ?_,
          fun _ h => absurd h (by simp), ?_, fun _ _ => Or.inl hc⟩
        · apply Sound_intro
          · intro h; exact absurd h (by simp [SetEndNode, is_end_])
          · intro y hy; exact (Sound_child n hn y hy).2
          · intro y hy; exact (Sound_child n hn y hy).1
        · simp [hv0, Except.map]
        · intro _ _
          simp only [List.isEmpty_nil, if_true]
          exact getLast_of_not_end _ rfl
        · intro _ key1 _
          exact getLoop_congr_children _ _ _ rfl
      · have hc' : n.HasChildren = false := by simpa using hc
        have hd : Dfs [] n = (n, false, true) := by
          simp [Dfs, IsEndNode, he, hc']
        rw [hd]
        refine ⟨hn, fun h => absurd rfl h, ?_, fun h => absurd h (by simp), ?_,
          fun _ _ => ⟨hc', fun h => absurd rfl h⟩, fun _ _ _ => rfl,
          fun _ h => absurd h (by simp)⟩
        · simp [hv0, Except.map]
        · intro _ h
          rcases h with h | h
          · exact absurd rfl h
          · exact absurd h (by simp)
    · have he' : n.is_end_ = false := by simpa using he
      have hd : Dfs [] n = (n, false, false) := by
        simp [Dfs, IsEndNode, he']
      rw [hd]
      refine ⟨hn, fun h => absurd rfl h, ?_, fun _ => rfl, fun h => absurd h (by simp),
        fun h => absurd h (by simp), fun h => absurd h (by simp), fun h => absurd h (by simp)⟩
      simp [getLast_of_not_end n he', Except.map]
  | cons c rest ih =>
    intro n hn
    cases hfind : find n.children_ c with
    | none =>
      have hd : Dfs (c :: rest) n = (n, false, false) := by rw [Dfs_cons, hfind]
      rw [hd]
      refine ⟨hn, fun _ => ⟨rfl, rfl⟩, ?_, fun _ => rfl, fun h => absurd h (by simp),
        fun h => absurd h (by simp), fun h => absurd h (by simp), fun h => absurd h (by simp)⟩
      rw [getLoop_cons, hfind]
      simp [Except.map]
    | some child =>
      have hchild := Sound_child n hn _ (find_mem _ _ _ hfind)
      obtain ⟨hs, hkeep, hiff, hsame, hgone, hleaf, hoth, hstay⟩ := ih child hchild.1
      have hiff2 : (if (c :: rest).isEmpty then getLast n else getLoop (c :: rest) n) =
          (if rest.isEmpty then getLast child else getLoop rest child) := by
        simp only [List.isEmpty_cons, Bool.false_eq_true, if_false]
        rw [getLoop_cons, hfind]
      rw [hiff2]
      have hcons := Dfs_cons c rest n
      rw [hfind] at hcons
      rcases hres : Dfs rest child with ⟨child1, node, success⟩
      simp only [hres] at hs hkeep hiff hsame hgone hleaf hoth hstay hcons
      have hif : ∀ (q : TrieNode V), (if (c :: rest).isEmpty then getLast q
          else getLoop (c :: rest) q) = getLoop (c :: rest) q := by
        intro q; simp only [List.isEmpty_cons, Bool.false_eq_true, if_false]
      cases success with
      | false =>
        have hc1 : child1 = child := hsame rfl
        subst hc1
        have hd : Dfs (c :: rest) n = (n, false, false) := by
          rw [hcons, if_pos rfl, setChild_self n c child1 hfind]
        rw [hd]
        refine ⟨hn, fun _ => ⟨rfl, rfl⟩, ?_, fun _ => rfl, fun h => absurd h (by simp),
          fun h => absurd h (by simp), fun h => absurd h (by simp), fun h => absurd h (by simp)⟩
        rw [← hiff]
      | true =>
        have hT := hiff.1 rfl
        -- other keys below the child read the same in `child1` as in `child`
        have hbelow : ∀ rest1, rest1 ≠ rest →
            (if rest1.isEmpty then getLast child1 else getLoop rest1 child1) =
            (if rest1.isEmpty then getLast child else getLoop rest1 child) := by
          intro rest1 h1
          by_cases hre : rest1.isEmpty = true
          · rw [if_pos hre, if_pos hre]
            have hr : rest ≠ [] := by
              intro h; apply h1; rw [h]; exact List.isEmpty_iff.1 hre
            exact getLast_congr _ _ (hkeep hr).1 (hkeep hr).2
          · rw [if_neg hre, if_neg hre]
            exact hoth rfl rest1 h1
        cases node with
        | true =>
          have hd : Dfs (c :: rest) n = (n.setChild c child1, true, true) := by
            rw [hcons, if_neg (by simp), if_neg (by simp)]
          rw [hd]
          refine ⟨Sound_setChild n _ c hn hs (hstay rfl rfl), fun _ => ⟨rfl, rfl⟩,
            ⟨fun _ => hT, fun _ => rfl⟩, fun h => absurd h (by simp), ?_,
            fun _ h => absurd h (by simp), ?_, fun _ _ => Or.inl (setChild_HasChildren _ _ _)⟩
          · intro _ _
            rw [hif]
            show getLoop (c :: rest) (n.setChild c child1) = _
            rw [getLoop_setChild_same]
            exact hgone rfl (by
              by_cases hr : rest = []
              · exact Or.inr rfl
              · exact Or.inl hr)
          · intro _ key1 hk1
            show getLoop key1 (n.setChild c child1) = _
            cases key1 with
            | nil => rfl
            | cons c1 rest1 =>
              by_cases hcc : c1 = c
              · subst hcc
                have hr1 : rest1 ≠ rest := fun h => hk1 (by rw [h])
                rw [getLoop_setChild_same, getLoop_cons, hfind]
                exact hbelow rest1 hr1
              · exact getLoop_setChild_other _ _ _ _ _ hcc
        | false =>
          have hl := hleaf rfl rfl
          -- nothing but the removed key was read through the child
          have hnone : ∀ rest1, rest1 ≠ rest →
              (if rest1.isEmpty then getLast child else getLoop rest1 child) =
                .ok (default, false) := by
            intro rest1 h1
            rw [← hbelow rest1 h1]
            by_cases hre : rest1.isEmpty = true
            · rw [if_pos hre]
              have hr : rest ≠ [] := by
                intro h; apply h1; rw [h]; exact List.isEmpty_iff.1 hre
              exact getLast_of_not_end _ (hl.2 hr)
            · rw [if_neg hre]
              exact getLoop_no_children _ _ (no_children_of_not_HasChildren _ hl.1)
          have hothers : ∀ key1, key1 ≠ c :: rest →
              getLoop key1 ((n.setChild c child1).RemoveChildNode c) = getLoop key1 n := by
            intro key1 hk1
            cases key1 with
            | nil => rfl
            | cons c1 rest1 =>
              by_cases hcc : c1 = c
              · subst hcc
                have hr1 : rest1 ≠ rest := fun h => hk1 (by rw [h])
                rw [getLoop_removed_same, getLoop_cons, hfind]
                exact (hnone rest1 hr1).symm
              · rw [getLoop_removed_other _ _ _ _ hcc]
                exact getLoop_setChild_other _ _ _ _ _ hcc
          have hsnd := Sound_removed n child1 c hn
          by_cases hdrop : (!((n.setChild c child1).RemoveChildNode c).HasChildren &&
              !((n.setChild c child1).RemoveChildNode c).IsEndNode) = true
          · have hd : Dfs (c :: rest) n =
                ((n.setChild c child1).RemoveChildNode c, false, true) := by
              rw [hcons, if_neg (by simp), if_pos rfl, if_pos hdrop]
            rw [hd]
            simp only [Bool.and_eq_true, Bool.not_eq_true', IsEndNode] at hdrop
            exact ⟨hsnd, fun _ => ⟨rfl, rfl⟩, ⟨fun _ => hT, fun _ => rfl⟩,
              fun h => absurd h (by simp),
              fun _ _ => (hif _).trans (getLoop_removed_same _ _ _),
              fun _ _ => ⟨hdrop.1, fun _ => hdrop.2⟩, fun _ => hothers,
              fun _ h => absurd h (by simp)⟩
          · have hd : Dfs (c :: rest) n =
                ((n.setChild c child1).RemoveChildNode c, true, true) := by
              rw [hcons, if_neg (by simp), if_pos rfl, if_neg hdrop]
            rw [hd]
            have hkeep2 : ((n.setChild c child1).RemoveChildNode c).HasChildren = true ∨
                ((n.setChild c child1).RemoveChildNode c).is_end_ = true := by
              simp only [Bool.and_eq_true, Bool.not_eq_true', IsEndNode, not_and,
                Bool.not_eq_false] at hdrop
              by_cases h : ((n.setChild c child1).RemoveChildNode c).HasChildren = true
              · exact Or.inl h
              · exact Or.inr (hdrop (by simpa using h))
            exact ⟨hsnd, fun _ => ⟨rfl, rfl⟩, ⟨fun _ => hT, fun _ => rfl⟩,
              fun h => absurd h (by simp),
              fun _ _ => (hif _).trans (getLoop_removed_same _ _ _),
              fun _ h => absurd h (by simp), fun _ => hothers, fun _ _ => hkeep2⟩

end Trie

namespace Trie

open TrieNode

variable {V : Type}

theorem Sound_nodeAt : ∀ (p : List Char) (n m : TrieNode V), n.Sound → n.nodeAt p = some m →
    m.Sound ∧ (p ≠ [] → m.HasChildren = true ∨ m.is_end_ = true) := by
  intro p
  induction p with
  | nil =>
    intro n m hn h
    simp only [nodeAt, Option.some.injEq] at h
    subst h
    exact ⟨hn, fun h => absurd rfl h⟩
  | cons c rest ih =>
    intro n m hn h
    simp only [nodeAt, GetChildNode_eq] at h
    cases hf : find n.children_ c with
    | none => rw [hf] at h; simp at h
    | some child =>
      rw [hf] at h
      simp only at h
      have hc := Sound_child n hn _ (find_mem _ _ _ hf)
      have h1 := ih child m hc.1 h
      refine ⟨h1.1, fun _ => ?_⟩
      cases rest with
      | nil =>
        simp only [nodeAt, Option.some.injEq] at h
        subst h
        exact hc.2
      | cons c1 rest1 => exact h1.2 (by simp)

theorem Remove_root (t : Trie V) (key : List Char) :
    (t.Remove key).1.root_ = (Dfs key t.root_).1 := rfl

theorem Remove_result (t : Trie V) (key : List Char) :
    (t.Remove key).2 = (Dfs key t.root_).2.2 := rfl

theorem Reachable_sound [Inhabited V] (t : Trie V) (h : t.Reachable) :
    t.root_.Sound ∧ t.root_.is_end_ = false := by
  induction h with
  | new => exact ⟨Sound_new _, rfl⟩
  | Insert t t1 key value r _ hins ih =>
    unfold Trie.Insert at hins
    by_cases hk : key.isEmpty = true
    · rw [if_pos hk] at hins
      simp only [Except.ok.injEq, Prod.mk.injEq] at hins
      rw [← hins.1]; exact ih
    · rw [if_neg hk] at hins
      have hne : key ≠ [] := fun h => hk (by rw [h]; rfl)
      obtain ⟨n1, r1, hl, hs, he, _⟩ := insertLoop_spec value key t.root_ hne ih.1
      rw [hl] at hins
      simp only [Except.ok.injEq, Prod.mk.injEq] at hins
      rw [← hins.1]
      exact ⟨hs, he.trans ih.2⟩
  | Remove t key _ ih =>
    rw [Remove_root]
    have hd := Dfs_spec key t.root_ ih.1
    refine ⟨hd.1, ?_⟩
    cases key with
    | nil =>
      have : Dfs [] t.root_ = (t.root_, false, false) := by
        simp [Dfs, IsEndNode, ih.2]
      rw [this]; exact ih.2
    | cons c rest => exact ((hd.2.1 (by simp)).1).trans ih.2

end Trie

/-- C31: for every trie built by `Insert` and `Remove` calls, `Insert(k, v)` returns a
value; it returns false exactly when `k` is empty or `GetValue(k)` already succeeds, and
then the trie is the one before the call; when it returns true, `GetValue(k)` gives
`v` with success, and `GetValue` of every other key is what it was. -/
theorem trie_insert_contract {V : Type} [Inhabited V] (t : Trie V) (ht : t.Reachable)
    (k : List Char) (v : V) :
    ∃ t1 r, t.Insert k v = .ok (t1, r) ∧
      (r = false ↔ (k = [] ∨ (t.GetValue k).map Prod.snd = .ok true)) ∧
      (r = false → t1 = t) ∧
      (r = true → t1.GetValue k = .ok (v, true) ∧
        ∀ k1, k1 ≠ k → t1.GetValue k1 = t.GetValue k1) := by
  have hs := Trie.Reachable_sound t ht
  cases k with
  | nil =>
    refine ⟨t, false, rfl, ⟨fun _ => Or.inl rfl, fun _ => rfl⟩, fun _ => rfl,
      fun h => absurd h (by simp)⟩
  | cons c rest =>
    obtain ⟨n1, r, hl, _, _, _, _, hiff, hsame, hget, hoth⟩ :=
      Trie.insertLoop_spec v (c :: rest) t.root_ (by simp) hs.1
    refine ⟨{ root_ := n1 }, r, ?_, ?_, ?_, ?_⟩
    · simp only [Trie.Insert, List.isEmpty_cons, Bool.false_eq_true, if_false, hl]
    · rw [hiff]
      simp only [Trie.GetValue, List.isEmpty_cons, Bool.false_eq_true, if_false]
      constructor
      · intro h; exact Or.inr h
      · intro h
        rcases h with h | h
        · exact absurd h (by simp)
        · exact h
    · intro h
      rw [hsame h]
    · intro h
      refine ⟨?_, ?_⟩
      · simp only [Trie.GetValue, List.isEmpty_cons, Bool.false_eq_true, if_false]
        exact hget h
      · intro k1 hk1
        simp only [Trie.GetValue]
        rw [hoth k1 hk1]

/-- C31, at the trie that holds the key "ab": inserting the key "a" there. -/
theorem trie_insert_contract_witness :
    (Trie.Reachable (Trie.mk (TrieNode.mk (Char.ofNat 0) false none
        [('a', TrieNode.mk 'a' false none [('b', TrieNode.mk 'b' true (some 5) [])])]) : Trie Nat)) ∧
    ∃ t1 r, ((Trie.mk (TrieNode.mk (Char.ofNat 0) false none
        [('a', TrieNode.mk 'a' false none [('b', TrieNode.mk 'b' true (some 5) [])])]) : Trie Nat).Insert ['a'] 7 = .ok (t1, r)) ∧
      (r = false ↔ (['a'] = ([] : List Char) ∨
        ((Trie.mk (TrieNode.mk (Char.ofNat 0) false none
        [('a', TrieNode.mk 'a' false none [('b', TrieNode.mk 'b' true (some 5) [])])]) : Trie Nat).GetValue ['a']).map Prod.snd = .ok true)) ∧
      (r = false → t1 = (Trie.mk (TrieNode.mk (Char.ofNat 0) false none
        [('a', TrieNode.mk 'a' false none [('b', TrieNode.mk 'b' true (some 5) [])])]) : Trie Nat)) ∧
      (r = true → t1.GetValue ['a'] = .ok (7, true) ∧
        ∀ k1, k1 ≠ ['a'] → t1.GetValue k1 =
          (Trie.mk (TrieNode.mk (Char.ofNat 0) false none
        [('a', TrieNode.mk 'a' false none [('b', TrieNode.mk 'b' true (some 5) [])])]) : Trie Nat).GetValue k1) :=
  ⟨Trie.Reachable.Insert Trie.new _ ['a', 'b'] 5 true Trie.Reachable.new (by rfl),
   trie_insert_contract _
    (Trie.Reachable.Insert Trie.new _ ['a', 'b'] 5 true Trie.Reachable.new (by rfl)) ['a'] 7⟩

/-- C32: for every trie built by `Insert` and `Remove` calls, `Remove(k)` returns true
exactly when `GetValue(k)` succeeds (so it returns false for the empty key); when it
returns false the trie is the one before the call; when it returns true, `GetValue(k)`
fails afterwards, `GetValue` of every other key is what it was, and every node below
the root has a child or its end flag set. -/
theorem trie_remove_contract {V : Type} [Inhabited V] (t : Trie V) (ht : t.Reachable)
    (k : List Char) :
    ((t.Remove k).2 = true ↔ (t.GetValue k).map Prod.snd = .ok true) ∧
    (k = [] → (t.Remove k).2 = false) ∧
    ((t.Remove k).2 = false → (t.Remove k).1 = t) ∧
    ((t.Remove k).2 = true →
      (t.Remove k).1.GetValue k = .ok (default, false) ∧
      (∀ k1, k1 ≠ k → (t.Remove k).1.GetValue k1 = t.GetValue k1) ∧
      (∀ p m, p ≠ [] → (t.Remove k).1.root_.nodeAt p = some m →
        m.HasChildren = true ∨ m.IsEndNode = true)) := by
  have hs := Trie.Reachable_sound t ht
  obtain ⟨hsound, _, hiff, hsame, hgone, _, hoth, _⟩ := Trie.Dfs_spec k t.root_ hs.1
  have hlast : (Trie.getLast t.root_ : Except Fault (V × Bool)) = .ok (default, false) :=
    Trie.getLast_of_not_end _ hs.2
  have hiff2 : (t.Remove k).2 = true ↔ (t.GetValue k).map Prod.snd = .ok true := by
    rw [Trie.Remove_result, hiff]
    cases k with
    | nil => simp [Trie.GetValue, hlast]
    | cons c rest => simp [Trie.GetValue]
  have hnil : k = [] → (t.Remove k).2 = false := by
    intro hk
    subst hk
    cases h : (t.Remove []).2 with
    | false => rfl
    | true =>
      have := hiff2.1 h
      simp [Trie.GetValue, Except.map] at this
  refine ⟨hiff2, hnil, ?_, ?_⟩
  · intro h
    rw [Trie.Remove_result] at h
    have h1 := hsame h
    cases t with
    | mk root =>
      show ({ root_ := (Trie.Dfs k root).1 } : Trie V) = { root_ := root }
      rw [show (Trie.Dfs k root).1 = root from h1]
  · intro h
    have hk : k ≠ [] := by
      intro hk
      rw [hnil hk] at h
      exact absurd h (by simp)
    have hke : ¬ k.isEmpty = true := fun h1 => hk (List.isEmpty_iff.1 h1)
    rw [Trie.Remove_result] at h
    refine ⟨?_, ?_, ?_⟩
    · have := hgone h (Or.inl hk)
      rw [if_neg hke] at this
      simp only [Trie.GetValue, if_neg hke, Trie.Remove_root]
      exact this
    · intro k1 hk1
      simp only [Trie.GetValue, Trie.Remove_root]
      rw [hoth h k1 hk1]
    · intro p m hp hm
      rw [Trie.Remove_root] at hm
      exact (Trie.Sound_nodeAt p _ m hsound hm).2 hp

/-- C32, at the trie that holds the keys "ab" and "a": removing the key "ab" there. -/
theorem trie_remove_contract_witness :
    (Trie.Reachable (Trie.mk (TrieNode.mk (Char.ofNat 0) false none
        [('a', TrieNode.mk 'a' true (some 7) [('b', TrieNode.mk 'b' true (some 5) [])])]) : Trie Nat)) ∧
    ((Trie.mk (TrieNode.mk (Char.ofNat 0) false none
        [('a', TrieNode.mk 'a' true (some 7) [('b', TrieNode.mk 'b' true (some 5) [])])]) : Trie Nat).Remove ['a', 'b']).2 = true ∧
    ((Trie.mk (TrieNode.mk (Char.ofNat 0) false none
        [('a', TrieNode.mk 'a' true (some 7) [('b', TrieNode.mk 'b' true (some 5) [])])]) : Trie Nat).Remove ['a', 'b']).1.GetValue ['a', 'b'] = .ok (default, false) :=
  ⟨Trie.Reachable.Insert _ _ ['a'] 7 true
      (Trie.Reachable.Insert Trie.new _ ['a', 'b'] 5 true Trie.Reachable.new (by rfl)) (by rfl),
   by rfl,
   ((trie_remove_contract _
      (Trie.Reachable.Insert _ _ ['a'] 7 true
        (Trie.Reachable.Insert Trie.new
          (Trie.mk (TrieNode.mk (Char.ofNat 0) false none
        [('a', TrieNode.mk 'a' false none [('b', TrieNode.mk 'b' true (some 5) [])])]) : Trie Nat) ['a', 'b'] 5 true Trie.Reachable.new (by rfl)) (by rfl))
      ['a', 'b']).2.2.2 (by rfl)).1⟩

/-! ## Arrays of a page: reads, stores and the two library loops -/

theorem rd_append_left (es rest : List (Int × Int)) (i : Nat) (h : i < es.length) :
    rd (es ++ rest) i = rd es i := by
  simp [rd, List.getD_eq_getElem?_getD, List.getElem?_append_left h]

theorem rd_eq_getElem (es : List (Int × Int)) (i : Nat) (h : i < es.length) :
    rd es i = es[i] := by
  simp [rd, List.getD_eq_getElem?_getD, List.getElem?_eq_getElem h]

theorem rd_append_length (pre : List (Int × Int)) (x : Int × Int) (tail : List (Int × Int)) :
    rd (pre ++ x :: tail) pre.length = x := by
  simp only [rd, List.getD_eq_getElem?_getD]
  rw [List.getElem?_append_right (le_refl _)]
  simp

theorem wr_append_length (pre rest : List (Int × Int)) (e : Int × Int) :
    wr (pre ++ rest) pre.length e = pre ++ e :: rest.drop 1 := by
  cases rest with
  | nil => simp [wr]
  | cons x xs =>
    have h : pre.length < (pre ++ x :: xs).length := by simp
    simp [wr, h, List.set_append]

theorem moveBackward_shift (pre : List (Int × Int)) (x : Int × Int) :
    ∀ (n : Nat) (xs post : List (Int × Int)), xs.length = n →
      moveBackward (pre ++ x :: xs ++ post) pre.length (n + 1) =
        pre ++ x :: x :: xs ++ post.drop 1 := by
  intro n
  induction n with
  | zero =>
    intro xs post hxs
    have hx : xs = [] := List.length_eq_zero.1 hxs
    subst hx
    simp only [moveBackward, Nat.add_zero, List.append_assoc, List.cons_append, List.nil_append]
    rw [rd_append_length]
    have := wr_append_length (pre ++ [x]) post x
    simp only [List.length_append, List.length_singleton, List.append_assoc, List.cons_append,
      List.nil_append] at this
    exact this
  | succ n ih =>
    intro xs post hxs
    have hne : xs ≠ [] := by intro h; rw [h] at hxs; simp at hxs
    obtain ⟨ys, y, hy⟩ : ∃ ys y, xs = ys ++ [y] := ⟨xs.dropLast, xs.getLast hne,
      (List.dropLast_append_getLast hne).symm⟩
    subst hy
    have hys : ys.length = n := by simpa using hxs
    rw [moveBackward]
    have hrd : rd (pre ++ x :: (ys ++ [y]) ++ post) (pre.length + (n + 1)) = y := by
      have := rd_append_length (pre ++ x :: ys) y post
      simp only [List.length_append, List.length_cons, hys, List.append_assoc,
        List.cons_append] at this
      simp only [List.append_assoc, List.cons_append, List.nil_append]
      exact this
    rw [hrd]
    have hwr : wr (pre ++ x :: (ys ++ [y]) ++ post) (pre.length + (n + 1) + 1) y =
        pre ++ x :: ys ++ (y :: y :: post.drop 1) := by
      have := wr_append_length (pre ++ x :: (ys ++ [y])) post y
      simp only [List.length_append, List.length_cons, List.length_singleton, hys, List.length_nil,
        List.append_assoc, List.cons_append, List.nil_append] at this
      simp only [List.append_assoc, List.cons_append, List.nil_append]
      have e : pre.length + (n + 1) + 1 = pre.length + (n + 0 + 1 + 1) := by omega
      rw [e]
      exact this
    rw [hwr, ih ys _ hys]
    simp

theorem insert_slot (pre : List (Int × Int)) (x : Int × Int) (xs post : List (Int × Int))
    (e : Int × Int) :
    wr (moveBackward (pre ++ x :: xs ++ post) pre.length (xs.length + 1)) pre.length e =
      pre ++ e :: x :: xs ++ post.drop 1 := by
  rw [moveBackward_shift pre x xs.length xs post rfl]
  have := wr_append_length pre (x :: x :: xs ++ post.drop 1) e
  simpa using this

/-- The result of `lowerBound` on slots whose keys do not decrease. -/
theorem lowerBound_spec (a : List (Int × Int)) (key : Int) :
    ∀ (fuel first len : Nat), len ≤ fuel →
      (∀ i j, first ≤ i → i ≤ j → j < first + len → (rd a i).1 ≤ (rd a j).1) →
      first ≤ lowerBound a key fuel first len ∧ lowerBound a key fuel first len ≤ first + len ∧
      (∀ j, first ≤ j → j < lowerBound a key fuel first len → (rd a j).1 < key) ∧
      (∀ j, lowerBound a key fuel first len ≤ j → j < first + len → key ≤ (rd a j).1) := by
  intro fuel
  induction fuel with
  | zero =>
    intro first len hlen _
    have : len = 0 := by omega
    subst this
    simp only [lowerBound]
    exact ⟨le_refl _, by omega, fun j h1 h2 => by omega, fun j h1 h2 => by omega⟩
  | succ fuel ih =>
    intro first len hlen hmono
    by_cases h0 : len = 0
    · subst h0
      simp only [lowerBound, if_true]
      exact ⟨le_refl _, by omega, fun j h1 h2 => by omega, fun j h1 h2 => by omega⟩
    · simp only [lowerBound, if_neg h0]
      have hhalf : len / 2 < len := Nat.div_lt_self (by omega) (by omega)
      by_cases hm : (rd a (first + len / 2)).1 < key
      · rw [if_pos hm]
        have hrec := ih (first + len / 2 + 1) (len - len / 2 - 1) (by omega)
          (fun i j h1 h2 h3 => hmono i j (by omega) h2 (by omega))
        obtain ⟨h1, h2, h3, h4⟩ := hrec
        refine ⟨by omega, by omega, ?_, ?_⟩
        · intro j hj1 hj2
          by_cases hj : j ≤ first + len / 2
          · exact lt_of_le_of_lt (hmono j (first + len / 2) hj1 hj (by omega)) hm
          · exact h3 j (by omega) hj2
        · intro j hj1 hj2
          exact h4 j hj1 (by omega)
      · rw [if_neg hm]
        have hrec := ih first (len / 2) (by omega)
          (fun i j h1 h2 h3 => hmono i j h1 h2 (by omega))
        obtain ⟨h1, h2, h3, h4⟩ := hrec
        refine ⟨h1, by omega, h3, ?_⟩
        intro j hj1 hj2
        by_cases hj : j < first + len / 2
        · exact h4 j hj1 hj
        · exact le_trans (not_lt.1 hm) (hmono (first + len / 2) j (by omega) (by omega) hj2)

theorem setLeafArray_ok (p : BPlusTreePage) (a b : List (Int × Int))
    (h : p.leafArray = .ok a) :
    ∃ p1, p.setLeafArray b = .ok p1 ∧ p1.leafArray = .ok b ∧ p1.size_ = p.size_ := by
  unfold BPlusTreePage.leafArray at h
  unfold BPlusTreePage.setLeafArray
  cases hb : p.body with
  | zeroed => exact ⟨_, rfl, by simp [BPlusTreePage.leafArray], rfl⟩
  | leaf n a0 => exact ⟨_, rfl, by simp [BPlusTreePage.leafArray], rfl⟩
  | internal a0 => rw [hb] at h; simp at h

theorem sorted_rd (es : List (Int × Int)) (h : (es.map Prod.fst).Pairwise (fun x y => x < y))
    (i j : Nat) (hij : i < j) (hj : j < es.length) : (rd es i).1 < (rd es j).1 := by
  rw [List.pairwise_iff_getElem] at h
  have := h i j (by simp; omega) (by simp; omega) hij
  simp only [List.getElem_map] at this
  rw [rd_eq_getElem es i (by omega), rd_eq_getElem es j hj]
  exact this

theorem mem_take_rd (es : List (Int × Int)) (i : Nat) (e : Int × Int) (h : e ∈ es.take i) :
    ∃ j, j < i ∧ j < es.length ∧ rd es j = e := by
  rw [List.mem_iff_getElem] at h
  obtain ⟨j, hj, he⟩ := h
  simp only [List.length_take] at hj
  refine ⟨j, by omega, by omega, ?_⟩
  rw [rd_eq_getElem es j (by omega), ← he, List.getElem_take]

theorem mem_drop_rd (es : List (Int × Int)) (i : Nat) (e : Int × Int) (h : e ∈ es.drop i) :
    ∃ j, i ≤ j ∧ j < es.length ∧ rd es j = e := by
  rw [List.mem_iff_getElem] at h
  obtain ⟨j, hj, he⟩ := h
  simp only [List.length_drop] at hj
  refine ⟨i + j, by omega, by omega, ?_⟩
  rw [rd_eq_getElem es (i + j) (by omega), ← he, List.getElem_drop]

theorem mem_rd (es : List (Int × Int)) (e : Int × Int) (h : e ∈ es) :
    ∃ j, j < es.length ∧ rd es j = e := by
  rw [List.mem_iff_getElem] at h
  obtain ⟨j, hj, he⟩ := h
  exact ⟨j, hj, by rw [rd_eq_getElem es j hj, he]⟩

theorem rd_mem (es : List (Int × Int)) (j : Nat) (h : j < es.length) : rd es j ∈ es := by
  rw [rd_eq_getElem es j h]
  exact List.getElem_mem _

/-- The slot that `KeyIndex` finds in a leaf with ascending keys. -/
theorem KeyIndex_spec (p : BPlusTreePage) (es rest : List (Int × Int)) (k : Int)
    (harr : p.leafArray = .ok (es ++ rest)) (hsize : p.size_ = es.length)
    (hsorted : (es.map Prod.fst).Pairwise (fun x y => x < y)) :
    ∃ i : Nat, i ≤ es.length ∧ BPlusTreeLeafPage.KeyIndex p k = .ok (Int.ofNat i) ∧
      (∀ j, j < i → (rd es j).1 < k) ∧ (∀ j, i ≤ j → j < es.length → k ≤ (rd es j).1) := by
  have hn : p.GetSize.toNat = es.length := by
    simp [BPlusTreePage.GetSize, hsize]
  have hmono : ∀ i j, 0 ≤ i → i ≤ j → j < 0 + es.length →
      (rd (es ++ rest) i).1 ≤ (rd (es ++ rest) j).1 := by
    intro i j _ hij hj
    rw [rd_append_left es rest i (by omega), rd_append_left es rest j (by omega)]
    rcases Nat.lt_or_eq_of_le hij with h | h
    · exact le_of_lt (sorted_rd es hsorted i j h (by omega))
    · rw [h]
  obtain ⟨_, h2, h3, h4⟩ := lowerBound_spec (es ++ rest) k es.length 0 es.length (le_refl _) hmono
  refine ⟨lowerBound (es ++ rest) k es.length 0 es.length, by omega, ?_, ?_, ?_⟩
  · simp only [BPlusTreeLeafPage.KeyIndex, harr, hn]
    rfl
  · intro j hj
    have := h3 j (Nat.zero_le _) hj
    rwa [rd_append_left es rest j (by omega)] at this
  · intro j hj1 hj2
    have := h4 j hj1 (by omega)
    rwa [rd_append_left es rest j hj2] at this

theorem toIdx_ofNat (i : Nat) : toIdx (Int.ofNat i) = .ok i := by
  simp [toIdx]

theorem sorted_insert (es : List (Int × Int)) (i : Nat) (k v : Int) (_hi : i ≤ es.length)
    (hsorted : (es.map Prod.fst).Pairwise (fun x y => x < y))
    (hlt : ∀ e ∈ es.take i, e.1 < k) (hgt : ∀ e ∈ es.drop i, k < e.1) :
    ((es.take i ++ (k, v) :: es.drop i).map Prod.fst).Pairwise (fun x y => x < y) := by
  have hes : es.take i ++ es.drop i = es := List.take_append_drop i es
  rw [← hes, List.map_append, List.pairwise_append] at hsorted
  obtain ⟨h1, h2, h3⟩ := hsorted
  rw [List.map_append, List.map_cons, List.pairwise_append]
  refine ⟨h1, ?_, ?_⟩
  · rw [List.pairwise_cons]
    refine ⟨?_, h2⟩
    intro y hy
    rw [List.mem_map] at hy
    obtain ⟨e, he, rfl⟩ := hy
    exact hgt e he
  · intro x hx y hy
    rw [List.mem_cons] at hy
    rcases hy with hy | hy
    · rw [hy]
      rw [List.mem_map] at hx
      obtain ⟨e, he, rfl⟩ := hx
      exact hlt e he
    · exact h3 x hx y hy

/-- C34: on a leaf page whose first `size` slots `es` hold strictly ascending keys,
`KeyIndex(k)` is the slot `i` with smaller keys before it and no smaller key from it
on; when `k` is absent, `Insert(k, v)` returns `size + 1` and the entries become `es`
with `(k, v)` put in at slot `i`, still strictly ascending; when `k` is present,
`Insert` returns `size` and leaves the page as it is; `Lookup(k)` returns true exactly
when an entry has key `k`, with the value of that entry. -/
theorem leaf_insert_lookup_contract (p : BPlusTreePage) (es rest : List (Int × Int))
    (k v : Int) (harr : p.leafArray = .ok (es ++ rest)) (hsize : p.size_ = es.length)
    (hsorted : (es.map Prod.fst).Pairwise (fun x y => x < y)) :
    ∃ i : Nat, i ≤ es.length ∧ BPlusTreeLeafPage.KeyIndex p k = .ok (Int.ofNat i) ∧
      (∀ e ∈ es.take i, e.1 < k) ∧ (∀ e ∈ es.drop i, k ≤ e.1) ∧
      (k ∉ es.map Prod.fst →
        ∃ p1, BPlusTreeLeafPage.Insert p k v = .ok (p1, Int.ofNat es.length + 1) ∧
          p1.GetSize = Int.ofNat es.length + 1 ∧
          p1.leafArray = .ok (es.take i ++ (k, v) :: es.drop i ++ rest.drop 1) ∧
          ((es.take i ++ (k, v) :: es.drop i).map Prod.fst).Pairwise (fun x y => x < y)) ∧
      (k ∈ es.map Prod.fst → BPlusTreeLeafPage.Insert p k v = .ok (p, Int.ofNat es.length)) ∧
      ∃ o, BPlusTreeLeafPage.Lookup p k = .ok o ∧ (o.isSome = true ↔ k ∈ es.map Prod.fst) ∧
        ∀ w, o = some w → (k, w) ∈ es := by
  obtain ⟨i, hi, hKI, hlt, hge⟩ := KeyIndex_spec p es rest k harr hsize hsorted
  have htake : ∀ e ∈ es.take i, e.1 < k := by
    intro e he
    obtain ⟨j, hj1, _, hj3⟩ := mem_take_rd es i e he
    rw [← hj3]; exact hlt j hj1
  have hdrop : ∀ e ∈ es.drop i, k ≤ e.1 := by
    intro e he
    obtain ⟨j, hj1, hj2, hj3⟩ := mem_drop_rd es i e he
    rw [← hj3]; exact hge j hj1 hj2
  have hmem : k ∈ es.map Prod.fst ↔ i < es.length ∧ (rd es i).1 = k := by
    constructor
    · intro h
      rw [List.mem_map] at h
      obtain ⟨e, he, hek⟩ := h
      obtain ⟨j, hj, hje⟩ := mem_rd es e he
      have hjk : (rd es j).1 = k := by rw [hje, hek]
      have h1 : i ≤ j := by
        by_contra hc
        have := hlt j (by omega)
        omega
      rcases Nat.lt_or_eq_of_le h1 with h2 | h2
      · have h3 := sorted_rd es hsorted i j h2 hj
        have h4 := hge i (le_refl _) (by omega)
        omega
      · exact ⟨by omega, by rw [h2]; exact hjk⟩
    · intro h
      rw [List.mem_map]
      exact ⟨rd es i, rd_mem es i h.1, h.2⟩
  have hGS : p.GetSize = Int.ofNat es.length := by
    simp [BPlusTreePage.GetSize, hsize]
  refine ⟨i, hi, hKI, htake, hdrop, ?_, ?_, ?_⟩
  · -- the key is absent
    intro hk
    by_cases hend : i = es.length
    · subst hend
      obtain ⟨p1, hp1, hp1a, hp1s⟩ := setLeafArray_ok p (es ++ rest)
        (es ++ (k, v) :: rest.drop 1) harr
      refine ⟨p1.IncreaseSize 1, ?_, ?_, ?_, ?_⟩
      · simp only [BPlusTreeLeafPage.Insert, harr, hKI, toIdx_ofNat, hGS, if_true,
          wr_append_length, hp1, bind, Except.bind, pure, Except.pure]
        simp [BPlusTreePage.IncreaseSize, BPlusTreePage.GetSize, hp1s, hsize]
      · simp [BPlusTreePage.IncreaseSize, BPlusTreePage.GetSize, hp1s, hsize]
      · have : (p1.IncreaseSize 1).leafArray = p1.leafArray := rfl
        rw [this, hp1a]
        simp
      · exact sorted_insert es es.length k v (le_refl _) hsorted htake (by simp)
    · have hil : i < es.length := by omega
      have hne : (rd es i).1 ≠ k := fun h => hk (hmem.2 ⟨hil, h⟩)
      have hgt : ∀ e ∈ es.drop i, k < e.1 := by
        intro e he
        have h1 := hdrop e he
        rcases lt_or_eq_of_le h1 with h2 | h2
        · exact h2
        · exact absurd (List.mem_map.2 ⟨e, List.mem_of_mem_drop he, h2.symm⟩) hk
      obtain ⟨x, xs, hx⟩ : ∃ x xs, es.drop i = x :: xs := by
        cases hd : es.drop i with
        | nil =>
          have := congrArg List.length hd
          simp at this
          omega
        | cons x xs => exact ⟨x, xs, rfl⟩
      have hxs : xs.length + 1 = es.length - i := by
        have := congrArg List.length hx
        simp at this
        omega
      have hsplit : es ++ rest = es.take i ++ x :: xs ++ rest := by
        rw [List.append_assoc, ← hx, ← List.append_assoc, List.take_append_drop]
      have hlen : (es.take i).length = i := by simp; omega
      have hslot := insert_slot (es.take i) x xs rest (k, v)
      rw [hlen, ← hsplit, hxs] at hslot
      obtain ⟨p1, hp1, hp1a, hp1s⟩ := setLeafArray_ok p (es ++ rest)
        (es.take i ++ (k, v) :: x :: xs ++ rest.drop 1) harr
      have hidx : toIdx (Int.ofNat es.length - Int.ofNat i) = .ok (es.length - i) := by
        have : Int.ofNat es.length - Int.ofNat i = Int.ofNat (es.length - i) := by
          simp; omega
        rw [this, toIdx_ofNat]
      have hcond : ¬ (Int.ofNat i = Int.ofNat es.length) := by
        intro h; exact hend (Int.ofNat.inj h)
      have hrd : rd (es ++ rest) i = rd es i := rd_append_left es rest i hil
      refine ⟨p1.IncreaseSize 1, ?_, ?_, ?_, ?_⟩
      · simp only [BPlusTreeLeafPage.Insert, harr, hKI, toIdx_ofNat, hGS, if_neg hcond, hrd,
          if_neg hne, hidx, hslot, hp1, bind, Except.bind, pure, Except.pure]
        simp [BPlusTreePage.IncreaseSize, BPlusTreePage.GetSize, hp1s, hsize]
      · simp [BPlusTreePage.IncreaseSize, BPlusTreePage.GetSize, hp1s, hsize]
      · have : (p1.IncreaseSize 1).leafArray = p1.leafArray := rfl
        rw [this, hp1a, hx]
      · exact sorted_insert es i k v hi hsorted htake hgt
  · -- the key is present
    intro hk
    obtain ⟨hil, hik⟩ := hmem.1 hk
    have hcond : ¬ (Int.ofNat i = Int.ofNat es.length) := by
      intro h; have := Int.ofNat.inj h; omega
    have hrd : rd (es ++ rest) i = rd es i := rd_append_left es rest i hil
    simp only [BPlusTreeLeafPage.Insert, harr, hKI, toIdx_ofNat, hGS, if_neg hcond, hrd,
      hik, if_true, bind, Except.bind, pure, Except.pure]
  · -- Lookup
    by_cases hk : k ∈ es.map Prod.fst
    · obtain ⟨hil, hik⟩ := hmem.1 hk
      have hcond : ¬ (Int.ofNat i = Int.ofNat es.length ∨ (rd es i).1 ≠ k) := by
        intro h
        rcases h with h | h
        · have := Int.ofNat.inj h; omega
        · exact h hik
      have hrd : rd (es ++ rest) i = rd es i := rd_append_left es rest i hil
      refine ⟨some (rd es i).2, ?_, by simp [hk], ?_⟩
      · simp only [BPlusTreeLeafPage.Lookup, harr, hKI, toIdx_ofNat, hGS, hrd, if_neg hcond,
          bind, Except.bind, pure, Except.pure]
      · intro w hw
        simp only [Option.some.injEq] at hw
        have := rd_mem es i hil
        rw [← hw, ← hik]
        exact this
    · have hcond : Int.ofNat i = Int.ofNat es.length ∨ (rd (es ++ rest) i).1 ≠ k := by
        by_cases hend : i = es.length
        · exact Or.inl (by rw [hend])
        · right
          rw [rd_append_left es rest i (by omega)]
          intro h
          exact hk (hmem.2 ⟨by omega, h⟩)
      refine ⟨none, ?_, by simp [hk], by simp⟩
      simp only [BPlusTreeLeafPage.Lookup, harr, hKI, toIdx_ofNat, hGS, if_pos hcond,
        bind, Except.bind, pure, Except.pure]

/-- C36: on an internal page with `size >= 1` whose keys in the slots `1 .. size - 1`
are strictly ascending, `Lookup(k)` returns a child: the child of slot 0 when the page
has one slot or `k` is below the key of slot 1, and otherwise the child of the last
slot `i >= 1` whose key is at most `k`. -/
theorem internal_lookup_contract (p : BPlusTreePage) (es rest : List (Int × Int)) (k : Int)
    (harr : p.internalArray = .ok (es ++ rest)) (hsize : p.size_ = es.length)
    (hpos : 1 ≤ es.length)
    (hsorted : ((es.drop 1).map Prod.fst).Pairwise (fun x y => x < y)) :
    ∃ child, BPlusTreeInternalPage.Lookup p k = .ok child ∧
      ((es.length = 1 ∨ k < (rd es 1).1) → child = (rd es 0).2) ∧
      (∀ i, 1 ≤ i → i < es.length → (rd es i).1 ≤ k →
        (∀ j, i < j → j < es.length → k < (rd es j).1) → child = (rd es i).2) := by
  have hkeys : ∀ i j, 1 ≤ i → i < j → j < es.length → (rd es i).1 < (rd es j).1 := by
    intro i j hi hij hj
    have h := sorted_rd (es.drop 1) hsorted (i - 1) (j - 1) (by omega) (by simp; omega)
    have e1 : rd (es.drop 1) (i - 1) = rd es i := by
      rw [rd_eq_getElem (es.drop 1) (i - 1) (by simp; omega), rd_eq_getElem es i (by omega),
        List.getElem_drop]
      congr 1; omega
    have e2 : rd (es.drop 1) (j - 1) = rd es j := by
      rw [rd_eq_getElem (es.drop 1) (j - 1) (by simp; omega), rd_eq_getElem es j (by omega),
        List.getElem_drop]
      congr 1; omega
    rwa [e1, e2] at h
  have hmono : ∀ i j, 1 ≤ i → i ≤ j → j < 1 + (es.length - 1) →
      (rd (es ++ rest) i).1 ≤ (rd (es ++ rest) j).1 := by
    intro i j hi hij hj
    rw [rd_append_left es rest i (by omega), rd_append_left es rest j (by omega)]
    rcases Nat.lt_or_eq_of_le hij with h | h
    · exact le_of_lt (hkeys i j hi h (by omega))
    · rw [h]
  obtain ⟨h1, h2, h3, h4⟩ := lowerBound_spec (es ++ rest) k (es.length - 1) 1 (es.length - 1)
    (le_refl _) hmono
  generalize hr : lowerBound (es ++ rest) k (es.length - 1) 1 (es.length - 1) = r at h1 h2 h3 h4
  have hlt : ∀ j, 1 ≤ j → j < r → (rd es j).1 < k := by
    intro j hj1 hj2
    have := h3 j hj1 hj2
    rwa [rd_append_left es rest j (by omega)] at this
  have hge : ∀ j, r ≤ j → j < es.length → k ≤ (rd es j).1 := by
    intro j hj1 hj2
    have := h4 j hj1 (by omega)
    rwa [rd_append_left es rest j hj2] at this
  have hGS : p.GetSize = Int.ofNat es.length := by
    simp [BPlusTreePage.GetSize, hsize]
  have hidx : toIdx (Int.ofNat es.length - 1) = .ok (es.length - 1) := by
    have : Int.ofNat es.length - 1 = Int.ofNat (es.length - 1) := by
      simp; omega
    rw [this, toIdx_ofNat]
  have hL : BPlusTreeInternalPage.Lookup p k =
      (if Int.ofNat r = Int.ofNat es.length then .ok (rd es (es.length - 1)).2
       else if (rd (es ++ rest) r).1 = k then .ok (rd (es ++ rest) r).2
       else .ok (rd (es ++ rest) (r - 1)).2) := by
    simp only [BPlusTreeInternalPage.Lookup, BPlusTreeInternalPage.ValueAt, harr, hGS, hidx,
      bind, Except.bind, pure, Except.pure]
    rw [rd_append_left es rest (es.length - 1) (by omega), hr]
  rw [hL]
  by_cases hend : r = es.length
  · subst hend
    rw [if_pos rfl]
    refine ⟨_, rfl, ?_, ?_⟩
    · intro h
      rcases h with h | h
      · rw [h]
      · have h5 : es.length = 1 := by
          by_contra hc
          have := hlt 1 (le_refl _) (by omega)
          omega
        rw [h5]
    · intro i hi1 hi2 _ hmax
      have h5 : i = es.length - 1 := by
        by_contra hc
        have h6 := hmax (es.length - 1) (by omega) (by omega)
        have h7 := hlt (es.length - 1) (by omega) (by omega)
        omega
      rw [h5]
  · have hrl : r < es.length := by omega
    have hc : ¬ (Int.ofNat r = Int.ofNat es.length) := fun h => hend (Int.ofNat.inj h)
    rw [if_neg hc, rd_append_left es rest r hrl, rd_append_left es rest (r - 1) (by omega)]
    have hrk := hge r (le_refl _) hrl
    by_cases heq : (rd es r).1 = k
    · rw [if_pos heq]
      refine ⟨_, rfl, ?_, ?_⟩
      · intro h
        rcases h with h | h
        · omega
        · have h5 : r = 1 := by
            by_contra hc2
            have := hlt 1 (le_refl _) (by omega)
            omega
          rw [h5] at heq
          omega
      · intro i hi1 hi2 hik hmax
        have h5 : i = r := by
          rcases Nat.lt_trichotomy i r with h | h | h
          · have := hmax r h hrl
            omega
          · exact h
          · have := hkeys r i h1 h hi2
            omega
        rw [h5]
    · rw [if_neg heq]
      have hgt : k < (rd es r).1 := lt_of_le_of_ne hrk (Ne.symm heq)
      refine ⟨_, rfl, ?_, ?_⟩
      · intro h
        rcases h with h | h
        · omega
        · have h5 : r = 1 := by
            by_contra hc2
            have := hlt 1 (le_refl _) (by omega)
            omega
          rw [h5]
      · intro i hi1 hi2 hik hmax
        have h5 : i < r := by
          by_contra hc2
          have := hge i (by omega) hi2
          have h6 : (rd es i).1 = k := by omega
          rcases Nat.lt_or_eq_of_le (not_lt.1 hc2) with h | h
          · have := hkeys r i h1 h hi2
            omega
          · rw [← h] at h6; omega
        have h7 : i = r - 1 := by
          by_contra hc2
          have h8 := hmax (r - 1) (by omega) (by omega)
          have h9 := hlt (r - 1) (by omega) (by omega)
          omega
        rw [h7]

/-! ## B+Tree pages and tree: single calls on pages with an initialised header -/

/-- C33: `Init(page_id, parent_id, max_size)` on a zero-filled page followed by
`SetNextPageId(next_page_id)` leaves every header field zero: the page does not report
to be a leaf, its page id, parent id and maximum size are 0, and `GetNextPageId()` is
`INVALID_PAGE_ID`, although `next_page_id` is stored in the page. -/
theorem leaf_init_leaves_header_zero (page_id parent_id max_size next_page_id : Int) :
    (BPlusTreeLeafPage.SetNextPageId
      (BPlusTreeLeafPage.Init BPlusTreePage.zero page_id parent_id max_size) next_page_id).map
      (fun q => (q.IsLeafPage, q.GetSize, q.page_id_, q.parent_page_id_, q.GetMaxSize,
        BPlusTreeLeafPage.GetNextPageId q, q.nextField)) =
      .ok (false, 0, 0, 0, 0, INVALID_PAGE_ID, .ok next_page_id) := by
  rfl

/-- C35: on the leaf with keys 1 and 3, `RemoveAndDeleteRecord(2)` returns 1 and the
entry of key 3 is gone; `Remove(2)` on the tree made of that leaf does the same. -/
theorem removeAndDeleteRecord_of_absent_key_drops_next_entry :
    (BPlusTreeLeafPage.RemoveAndDeleteRecord
      (leafPage 1 INVALID_PAGE_ID 4 INVALID_PAGE_ID [(1, 10), (3, 30)]) 2).map
      (fun r => (r.2, r.1.GetSize, r.1.leafArray.map (fun a => a.take 1))) =
      .ok (1, 1, .ok [(1, 10)]) ∧
    ∀ fuel : Nat, (BPlusTree.Remove (fuel + 1)
      (BPlusTree.ofPages 1 4 4 [leafPage 1 INVALID_PAGE_ID 4 INVALID_PAGE_ID [(1, 10), (3, 30)]])
      2).map
      (fun t => ((t.buffer_pool_manager_.pages 1).GetSize,
        (t.buffer_pool_manager_.pages 1).leafArray.map (fun a => a.take 1))) =
      .ok (1, .ok [(1, 10)]) := by
  constructor
  · rfl
  · intro fuel; rfl

/-- C37: on the internal page with children 1, 2, 3 under the keys -, 10, 20,
`InsertNodeAfter(2, 15, 4)` returns 4 and stores the pair (15, 4) in slot 1, in front
of child 2, which moves to slot 2. -/
theorem insertNodeAfter_stores_in_front_of_old_node :
    (BPlusTreeInternalPage.InsertNodeAfter
      (internalPage 5 INVALID_PAGE_ID 4 [(0, 1), (10, 2), (20, 3)]) 2 15 4).map
      (fun r => (r.2, r.1.internalArray)) =
      .ok (4, .ok [(0, 1), (15, 4), (10, 2), (20, 3)]) := by
  rfl

/-- C38: a root (page 5, maximum size 3) holds the children 1, 2, 3; leaf 2 has split
off leaf 4 with rising key 15.  `InsertIntoParent` builds the scratch copy with the
children 1, 4, 2, 3, writes back the children 1, 4 to page 5 and gives the new sibling
(page 6) the single child 1: children 2 and 3 are in neither page, child 1 is in both,
and pages 2 and 3 keep page 5 as parent. -/
theorem insertIntoParent_split_loses_children :
    ∀ fuel : Nat, (BPlusTree.InsertIntoParent (fuel + 2)
      (BPlusTree.ofPages 5 4 3
        [leafPage 1 5 4 2 [(1, 1), (2, 2)], leafPage 2 5 4 4 [(10, 10), (11, 11)],
         leafPage 3 5 4 INVALID_PAGE_ID [(20, 20), (21, 21)],
         leafPage 4 5 4 3 [(15, 15), (16, 16)],
         internalPage 5 INVALID_PAGE_ID 3 [(0, 1), (10, 2), (20, 3)]])
      (.page 2) 15 (.page 4)).map
      (fun t => (t.buffer_pool_manager_.mem.internalArray.map (fun a => a.map Prod.snd),
        (t.buffer_pool_manager_.pages 5).GetSize,
        (t.buffer_pool_manager_.pages 5).internalArray.map (fun a => (a.take 2).map Prod.snd),
        (t.buffer_pool_manager_.pages 6).GetSize,
        (t.buffer_pool_manager_.pages 6).internalArray.map (fun a => (a.take 1).map Prod.snd),
        (t.buffer_pool_manager_.pages 1).parent_page_id_,
        (t.buffer_pool_manager_.pages 2).parent_page_id_,
        (t.buffer_pool_manager_.pages 3).parent_page_id_)) =
      .ok (.ok [1, 4, 2, 3], 2, .ok [1, 4], 1, .ok [1], 6, 5, 5) := by
  intro fuel; rfl

/-- C39: on a root (page 2) that is an internal page with the single child 1,
`AdjustRoot` returns true and makes page 1 the root, but page 1 keeps page 2 as its
parent id and does not report to be the root; `Remove(4)` on the two-leaf tree under
root 3 ends likewise with root 1 whose parent id is 3. -/
theorem adjustRoot_keeps_parent_id_of_new_root :
    (BPlusTree.AdjustRoot
      (BPlusTree.ofPages 2 4 4
        [leafPage 1 2 4 INVALID_PAGE_ID [(1, 10), (2, 20)],
         internalPage 2 INVALID_PAGE_ID 4 [(0, 1)]]) (.page 2)).map
      (fun r => (r.2, r.1.root_page_id_, (r.1.buffer_pool_manager_.pages 1).parent_page_id_,
        (r.1.buffer_pool_manager_.pages 1).IsRootPage)) = .ok (true, 1, 2, false) ∧
    ∀ fuel : Nat, (BPlusTree.Remove (fuel + 2)
      (BPlusTree.ofPages 3 4 4
        [leafPage 1 3 4 2 [(1, 10), (2, 20)],
         leafPage 2 3 4 INVALID_PAGE_ID [(3, 30), (4, 40)],
         internalPage 3 INVALID_PAGE_ID 4 [(0, 1), (3, 2)]]) 4).map
      (fun t => (t.root_page_id_, (t.buffer_pool_manager_.pages 1).parent_page_id_,
        (t.buffer_pool_manager_.pages 1).IsRootPage)) = .ok (1, 3, false) := by
  constructor
  · rfl
  · intro fuel; rfl

/-- C40: the internal node 5 (child 1) borrows from its right sibling 6 (children 2,
3, 4 under the keys -, 60, 70) below the parent 7 with separator key[1] = 50.
`Redistribute` moves child 2 under key 50 to node 5, leaves the children 3, 4 in node
6, whose smallest key is now 60, and stores 60 into key[0] of the parent while key[1]
stays 50: `Lookup(55)` in the parent still leads to node 6.  After `Remove(31)` on a
three-level tree the same happens and `GetValue(50)` no longer finds the stored key
50. -/
theorem redistribute_internal_from_right_keeps_old_separator :
    (BPlusTree.Redistribute
      (BPlusTree.ofPages 7 4 4
        [leafPage 1 5 4 2 [(10, 10), (11, 11)], leafPage 2 6 4 3 [(50, 50), (51, 51)],
         leafPage 3 6 4 4 [(60, 60), (61, 61)],
         leafPage 4 6 4 INVALID_PAGE_ID [(70, 70), (71, 71)],
         internalPage 5 7 4 [(0, 1)], internalPage 6 7 4 [(0, 2), (60, 3), (70, 4)],
         internalPage 7 INVALID_PAGE_ID 4 [(0, 5), (50, 6)]])
      (.page 6) (.page 5) (.page 7) 0 false).map
      (fun t => ((t.buffer_pool_manager_.pages 5).internalArray.map (fun a => a.take 2),
        (t.buffer_pool_manager_.pages 6).GetSize,
        (t.buffer_pool_manager_.pages 6).internalArray.map (fun a => a.take 2),
        (t.buffer_pool_manager_.pages 7).internalArray,
        BPlusTreeInternalPage.Lookup (t.buffer_pool_manager_.pages 7) 55)) =
      .ok (.ok [(0, 1), (50, 2)], 2, .ok [(60, 3), (70, 4)], .ok [(60, 5), (50, 6)], .ok 6) ∧
    ∀ fuel : Nat, ((BPlusTree.Remove (fuel + 3)
      (BPlusTree.ofPages 10 4 4
        [leafPage 1 8 4 2 [(10, 10), (11, 11)], leafPage 2 8 4 3 [(20, 20), (21, 21)],
         leafPage 3 8 4 4 [(30, 30), (31, 31)], leafPage 4 9 4 5 [(50, 50), (51, 51)],
         leafPage 5 9 4 6 [(60, 60), (61, 61)], leafPage 6 9 4 7 [(70, 70), (71, 71)],
         leafPage 7 9 4 INVALID_PAGE_ID [(80, 80), (81, 81)],
         internalPage 8 10 4 [(0, 1), (20, 2), (30, 3)],
         internalPage 9 10 4 [(0, 4), (60, 5), (70, 6), (80, 7)],
         internalPage 10 INVALID_PAGE_ID 4 [(0, 8), (50, 9)]]) 31).bind
      (fun t => (BPlusTree.GetValue (fuel + 3) t 50).map
        (fun r => ((t.buffer_pool_manager_.pages 10).internalArray,
          (t.buffer_pool_manager_.pages 4).parent_page_id_,
          (t.buffer_pool_manager_.pages 4).leafArray, r.2.1)))) =
      .ok (.ok [(60, 8), (50, 9)], 8, .ok [(50, 50), (51, 51)], false) := by
  constructor
  · rfl
  · intro fuel; rfl

/-- C34, on the leaf with keys 1 and 3 and the new key 2. -/
theorem leaf_insert_lookup_contract_witness :
    (leafPage 1 INVALID_PAGE_ID 4 INVALID_PAGE_ID [(1, 10), (3, 30)]).leafArray =
      .ok ([(1, 10), (3, 30)] ++ []) ∧
    (leafPage 1 INVALID_PAGE_ID 4 INVALID_PAGE_ID [(1, 10), (3, 30)]).size_ =
      ([(1, 10), (3, 30)] : List (Int × Int)).length ∧
    (([(1, 10), (3, 30)] : List (Int × Int)).map Prod.fst).Pairwise (fun x y => x < y) ∧
    ∃ i : Nat, i ≤ ([(1, 10), (3, 30)] : List (Int × Int)).length ∧
      BPlusTreeLeafPage.KeyIndex
        (leafPage 1 INVALID_PAGE_ID 4 INVALID_PAGE_ID [(1, 10), (3, 30)]) 2 =
        .ok (Int.ofNat i) ∧
      (∀ e ∈ ([(1, 10), (3, 30)] : List (Int × Int)).take i, e.1 < 2) ∧
      (∀ e ∈ ([(1, 10), (3, 30)] : List (Int × Int)).drop i, 2 ≤ e.1) ∧
      ((2 : Int) ∉ ([(1, 10), (3, 30)] : List (Int × Int)).map Prod.fst →
        ∃ p1, BPlusTreeLeafPage.Insert
            (leafPage 1 INVALID_PAGE_ID 4 INVALID_PAGE_ID [(1, 10), (3, 30)]) 2 20 =
            .ok (p1, Int.ofNat ([(1, 10), (3, 30)] : List (Int × Int)).length + 1) ∧
          p1.GetSize = Int.ofNat ([(1, 10), (3, 30)] : List (Int × Int)).length + 1 ∧
          p1.leafArray = .ok (([(1, 10), (3, 30)] : List (Int × Int)).take i ++
            (2, 20) :: ([(1, 10), (3, 30)] : List (Int × Int)).drop i ++
            ([] : List (Int × Int)).drop 1) ∧
          ((([(1, 10), (3, 30)] : List (Int × Int)).take i ++
            (2, 20) :: ([(1, 10), (3, 30)] : List (Int × Int)).drop i).map
            Prod.fst).Pairwise (fun x y => x < y)) ∧
      ((2 : Int) ∈ ([(1, 10), (3, 30)] : List (Int × Int)).map Prod.fst →
        BPlusTreeLeafPage.Insert
          (leafPage 1 INVALID_PAGE_ID 4 INVALID_PAGE_ID [(1, 10), (3, 30)]) 2 20 =
          .ok (leafPage 1 INVALID_PAGE_ID 4 INVALID_PAGE_ID [(1, 10), (3, 30)],
            Int.ofNat ([(1, 10), (3, 30)] : List (Int × Int)).length)) ∧
      ∃ o, BPlusTreeLeafPage.Lookup
          (leafPage 1 INVALID_PAGE_ID 4 INVALID_PAGE_ID [(1, 10), (3, 30)]) 2 = .ok o ∧
        (o.isSome = true ↔ (2 : Int) ∈ ([(1, 10), (3, 30)] : List (Int × Int)).map Prod.fst) ∧
        ∀ w, o = some w → ((2 : Int), w) ∈ ([(1, 10), (3, 30)] : List (Int × Int)) :=
  ⟨rfl, rfl, by decide,
   leaf_insert_lookup_contract (leafPage 1 INVALID_PAGE_ID 4 INVALID_PAGE_ID [(1, 10), (3, 30)])
     [(1, 10), (3, 30)] [] 2 20 rfl rfl (by decide)⟩

/-- C36, on the internal page with children 1, 2, 3 under the keys -, 10, 20 and the
key 15. -/
theorem internal_lookup_contract_witness :
    (internalPage 5 INVALID_PAGE_ID 4 [(0, 1), (10, 2), (20, 3)]).internalArray =
      .ok ([(0, 1), (10, 2), (20, 3)] ++ []) ∧
    (internalPage 5 INVALID_PAGE_ID 4 [(0, 1), (10, 2), (20, 3)]).size_ =
      ([(0, 1), (10, 2), (20, 3)] : List (Int × Int)).length ∧
    1 ≤ ([(0, 1), (10, 2), (20, 3)] : List (Int × Int)).length ∧
    ((([(0, 1), (10, 2), (20, 3)] : List (Int × Int)).drop 1).map Prod.fst).Pairwise
      (fun x y => x < y) ∧
    ∃ child, BPlusTreeInternalPage.Lookup
        (internalPage 5 INVALID_PAGE_ID 4 [(0, 1), (10, 2), (20, 3)]) 15 = .ok child ∧
      ((([(0, 1), (10, 2), (20, 3)] : List (Int × Int)).length = 1 ∨
          15 < (rd [(0, 1), (10, 2), (20, 3)] 1).1) →
        child = (rd [(0, 1), (10, 2), (20, 3)] 0).2) ∧
      (∀ i, 1 ≤ i → i < ([(0, 1), (10, 2), (20, 3)] : List (Int × Int)).length →
        (rd [(0, 1), (10, 2), (20, 3)] i).1 ≤ 15 →
        (∀ j, i < j → j < ([(0, 1), (10, 2), (20, 3)] : List (Int × Int)).length →
          15 < (rd [(0, 1), (10, 2), (20, 3)] j).1) →
        child = (rd [(0, 1), (10, 2), (20, 3)] i).2) :=
  ⟨rfl, rfl, by decide, by decide,
   internal_lookup_contract (internalPage 5 INVALID_PAGE_ID 4 [(0, 1), (10, 2), (20, 3)])
     [(0, 1), (10, 2), (20, 3)] [] 15 rfl rfl (by decide) (by decide)⟩

end Bustub
